import Mathlib

/-!
XC: the compressed (UMFPACK) system of equations and the strategy bundles

A shallow embedding of `XC::UmfpackGenLinSOE` (file
`src/solution/system_of_eqn/linearSOE/umfGEN/UmfpackGenLinSOE.cpp`): the sizing of the
compressed row storage from the DOF graph (`setSize`), the assembly of element
contributions (`addA`) and the reset of the coefficients (`zeroA`); and of the strategy
bundle `XC::ModelWrapper` (`src/solution/analysis/ModelWrapper.cc`), of the registry of
bundles `XC::MapModelWrapper` (`src/solution/analysis/MapModelWrapper.cc`) and of
`XC::Analysis::newStepDomain` (`src/solution/analysis/analysis/Analysis.cpp`).

Modelling conventions.

* `double` coefficients are taken in exact arithmetic: the coefficient type is any
  commutative ring `R` with decidable equality (the code compares the factor with
  `0.0` and `1.0`), for instance `ℤ` or `ℚ`.
* `Vector` and `ID` objects are lists; `Size()` is the length of the list, a read outside
  the list yields `0` and a write outside the list is dropped.
* `int` counters that the code only ever increments from zero (`size`, `nnz`, slot
  offsets) are natural numbers; DOF tags and ids are integers. The product
  `lValue = 20*nnz` is the first `int` to overflow: `setSize` takes it exact, `setSize32`
  computes it (and `2*nnz`) as a 32-bit `int`, an overflow wrapping around, and the two
  agree for every graph whose `20*nnz` fits an `int` (`setSize32_eq`).
* The C++ loops are structural recursions whose first argument is the number of
  iterations that remain.
* The headers of the graph (`Graph.h`, `Vertex.h`), of the element matrix (`Matrix.h`)
  and of the base classes of the system are not among the sources: the members that
  `setSize` and `addA` use are modelled from the specification and from their use in
  `UmfpackGenLinSOE.cpp`.
* Owning pointers are `Option`s (`none` for `nullptr`) of the object pointed to, which
  carries its own address; `new` and `delete` act on a free store that hands every
  address out once, so that equal addresses mean the same object. A member function that
  copies through a pointer tests that the object pointed to is still alive.
* Messages written to `std::cerr` are collected in a list. A failed `assert` ends the call:
  the functions that can reach one return an outcome whose value is `none` in that case.
-/

namespace XC

/-! ## Collaborators: graph, element matrix -/

/-- Modelled from the spec: a vertex of the connectivity graph (`Vertex.h` is not among
the sources), with what `setSize` consumes of it: the DOF tag (`getTag`) and the
adjacency set of DOF tags (`getAdjacency`, a `std::set<int>`), listed in iteration
order. -/
structure Vertex where
  tag : Int
  adjacency : List Int
  deriving DecidableEq

/-- Modelled from the spec: the connectivity graph (`Graph.h` is not among the sources),
as the list of its DOF vertices in the order `getVertices()` yields them. -/
structure Graph where
  vertices : List Vertex
  deriving DecidableEq

/-- Modelled from the spec: the vertex count, `Graph::getNumVertex`. -/
def Graph.getNumVertex (g : Graph) : Nat := g.vertices.length

/-- Modelled from the spec: the vertex lookup by tag, `Graph::getVertexPtr`; `none` is the
null pointer that `setSize` tests for. -/
def Graph.getVertexPtr (g : Graph) (a : Int) : Option Vertex :=
  g.vertices.find? (fun v => decide (v.tag = a))

/-- Modelled from the spec: the class invariants of the graph containers (`Graph.h`,
`Vertex.h`, not among the sources) that the assembly relies on. An adjacency is a
`std::set<int>` (strictly ascending in iteration order), a vertex is never recorded as
adjacent to itself, and an edge only joins vertices of the graph. -/
def Graph.WellFormed (g : Graph) : Prop :=
  ∀ v ∈ g.vertices, v.adjacency.Pairwise (· < ·) ∧ v.tag ∉ v.adjacency ∧
    ∀ c ∈ v.adjacency, ∃ w ∈ g.vertices, w.tag = c

instance (g : Graph) : Decidable g.WellFormed := by
  unfold Graph.WellFormed; infer_instance

/-- Modelled from the spec: the local matrix of an element contribution (`Matrix.h` is not
among the sources), with what `addA` uses of it: `noRows()`, `noCols()` and the entry
accessor `m(i,j)`. -/
structure Matrix (R : Type) where
  noRows : Nat
  noCols : Nat
  entry : Nat → Nat → R

/-! ## The system of equations -/

/-- Data members of `UmfpackGenLinSOE` that `setSize`, `addA` and `zeroA` read or write
(those of its bases `FactoredSOEBase` and `LinearSOEData` included): the size, the
nonzero count, the row-start offsets, the column indices, the values, the solver index,
the right-hand side `B`, the solution `X` and the factored flag. -/
structure UmfpackGenLinSOE (R : Type) where
  size : Nat
  nnz : Nat
  lValue : Int
  A : List R
  colA : List Int
  rowStartA : List Nat
  index : List Int
  B : List R
  X : List R
  factored : Bool

variable {R : Type}

/-- State left by the constructor `UmfpackGenLinSOE(SoluMethod *)`. The source gives
`nnz(0)`; the constructors of the bases and of `Vector` and `ID` are not among the sources
and are taken to leave `size = 0`, empty vectors and IDs and a cleared factored flag (the
unsized state of the specification). -/
def UmfpackGenLinSOE.init : UmfpackGenLinSOE R :=
  { size := 0, nnz := 0, lValue := 0, A := [], colA := [], rowStartA := [], index := [],
    B := [], X := [], factored := false }

/-- First pass of `setSize`: `newNNZ += theAdjacency.size() + 1` over all vertices. -/
def countNNZ (vs : List Vertex) : Nat :=
  vs.foldl (fun newNNZ v => newNNZ + (v.adjacency.length + 1)) 0

/-- Loop `for (k = lastLoc; k > j; k--) colA[k] = colA[k-1]`; the first argument is `k`. -/
def shiftUp (j : Nat) : Nat → List Int → List Int
  | 0, colA => colA
  | k + 1, colA =>
    if k + 1 > j then shiftUp j k (colA.set (k + 1) (colA.getD k 0)) else colA

/-- Loop `for (j = startLoc; j < lastLoc; j++) if (colA[j] > row) ...`: at the first slot
holding a larger column the tail is shifted up and `row` stored there (`j = lastLoc`
leaves the loop). Returns the array and `foundPlace`. -/
def findPlace (row : Int) (lastLoc : Nat) : Nat → Nat → List Int → List Int × Bool
  | 0, _, colA => (colA, false)
  | n + 1, j, colA =>
    if colA.getD j 0 > row then ((shiftUp j lastLoc colA).set j row, true)
    else findPlace row lastLoc n (j + 1) colA

/-- Body of the adjacency loop of `setSize` for one adjacent tag `row` (before
`lastLoc++`). -/
def insertCol (row : Int) (startLoc lastLoc : Nat) (colA : List Int) : List Int :=
  let r := findPlace row lastLoc (lastLoc - startLoc) startLoc colA
  if r.2 = false then r.1.set lastLoc row else r.1

/-- One row of `setSize`: the diagonal first, then every adjacent tag inserted in order.
Returns `colA` and `lastLoc`. -/
def placeRow (v : Vertex) (startLoc : Nat) (colA : List Int) : List Int × Nat :=
  v.adjacency.foldl
    (fun (p : List Int × Nat) row => (insertCol row startLoc p.2 p.1, p.2 + 1))
    (colA.set startLoc v.tag, startLoc + 1)

/-- Loop `for (a = 0; a < size; a++)` of `setSize` from row `a` on, `n` rows remaining.
Returns whether every vertex was found, `colA` and `rowStartA`. -/
def fillRows (g : Graph) : Nat → Nat → Nat → List Int → List Nat → Bool × List Int × List Nat
  | 0, _, _, colA, rowStartA => (true, colA, rowStartA)
  | n + 1, a, startLoc, colA, rowStartA =>
    match g.getVertexPtr (a : Int) with
    | none => (false, colA, rowStartA)
    | some v =>
      let p := placeRow v startLoc colA
      fillRows g n (a + 1) p.2 p.1 (rowStartA.set (a + 1) p.2)

/-- Inner loop `for (j = rowBegin; j <= rowEnd; j++)` of the index fill: `p` entries have
been written so far through each of `indexRowPtr` and `indexColPtr`. -/
def fillIndexRow (nnz : Nat) (colA : List Int) (ii : Nat) :
    Nat → Nat → Nat → List Int → List Int × Nat
  | 0, _, p, index => (index, p)
  | n + 1, j, p, index =>
    fillIndexRow nnz colA ii n (j + 1) (p + 1)
      ((index.set p ((ii : Int) + 1)).set (nnz + p) (colA.getD j 0 + 1))

/-- Loop `for (ii = 0; ii < size; ii++)` of the index fill, `n` rows remaining. -/
def fillIndex (nnz : Nat) (colA : List Int) (rowStartA : List Nat) :
    Nat → Nat → Nat → List Int → List Int
  | 0, _, _, index => index
  | n + 1, ii, p, index =>
    let rowBegin := rowStartA.getD ii 0
    let r := fillIndexRow nnz colA ii (rowStartA.getD (ii + 1) 0 - rowBegin) rowBegin p index
    fillIndex nnz colA rowStartA n (ii + 1) r.2 r.1

/-- First part of `setSize` (up to the allocation of the row starts): `size`, `nnz` and
`lValue` are set, `A`, `colA` and `index` are reallocated when `lValue > A.Size()`, `A` is
zeroed, `factored` is cleared, and `B`, `X` and `rowStartA` are reallocated when
`size > B.Size()`. The helper `inic(size)` of the base class is not among the sources: it
is taken to give `B` and `X` the length `size`, filled with zeros. The product `20*nnz` is
exact here; `setSizeAlloc32` computes it as the 32-bit `int` of the source, and the two
agree when the product fits (`setSizeAlloc32_eq`). -/
def UmfpackGenLinSOE.setSizeAlloc [Zero R] (g : Graph) (s : UmfpackGenLinSOE R) :
    UmfpackGenLinSOE R :=
  let size := g.getNumVertex
  let newNNZ := countNNZ g.vertices
  let nnz := newNNZ
  let lValue := 20 * nnz
  let s1 : UmfpackGenLinSOE R :=
    if lValue > s.A.length then
      { s with A := List.replicate lValue 0, colA := List.replicate newNNZ 0,
               index := List.replicate (2 * nnz) 0 }
    else s
  let s2 : UmfpackGenLinSOE R :=
    { s1 with size := size, nnz := nnz, lValue := (lValue : Int),
              A := List.replicate s1.A.length 0, factored := false }
  if size > s2.B.length then
    { s2 with B := List.replicate size 0, X := List.replicate size 0,
              rowStartA := List.replicate (size + 1) 0 }
  else s2

/-- Second part of `setSize`: the block `if (size != 0)` that fills `rowStartA` and `colA`.
Returns whether every vertex was found, `colA` and `rowStartA`. -/
def UmfpackGenLinSOE.setSizeRows (g : Graph) (s : UmfpackGenLinSOE R) :
    Bool × List Int × List Nat :=
  if s.size ≠ 0 then fillRows g s.size 0 0 s.colA (s.rowStartA.set 0 0)
  else (true, s.colA, s.rowStartA)

/-- Model of `UmfpackGenLinSOE::setSize(Graph &)`. `solverOK` is the status returned by
`the_Solver->setSize()`. Returns the status and the new state; when a vertex is missing
the size is reset to `0` and `-1` is returned before the index is filled. The product
`20*nnz` is exact here (see `setSizeAlloc`); `setSize32` is the same function with the
32-bit product. -/
def UmfpackGenLinSOE.setSize [Zero R] (g : Graph) (solverOK : Int) (s : UmfpackGenLinSOE R) :
    Int × UmfpackGenLinSOE R :=
  let s1 := s.setSizeAlloc g
  let rows := s1.setSizeRows g
  if rows.1 = false then
    (-1, { s1 with size := 0, colA := rows.2.1, rowStartA := rows.2.2 })
  else
    (if solverOK < 0 then solverOK else 0,
     { s1 with colA := rows.2.1, rowStartA := rows.2.2,
               index := fillIndex s1.nnz rows.2.1 rows.2.2 s1.size 0 0 s1.index })

/-- Loop `for (k = startRowLoc; k < endRowLoc; k++) if (colA[k] == col) ...` of `addA`:
adds `v` at the first slot of the row holding column `col` (`k = endRowLoc` leaves the
loop). -/
def scanRow [Add R] [Zero R] (colA : List Int) (col : Int) (v : R) :
    Nat → Nat → List R → List R
  | 0, _, A => A
  | n + 1, k, A =>
    if colA.getD k 0 = col then A.set k (A.getD k 0 + v)
    else scanRow colA col v n (k + 1) A

/-- Loop `for (j = 0; j < idSize; j++)` of `addA` for local row `i`, written once for
both branches: `val i j` is `m(i,j)` in the branch `fact == 1.0` and `fact * m(i,j)` in
the other. -/
def addARow [Add R] [Zero R] (size : Nat) (colA : List Int) (id : List Int)
    (val : Nat → Nat → R) (i startRowLoc endRowLoc : Nat) (A : List R) : List R :=
  (List.range id.length).foldl
    (fun A j =>
      let col := id.getD j 0
      if col < (size : Int) ∧ col ≥ 0 then
        scanRow colA col (val i j) (endRowLoc - startRowLoc) startRowLoc A
      else A)
    A

/-- Loop `for (i = 0; i < idSize; i++)` of `addA`. -/
def addALoop [Add R] [Zero R] (s : UmfpackGenLinSOE R) (id : List Int)
    (val : Nat → Nat → R) : List R :=
  (List.range id.length).foldl
    (fun A i =>
      let row := id.getD i 0
      if row < (s.size : Int) ∧ row ≥ 0 then
        addARow s.size s.colA id val i (s.rowStartA.getD row.toNat 0)
          (s.rowStartA.getD (row.toNat + 1) 0) A
      else A)
    s.A

/-- Model of `UmfpackGenLinSOE::addA(const Matrix &, const ID &, double fact)`. Returns
the status and the new state. -/
def UmfpackGenLinSOE.addA [CommRing R] [DecidableEq R] (m : Matrix R) (id : List Int)
    (fact : R) (s : UmfpackGenLinSOE R) : Int × UmfpackGenLinSOE R :=
  if fact = 0 then (0, s)
  else if id.length ≠ m.noRows ∧ id.length ≠ m.noCols then (-1, s)
  else if fact = 1 then (0, { s with A := addALoop s id (fun i j => m.entry i j) })
  else (0, { s with A := addALoop s id (fun i j => fact * m.entry i j) })

/-- Model of `UmfpackGenLinSOE::zeroA()`: `A.Zero(); factored = false`. -/
def UmfpackGenLinSOE.zeroA [Zero R] (s : UmfpackGenLinSOE R) : UmfpackGenLinSOE R :=
  { s with A := List.replicate s.A.length 0, factored := false }

/-! ## Call sequences -/

/-- States reachable from a freshly constructed system by calls of `setSize`, `addA` and
`zeroA`, with any arguments and any solver status. -/
inductive Reachable [CommRing R] [DecidableEq R] : UmfpackGenLinSOE R → Prop
  | init : Reachable UmfpackGenLinSOE.init
  | setSize (g : Graph) (solverOK : Int) {s : UmfpackGenLinSOE R} :
      Reachable s → Reachable (s.setSize g solverOK).2
  | addA (m : Matrix R) (id : List Int) (fact : R) {s : UmfpackGenLinSOE R} :
      Reachable s → Reachable (s.addA m id fact).2
  | zeroA {s : UmfpackGenLinSOE R} : Reachable s → Reachable s.zeroA

/-- Allocation invariant of the buffers: the value array is twenty times as long as the
column-index array, which holds at least `nnz` slots, and the row-start array is one
longer than the right-hand side once the latter has been allocated. -/
def UmfpackGenLinSOE.AllocInv (s : UmfpackGenLinSOE R) : Prop :=
  s.A.length = 20 * s.colA.length ∧ s.nnz ≤ s.colA.length ∧
  (s.B.length = 0 ∨ s.rowStartA.length = s.B.length + 1)

/-! ## The compressed-row layout that `setSize` builds -/

/-- Columns of the row of vertex `v` as `setSize` lays them out: the diagonal, then every
adjacent tag inserted in front of the first larger column. -/
def rowCols (v : Vertex) : List Int :=
  v.adjacency.foldl (fun acc row => List.orderedInsert (· < ·) row acc) [v.tag]

/-- Columns of row `a` of the graph (empty when the graph has no vertex tagged `a`). -/
def rowOf (g : Graph) (a : Nat) : List Int :=
  match g.getVertexPtr (a : Int) with
  | some v => rowCols v
  | none => []

/-- Rows `a`, `a + 1`, ..., `a + n - 1` of the graph laid out one after the other. -/
def rowsFrom (g : Graph) : Nat → Nat → List Int
  | 0, _ => []
  | n + 1, a => rowOf g a ++ rowsFrom g n (a + 1)

/-- Vertices that the row loop of `setSize` visits for the rows `0`, ..., `n - 1`. -/
def Graph.rowVertices (g : Graph) (n : Nat) : List Vertex :=
  (List.range n).filterMap (fun (b : Nat) => g.getVertexPtr (b : Int))

/-- Every tag in `[0, getNumVertex)` has a vertex: the row loop of `setSize` never meets a
null pointer. -/
def Graph.AllFound (g : Graph) : Prop :=
  ∀ b : Nat, b < g.getNumVertex → g.getVertexPtr (b : Int) ≠ none

instance (g : Graph) : Decidable g.AllFound := by
  unfold Graph.AllFound; infer_instance

/-- The state holds the compressed rows of `g`: every row tag has a vertex, `size` and
`nnz` are those of `g`, the first `nnz` slots of `colA` are the rows of `g` one after the
other, the value array has a value for each of these slots, and `rowStartA` holds the
offsets of the rows. -/
def UmfpackGenLinSOE.Stores (s : UmfpackGenLinSOE R) (g : Graph) : Prop :=
  g.AllFound ∧ s.size = g.getNumVertex ∧ s.nnz = (rowsFrom g s.size 0).length ∧
  s.nnz ≤ s.A.length ∧ s.colA.take s.nnz = rowsFrom g s.size 0 ∧
  ∀ r, r < s.size →
    s.rowStartA.getD r 0 = (rowsFrom g r 0).length ∧
    s.rowStartA.getD (r + 1) 0 = (rowsFrom g (r + 1) 0).length

/-- States sized for the graph `g`: the result of a `setSize(g)` that returned `0` on a
reachable state, followed by any calls of `addA` and `zeroA`. -/
inductive SizedBy [CommRing R] [DecidableEq R] (g : Graph) : UmfpackGenLinSOE R → Prop
  | setSize (solverOK : Int) {s : UmfpackGenLinSOE R} :
      Reachable s → (s.setSize g solverOK).1 = 0 → SizedBy g (s.setSize g solverOK).2
  | addA (m : Matrix R) (id : List Int) (fact : R) {s : UmfpackGenLinSOE R} :
      SizedBy g s → SizedBy g (s.addA m id fact).2
  | zeroA {s : UmfpackGenLinSOE R} : SizedBy g s → SizedBy g s.zeroA

/-- Slot reached by the scan of `addA`: `scanHit colA col n k0 k` tells whether `k` is the
first of the `n` slots from `k0` on that holds column `col`. -/
def scanHit (colA : List Int) (col : Int) : Nat → Nat → Nat → Bool
  | 0, _, _ => false
  | n + 1, k0, k =>
    if colA.getD k0 0 = col then decide (k = k0) else scanHit colA col n (k0 + 1) k

/-! ## Assembly of several contributions, skipped ids, readings of the storage -/

/-- Assembly of a list of element contributions `(m, dofIds, fact)`: one `addA` after the
other, in the order of the list. -/
def UmfpackGenLinSOE.assemble [CommRing R] [DecidableEq R] (s : UmfpackGenLinSOE R)
    (L : List (Matrix R × List Int × R)) : UmfpackGenLinSOE R :=
  L.foldl (fun s c => (s.addA c.1 c.2.1 c.2.2).2) s

/-- Two states with the same compressed storage: same `size`, column indices, row starts
and values. -/
def UmfpackGenLinSOE.SameStorage (s t : UmfpackGenLinSOE R) : Prop :=
  s.size = t.size ∧ s.colA = t.colA ∧ s.rowStartA = t.rowStartA ∧ s.A = t.A

/-- Local indices of `id` that `addA` does not skip: those whose id passes the test
`row < size && row >= 0`. -/
def keptIdx (size : Nat) (id : List Int) : List Nat :=
  (List.range id.length).filter (fun i => decide (id.getD i 0 < (size : Int) ∧ id.getD i 0 ≥ 0))

/-- Dof ids of `id` that `addA` does not skip. -/
def keptIds (size : Nat) (id : List Int) : List Int :=
  id.filter (fun x => decide (x < (size : Int) ∧ x ≥ 0))

/-- Element matrix reduced to the rows and columns of the local indices `keep`. -/
def Matrix.restrict (m : Matrix R) (keep : List Nat) : Matrix R :=
  ⟨keep.length, keep.length, fun a b => m.entry (keep.getD a 0) (keep.getD b 0)⟩

/-- Graph of `N` uncoupled DOFs tagged `0`, ..., `N - 1` (empty adjacency sets). -/
def isoGraph (N : Nat) : Graph :=
  ⟨(List.range N).map (fun (i : Nat) => (⟨(i : Int), []⟩ : Vertex))⟩

/-- Identity element matrix of order `N`. -/
def identityMatrix (R : Type) [Zero R] [One R] (N : Nat) : Matrix R :=
  ⟨N, N, fun i j => if i = j then 1 else 0⟩

/-- The dofIds `0`, ..., `N - 1`. -/
def allIds (N : Nat) : List Int := (List.range N).map (fun (i : Nat) => (i : Int))

/-- Coefficient `(r, c)` of the global matrix as the compressed storage holds it: the sum
of the values of the slots of row `r` whose column index is `c` (zero when the position
is not stored). -/
def UmfpackGenLinSOE.coeff [AddCommMonoid R] (s : UmfpackGenLinSOE R) (r c : Nat) : R :=
  ((List.range' (s.rowStartA.getD r 0)
      (s.rowStartA.getD (r + 1) 0 - s.rowStartA.getD r 0)).map
    (fun k => if s.colA.getD k 0 = (c : Int) then s.A.getD k 0 else 0)).sum

/-! ## Sample inputs -/

/-- Two DOFs adjacent to each other. -/
def pairGraph : Graph := ⟨[⟨0, [1]⟩, ⟨1, [0]⟩]⟩

/-- System of two coupled DOFs with integer coefficients, sized from the fresh state. -/
def pairSOE : UmfpackGenLinSOE ℤ := (UmfpackGenLinSOE.init.setSize pairGraph 0).2

/-- Element matrix of order two with entries `1 2 / 3 4`. -/
def sampleMatrix : Matrix ℤ := ⟨2, 2, fun i j => 2 * (i : Int) + (j : Int) + 1⟩

/-- Element matrix with three rows and two columns, every entry `1`. -/
def tallMatrix : Matrix ℤ := ⟨3, 2, fun _ _ => 1⟩

/-- The system of two coupled DOFs after a solver has marked it factored. -/
def factoredSOE : UmfpackGenLinSOE ℤ := { pairSOE with factored := true }

/-- Graph with a single vertex, tagged `5`: tag `0` has no vertex. -/
def gapGraph : Graph := ⟨[⟨5, []⟩]⟩

/-- Three DOFs without any coupling. -/
def threeGraph : Graph := ⟨[⟨0, []⟩, ⟨1, []⟩, ⟨2, []⟩]⟩

/-- One DOF. -/
def oneGraph : Graph := ⟨[⟨0, []⟩]⟩

/-- Two DOFs without any coupling. -/
def twoGraph : Graph := ⟨[⟨0, []⟩, ⟨1, []⟩]⟩

/-- Three DOFs, each adjacent to the other two. -/
def triangleGraph : Graph := ⟨[⟨0, [1, 2]⟩, ⟨1, [0, 2]⟩, ⟨2, [0, 1]⟩]⟩

/-- System sized for the triangle and then resized for a single DOF: its buffers keep the
capacity of the first sizing. -/
def shrunkSOE : UmfpackGenLinSOE ℤ :=
  ((UmfpackGenLinSOE.init.setSize triangleGraph 0).2.setSize oneGraph 0).2

/-- Element matrix of order four with entries `0, 1, ..., 15` row by row. -/
def fourMatrix : Matrix ℤ := ⟨4, 4, fun i j => 4 * (i : Int) + (j : Int)⟩

/-! ## Strategy bundle (`ModelWrapper`): objects, free store, diagnostics -/

/-- Address of an object (the value of a pointer to it). -/
abbrev Addr := Nat

/-- Free store seen through `new` and `delete`: `next` is the first address that was never
handed out, `live` lists the objects constructed and not yet destroyed. Addresses are
never handed out twice, so that two objects with the same address are the same object. -/
structure Store where
  next : Addr
  live : List Addr
  deriving DecidableEq

/-- Storage for a new object: `new T` or the placement of a local or of a map node. -/
def Store.alloc (h : Store) : Addr × Store :=
  (h.next, { next := h.next + 1, live := h.next :: h.live })

/-- End of the lifetime of the object at `a`: `delete p`. -/
def Store.free (h : Store) (a : Addr) : Store :=
  { h with live := h.live.erase a }

/-- Messages written to `std::cerr` by `ModelWrapper`, one constructor per message. -/
inductive Diag
  /-- Message of `copia_analysis_model` for a null pointer. -/
  | nullModelCopy
  /-- Message of `alloc_constraint_handler`: constraint handler `nmb` unknown. -/
  | unknownHandler (nmb : String)
  /-- Message of `copia_constraint_handler` for a null pointer. -/
  | nullHandlerCopy
  /-- Message of `setup_numerador`: the numberer is not defined. -/
  | numbererUndefined
  /-- Message of `alloc_numerador`: the string `nmb` could not be interpreted. -/
  | unknownNumberer (nmb : String)
  /-- Message of `copia_numerador` for a null pointer. -/
  | nullNumbererCopy
  /-- Message of `CheckPointers`: the analysis model has not been set. -/
  | noModel
  /-- Message of `CheckPointers`: the constraint handler has not been set. -/
  | noHandler
  /-- Message of `CheckPointers`: the numberer has not been set. -/
  | noNumberer
  deriving DecidableEq

/-- What a member function works in besides the bundle: the free store and the messages
written to `std::cerr` so far (latest last). -/
structure Env where
  heap : Store
  cerr : List Diag
  deriving DecidableEq

/-- Modelled from the spec: the analysis model owned by a bundle (`AnalysisModel.h` is not
among the sources). `addr` is the address of the object, `owner` its back-reference
(`set_owner`), `state` stands for the rest of its contents, which `getCopy` copies. -/
structure AnalysisModel where
  addr : Addr
  owner : Option Addr
  state : Nat
  deriving DecidableEq

/-- Closed set of constraint-handler variants that `alloc_constraint_handler` builds. -/
inductive HandlerKind
  | lagrange
  | penalty
  | plain
  | transformation
  deriving DecidableEq

/-- Identifier of a constraint-handler variant, as `alloc_constraint_handler` spells it. -/
def HandlerKind.name : HandlerKind → String
  | .lagrange => "lagrange_constraint_handler"
  | .penalty => "penalty_constraint_handler"
  | .plain => "plain_handler"
  | .transformation => "transformation_constraint_handler"

/-- Modelled from the spec: a constraint handler (`ConstraintHandler.h` and the headers of
its four variants are not among the sources), with its address, its variant, its owner
back-reference and the rest of its contents. -/
structure ConstraintHandler where
  addr : Addr
  kind : HandlerKind
  owner : Option Addr
  state : Nat
  deriving DecidableEq

/-- Closed set of numberer variants that `alloc_numerador` builds: `DOF_Numberer`,
`PlainNumberer`, `ParallelNumberer`. -/
inductive NumbererKind
  | dofNumberer
  | plainNumberer
  | parallelNumberer
  deriving DecidableEq

/-- Identifier of a numberer variant, as `alloc_numerador` spells it. -/
def NumbererKind.name : NumbererKind → String
  | .dofNumberer => "default_numberer"
  | .plainNumberer => "plain_numberer"
  | .parallelNumberer => "parallel_numberer"

/-- Modelled from the spec: a DOF numberer (`DOF_Numberer.h`, `PlainNumberer.h` and
`ParallelNumberer.h` are not among the sources), with its address, its variant, its owner
back-reference and the rest of its contents. -/
structure DOF_Numberer where
  addr : Addr
  kind : NumbererKind
  owner : Option Addr
  state : Nat
  deriving DecidableEq

/-- Data members of `ModelWrapper`: `self` is the address of the bundle (`this`), `owner`
the owner kept by its base `EntCmd`, and the three owning pointers, `none` for
`nullptr`. -/
structure ModelWrapper where
  self : Addr
  owner : Option Addr
  theModel : Option AnalysisModel
  theHandler : Option ConstraintHandler
  theDOFNumberer : Option DOF_Numberer
  deriving DecidableEq

/-- Result of a member function of `ModelWrapper`: the value returned, `none` when the
call does not return normally, either because a failed `assert` aborted it (without
`assert`, the null pointer is dereferenced there) or because it went through a pointer to
an object that has been deleted; and the bundle and the environment the call leaves, at
that point if any. -/
structure Outcome (α : Type) where
  value : Option α
  bundle : ModelWrapper
  env : Env
  deriving DecidableEq

/-- Modelled from the spec: `AnalysisModel::getCopy`, a new object with the contents of the
original. -/
def AnalysisModel.getCopy (m : AnalysisModel) (e : Env) : AnalysisModel × Env :=
  ({ m with addr := e.heap.alloc.1 }, { e with heap := e.heap.alloc.2 })

/-- Modelled from the spec: `ConstraintHandler::getCopy`, a new object of the same variant
with the contents of the original. -/
def ConstraintHandler.getCopy (h : ConstraintHandler) (e : Env) : ConstraintHandler × Env :=
  ({ h with addr := e.heap.alloc.1 }, { e with heap := e.heap.alloc.2 })

/-- Modelled from the spec: `DOF_Numberer::getCopy`, a new object of the same variant with
the contents of the original. -/
def DOF_Numberer.getCopy (n : DOF_Numberer) (e : Env) : DOF_Numberer × Env :=
  ({ n with addr := e.heap.alloc.1 }, { e with heap := e.heap.alloc.2 })

/-! ## Member functions of `ModelWrapper` -/

/-- Model of `ModelWrapper::libera_analysis_model`. -/
def ModelWrapper.libera_analysis_model (b : ModelWrapper) (e : Env) : ModelWrapper × Env :=
  match b.theModel with
  | some m => ({ b with theModel := none }, { e with heap := e.heap.free m.addr })
  | none => (b, e)

/-- Model of `ModelWrapper::alloc_analysis_model`: `theModel= new AnalysisModel(this)`. -/
def ModelWrapper.alloc_analysis_model (b : ModelWrapper) (e : Env) : ModelWrapper × Env :=
  let r := b.libera_analysis_model e
  ({ r.1 with theModel := some ⟨r.2.heap.alloc.1, some b.self, 0⟩ },
    { r.2 with heap := r.2.heap.alloc.2 })

/-- Model of `ModelWrapper::copia_analysis_model`. The argument is a pointer: `src` is the
object at `src.addr`. The model of the bundle is deleted first, and `ptr->getCopy()` is
then called through the pointer: when the object it points to is no longer alive (the
pointer was the bundle's own model, or was dangling) the call has no defined result. -/
def ModelWrapper.copia_analysis_model (b : ModelWrapper) (ptr : Option AnalysisModel)
    (e : Env) : Outcome Unit :=
  match ptr with
  | some src =>
    let r := b.libera_analysis_model e
    if src.addr ∈ r.2.heap.live then
      let c := src.getCopy r.2
      { value := some (),
        bundle := { r.1 with theModel := some { c.1 with owner := some b.self } },
        env := c.2 }
    else { value := none, bundle := r.1, env := r.2 }
  | none =>
    { value := some (), bundle := b,
      env := { e with cerr := e.cerr ++ [Diag.nullModelCopy] } }

/-- Model of `ModelWrapper::libera_constraint_handler`. -/
def ModelWrapper.libera_constraint_handler (b : ModelWrapper) (e : Env) :
    ModelWrapper × Env :=
  match b.theHandler with
  | some h => ({ b with theHandler := none }, { e with heap := e.heap.free h.addr })
  | none => (b, e)

/-- Model of `ModelWrapper::alloc_constraint_handler`: the previous handler is released,
the variant named `nmb` is built with owner `this` (an unknown name only writes a
message), the owner is set again when a handler was built, and the return value tells
whether there is a handler. -/
def ModelWrapper.alloc_constraint_handler (b : ModelWrapper) (nmb : String) (e : Env) :
    Bool × ModelWrapper × Env :=
  let r := b.libera_constraint_handler e
  let build (k : HandlerKind) : ModelWrapper × Env :=
    ({ r.1 with
        theHandler := some ⟨r.2.heap.alloc.1, k, some b.self, 0⟩ },
      { r.2 with heap := r.2.heap.alloc.2 })
  let r2 : ModelWrapper × Env :=
    if nmb = "lagrange_constraint_handler" then build .lagrange
    else if nmb = "penalty_constraint_handler" then build .penalty
    else if nmb = "plain_handler" then build .plain
    else if nmb = "transformation_constraint_handler" then build .transformation
    else (r.1, { r.2 with cerr := r.2.cerr ++ [Diag.unknownHandler nmb] })
  let b3 : ModelWrapper :=
    match r2.1.theHandler with
    | some h => { r2.1 with theHandler := some { h with owner := some b.self } }
    | none => r2.1
  (b3.theHandler.isSome, b3, r2.2)

/-- Model of `ModelWrapper::copia_constraint_handler`. The argument is a pointer: `src` is
the object at `src.addr`. The handler of the bundle is deleted first, and
`ptr->getCopy()` is then called through the pointer: when the object it points to is no
longer alive the call has no defined result. -/
def ModelWrapper.copia_constraint_handler (b : ModelWrapper) (ptr : Option ConstraintHandler)
    (e : Env) : Outcome Unit :=
  match ptr with
  | some src =>
    let r := b.libera_constraint_handler e
    if src.addr ∈ r.2.heap.live then
      let c := src.getCopy r.2
      { value := some (),
        bundle := { r.1 with theHandler := some { c.1 with owner := some b.self } },
        env := c.2 }
    else { value := none, bundle := r.1, env := r.2 }
  | none =>
    { value := some (), bundle := b,
      env := { e with cerr := e.cerr ++ [Diag.nullHandlerCopy] } }

/-- Model of `ModelWrapper::newConstraintHandler`: `alloc_constraint_handler(nmb);
assert(theHandler); return *theHandler`. -/
def ModelWrapper.newConstraintHandler (b : ModelWrapper) (nmb : String) (e : Env) :
    Outcome ConstraintHandler :=
  let r := b.alloc_constraint_handler nmb e
  { value := r.2.1.theHandler, bundle := r.2.1, env := r.2.2 }

/-- Model of `ModelWrapper::libera_numerador`. -/
def ModelWrapper.libera_numerador (b : ModelWrapper) (e : Env) : ModelWrapper × Env :=
  match b.theDOFNumberer with
  | some n => ({ b with theDOFNumberer := none }, { e with heap := e.heap.free n.addr })
  | none => (b, e)

/-- Model of `ModelWrapper::setup_numerador`: with a numberer, `assert(theModel)` and
`true`; without one, a message and `false`. -/
def ModelWrapper.setup_numerador (b : ModelWrapper) (e : Env) : Outcome Bool :=
  match b.theDOFNumberer with
  | some _ =>
    match b.theModel with
    | some _ => { value := some true, bundle := b, env := e }
    | none => { value := none, bundle := b, env := e }
  | none =>
    { value := some false, bundle := b,
      env := { e with cerr := e.cerr ++ [Diag.numbererUndefined] } }

/-- Model of `ModelWrapper::alloc_numerador`: the previous numberer is released, the
variant named `nmb` is built with owner `this` (an unknown name only writes a message),
and `setup_numerador()` gives the return value. -/
def ModelWrapper.alloc_numerador (b : ModelWrapper) (nmb : String) (e : Env) : Outcome Bool :=
  let r := b.libera_numerador e
  let build (k : NumbererKind) : ModelWrapper × Env :=
    ({ r.1 with
        theDOFNumberer := some ⟨r.2.heap.alloc.1, k, some b.self, 0⟩ },
      { r.2 with heap := r.2.heap.alloc.2 })
  let r2 : ModelWrapper × Env :=
    if nmb = "default_numberer" then build .dofNumberer
    else if nmb = "plain_numberer" then build .plainNumberer
    else if nmb = "parallel_numberer" then build .parallelNumberer
    else (r.1, { r.2 with cerr := r.2.cerr ++ [Diag.unknownNumberer nmb] })
  r2.1.setup_numerador r2.2

/-- Model of `ModelWrapper::copia_numerador`. The argument is a pointer: `src` is the object
at `src.addr`. The numberer of the bundle is deleted first, and `dn->getCopy()` is then
called through the pointer: when the object it points to is no longer alive (the pointer
was the bundle's own numberer, or was dangling) the call has no defined result.
Otherwise the copy is re-parented and `setup_numerador()` is called. -/
def ModelWrapper.copia_numerador (b : ModelWrapper) (dn : Option DOF_Numberer) (e : Env) :
    Outcome Unit :=
  match dn with
  | some src =>
    let r := b.libera_numerador e
    if src.addr ∈ r.2.heap.live then
      let c := src.getCopy r.2
      let s := ({ r.1 with theDOFNumberer := some { c.1 with owner := some b.self } } :
        ModelWrapper).setup_numerador c.2
      { value := s.value.map (fun _ => ()), bundle := s.bundle, env := s.env }
    else { value := none, bundle := r.1, env := r.2 }
  | none =>
    { value := some (), bundle := b, env := { e with cerr := e.cerr ++ [Diag.nullNumbererCopy] } }

/-- Model of `ModelWrapper::newNumberer`: `alloc_numerador(nmb); assert(theDOFNumberer);
return *theDOFNumberer`. -/
def ModelWrapper.newNumberer (b : ModelWrapper) (nmb : String) (e : Env) :
    Outcome DOF_Numberer :=
  let r := b.alloc_numerador nmb e
  match r.value with
  | some _ => { value := r.bundle.theDOFNumberer, bundle := r.bundle, env := r.env }
  | none => { value := none, bundle := r.bundle, env := r.env }

/-- Model of `ModelWrapper::libera`. -/
def ModelWrapper.libera (b : ModelWrapper) (e : Env) : ModelWrapper × Env :=
  let r1 := b.libera_analysis_model e
  let r2 := r1.1.libera_constraint_handler r1.2
  r2.1.libera_numerador r2.2

/-- Model of `ModelWrapper::copia`: each collaborator present in `otro` is copied, the model
first, then the handler, then the numberer; a step that does not return ends the call.
`otro` is the bundle referred to, read when the call starts; its collaborators are
reached through their addresses. -/
def ModelWrapper.copia (b : ModelWrapper) (otro : ModelWrapper) (e : Env) : Outcome Unit :=
  let r1 : Outcome Unit :=
    if otro.theModel.isSome then b.copia_analysis_model otro.theModel e
    else { value := some (), bundle := b, env := e }
  match r1.value with
  | none => r1
  | some _ =>
    let r2 : Outcome Unit :=
      if otro.theHandler.isSome then
        r1.bundle.copia_constraint_handler otro.theHandler r1.env
      else r1
    match r2.value with
    | none => r2
    | some _ =>
      if otro.theDOFNumberer.isSome then r2.bundle.copia_numerador otro.theDOFNumberer r2.env
      else { value := some (), bundle := r2.bundle, env := r2.env }

/-- Model of the constructor `ModelWrapper(SoluMethod *owr)` for the object at `self`: null
pointers, then `alloc_analysis_model()`. -/
def ModelWrapper.construct (self : Addr) (owr : Option Addr) (e : Env) : ModelWrapper × Env :=
  ({ self := self, owner := owr, theModel := none, theHandler := none,
     theDOFNumberer := none } : ModelWrapper).alloc_analysis_model e

/-- Model of the copy constructor `ModelWrapper(const ModelWrapper &otro)` for the object at
`self`: null pointers, then `copia(otro)`. -/
def ModelWrapper.copyConstruct (self : Addr) (otro : ModelWrapper) (e : Env) : Outcome Unit :=
  ({ self := self, owner := otro.owner, theModel := none, theHandler := none,
     theDOFNumberer := none } : ModelWrapper).copia otro e

/-- Model of `ModelWrapper::operator=`: `EntCmd::operator=(otro); copia(otro)`. There is no
test for self-assignment: for `otro` the bundle itself, `copia` deletes each collaborator
and then copies through the pointer to it. -/
def ModelWrapper.assign (b : ModelWrapper) (otro : ModelWrapper) (e : Env) : Outcome Unit :=
  ({ b with owner := otro.owner } : ModelWrapper).copia otro e

/-- Model of the destructor `~ModelWrapper`: `libera()`, then the storage of the bundle
itself ends. -/
def ModelWrapper.destroy (b : ModelWrapper) (e : Env) : Env :=
  { (b.libera e).2 with heap := (b.libera e).2.heap.free b.self }

/-- Model of `ModelWrapper::CheckPointers`: the first null pointer among model, handler and
numberer gives a message and `false`. -/
def ModelWrapper.CheckPointers (b : ModelWrapper) (e : Env) : Bool × ModelWrapper × Env :=
  if b.theModel.isNone then (false, b, { e with cerr := e.cerr ++ [Diag.noModel] })
  else if b.theHandler.isNone then (false, b, { e with cerr := e.cerr ++ [Diag.noHandler] })
  else if b.theDOFNumberer.isNone then
    (false, b, { e with cerr := e.cerr ++ [Diag.noNumberer] })
  else (true, b, e)

/-- Addresses of the collaborators that the bundle holds. -/
def ModelWrapper.parts (b : ModelWrapper) : List Addr :=
  (b.theModel.map (fun m => m.addr)).toList ++ (b.theHandler.map (fun h => h.addr)).toList
    ++ (b.theDOFNumberer.map (fun n => n.addr)).toList

/-! ## Sample bundles -/

/-- Environment in which one object, at address `0`, has been placed and nothing has been
written to `std::cerr`. -/
def env0 : Env := ⟨⟨1, [0]⟩, []⟩

/-- Bundle built at address `0` by the constructor `ModelWrapper(nullptr)`, with the
environment the constructor leaves. -/
def freshBundle : ModelWrapper × Env := ModelWrapper.construct 0 none env0

/-- The analysis model `c` is a copy of `m` re-parented to the bundle at `owner`. -/
def AnalysisModel.IsCloneOf (c m : AnalysisModel) (owner : Addr) : Prop :=
  c.state = m.state ∧ c.owner = some owner

/-- The constraint handler `c` is a copy of `h`, of the same variant, re-parented to the
bundle at `owner`. -/
def ConstraintHandler.IsCloneOf (c h : ConstraintHandler) (owner : Addr) : Prop :=
  c.kind = h.kind ∧ c.state = h.state ∧ c.owner = some owner

/-- The numberer `c` is a copy of `n`, of the same variant, re-parented to the bundle at
`owner`. -/
def DOF_Numberer.IsCloneOf (c n : DOF_Numberer) (owner : Addr) : Prop :=
  c.kind = n.kind ∧ c.state = n.state ∧ c.owner = some owner

/-- Bundle with a model (at address `1`) and a Lagrange handler (at address `2`), built at
address `0`. -/
def handlerBundle : ModelWrapper × Env :=
  ((freshBundle.1.newConstraintHandler "lagrange_constraint_handler" freshBundle.2).bundle,
    (freshBundle.1.newConstraintHandler "lagrange_constraint_handler" freshBundle.2).env)

/-- Bundle at address `0` that holds a plain numberer (at address `1`) and neither model nor
handler, as `clearAll` followed by `brokeNumberer` leaves it. -/
def numbererOnlyBundle : ModelWrapper :=
  { self := 0, owner := none, theModel := none, theHandler := none,
    theDOFNumberer := some ⟨1, .plainNumberer, some 0, 0⟩ }

/-- Second bundle, built at address `3` by the constructor in the environment that
`handlerBundle` leaves: it has a model (at address `4`) and no handler. -/
def otherBundle : ModelWrapper × Env :=
  ModelWrapper.construct handlerBundle.2.heap.alloc.1 none
    { handlerBundle.2 with heap := handlerBundle.2.heap.alloc.2 }

/-! ## Registry of bundles (`MapModelWrapper`) -/

/-- Data member of `MapModelWrapper`: the map `solu_models` from identifiers to bundles, as
the list of its entries. -/
structure MapModelWrapper where
  solu_models : List (String × ModelWrapper)
  deriving DecidableEq

/-- State left by the constructor `MapModelWrapper(ProcSoluControl *)`: an empty map. -/
def MapModelWrapper.empty : MapModelWrapper := { solu_models := [] }

/-- Model of `MapModelWrapper::existeModelWrapper`: `solu_models.find(cod)` is not
`end()`. -/
def MapModelWrapper.existeModelWrapper (r : MapModelWrapper) (cod : String) : Bool :=
  (r.solu_models.lookup cod).isSome

/-- Model of `MapModelWrapper::getModelWrapper`: the bundle stored under `cod` (the object
the returned pointer refers to, whose address is its `self`), `none` for `nullptr`. -/
def MapModelWrapper.getModelWrapper (r : MapModelWrapper) (cod : String) :
    Option ModelWrapper :=
  r.solu_models.lookup cod

/-- Result of `creaModelWrapper`: the bundle the returned reference refers to (`none` when
the call was aborted), the registry and the environment the call leaves. -/
structure CreaResult where
  value : Option ModelWrapper
  reg : MapModelWrapper
  env : Env
  deriving DecidableEq

/-- Model of `MapModelWrapper::creaModelWrapper`. For an identifier already in the map the
stored bundle is returned. Otherwise the local `nuevo` is constructed, the map node for
`cod` is created with a default-constructed bundle, `nuevo` is assigned to it, and
`nuevo` is destroyed when the block ends. -/
def MapModelWrapper.creaModelWrapper (r : MapModelWrapper) (cod : String) (e : Env) :
    CreaResult :=
  if r.existeModelWrapper cod = true then
    { value := r.getModelWrapper cod, reg := r, env := e }
  else
    let nuevo := ModelWrapper.construct e.heap.alloc.1 none { e with heap := e.heap.alloc.2 }
    let slot := ModelWrapper.construct nuevo.2.heap.alloc.1 none
      { nuevo.2 with heap := nuevo.2.heap.alloc.2 }
    let o := slot.1.assign nuevo.1 slot.2
    match o.value with
    | some _ =>
      { value := some o.bundle, reg := { solu_models := (cod, o.bundle) :: r.solu_models },
        env := nuevo.1.destroy o.env }
    | none =>
      { value := none, reg := { solu_models := (cod, o.bundle) :: r.solu_models },
        env := o.env }

/-- Model of `MapModelWrapper::clearAll`: `solu_models.clear()` destroys every bundle. -/
def MapModelWrapper.clearAll (r : MapModelWrapper) (e : Env) : MapModelWrapper × Env :=
  ({ solu_models := [] }, r.solu_models.foldl (fun e p => p.2.destroy e) e)

/-- Calls that change a registry. -/
inductive RegistryCall
  | crea (cod : String)
  | clearAll
  deriving DecidableEq

/-- Effect of one call on the registry and the environment. -/
def MapModelWrapper.call (s : MapModelWrapper × Env) : RegistryCall → MapModelWrapper × Env
  | .crea cod => ((s.1.creaModelWrapper cod s.2).reg, (s.1.creaModelWrapper cod s.2).env)
  | .clearAll => s.1.clearAll s.2

/-- Effect of a sequence of calls, first call first. -/
def MapModelWrapper.run (calls : List RegistryCall) (s : MapModelWrapper × Env) :
    MapModelWrapper × Env :=
  calls.foldl MapModelWrapper.call s

/-- Identifiers passed to `creaModelWrapper` since the last `clearAll`, on top of the
identifiers `init` present before the calls. -/
def idsAfter (init : List String) (calls : List RegistryCall) : List String :=
  calls.foldl
    (fun acc c =>
      match c with
      | .crea cod => cod :: acc
      | .clearAll => [])
    init

/-- Invariant of a registry in its environment: the identifiers are pairwise distinct, the
bundles are pairwise distinct objects, and every bundle lies below the first address
that was never handed out. -/
def MapModelWrapper.Inv (s : MapModelWrapper × Env) : Prop :=
  (s.1.solu_models.map Prod.fst).Nodup ∧
  (s.1.solu_models.map (fun p => p.2.self)).Nodup ∧
  ∀ p ∈ s.1.solu_models, p.2.self < s.2.heap.next

/-- First `creaModelWrapper(id)` on the registry reached from the empty one by `calls`. -/
def MapModelWrapper.firstCrea (calls : List RegistryCall) (e0 : Env) (id : String) :
    CreaResult :=
  (MapModelWrapper.run calls (MapModelWrapper.empty, e0)).1.creaModelWrapper id
    (MapModelWrapper.run calls (MapModelWrapper.empty, e0)).2

/-- Registry and environment after that first `creaModelWrapper(id)` and then one
`creaModelWrapper` for each identifier of `others`. -/
def MapModelWrapper.afterOthers (calls : List RegistryCall) (e0 : Env) (id : String)
    (others : List String) : MapModelWrapper × Env :=
  MapModelWrapper.run (others.map RegistryCall.crea)
    ((MapModelWrapper.firstCrea calls e0 id).reg, (MapModelWrapper.firstCrea calls e0 id).env)
/-! ## Analysis driver (`Analysis`) -/

/-- Model of `Analysis::newStepDomain`: `return theModel->newStepDomain(dT)`. The member
`AnalysisModel::newStepDomain` is not among the sources: `modelStep` is the status code
it returns for a model and a time increment (of any type `D`). The pointer is
dereferenced without a test: `none` is the result for a null pointer, where no status is
produced. -/
def Analysis.newStepDomain {D : Type} (modelStep : AnalysisModel → D → Int)
    (theModel : Option AnalysisModel) (dT : D) : Option Int :=
  match theModel with
  | some m => some (modelStep m dT)
  | none => none

/-! ## Lines of the geometry (`LineaBase`) -/

/-- Data members of `LineaBase` that `GetVertice` and `SetVertice` use: the end points
`p1` and `p2`, pointers to `Pnt` objects given by their addresses (`none` for
`nullptr`). -/
structure LineaBase where
  p1 : Option Addr
  p2 : Option Addr
  deriving DecidableEq

/-- Model of `LineaBase::GetVertice`: `if(i==1) return p1; else return p2`. -/
def LineaBase.GetVertice (l : LineaBase) (i : Nat) : Option Addr :=
  if i = 1 then l.p1 else l.p2

/-- Model of `LineaBase::SetVertice(const size_t &,Pnt *)`:
`if((i==1) && (p1!=p)) p1= p; else if(p2!=p) p2= p`. The calls `borra_linea` (of `Pnt`) and
`actualiza_topologia` are not among the sources: they maintain the lists of lines that
the points keep and leave `p1` and `p2` as they are. -/
def LineaBase.SetVertice (l : LineaBase) (i : Nat) (p : Option Addr) : LineaBase :=
  if i = 1 ∧ l.p1 ≠ p then { l with p1 := p }
  else if l.p2 ≠ p then { l with p2 := p }
  else l

/-- Line from the point at address `1` to the point at address `2`. -/
def sampleLine : LineaBase := ⟨some 1, some 2⟩

/-! ## Positions outside the sparsity pattern -/

/-- Column `c` is among the columns stored for row `r`: one of the slots
`rowStartA[r]`, ..., `rowStartA[r+1] - 1` of `colA` holds `c`. -/
def UmfpackGenLinSOE.storesCol (s : UmfpackGenLinSOE R) (r : Nat) (c : Int) : Bool :=
  (List.range' (s.rowStartA.getD r 0) (s.rowStartA.getD (r + 1) 0 - s.rowStartA.getD r 0)).any
    (fun k => decide (s.colA.getD k 0 = c))

/-- System of three uncoupled DOFs with integer coefficients, sized from the fresh state:
only the diagonal is stored. -/
def threeSOE : UmfpackGenLinSOE ℤ := (UmfpackGenLinSOE.init.setSize threeGraph 0).2

/-- Diagonal part of `sampleMatrix`: entries `1 0 / 0 4`. -/
def diagMatrix : Matrix ℤ :=
  ⟨2, 2, fun i j => if i = j then 2 * (i : Int) + (j : Int) + 1 else 0⟩

/-! ## Solution-method peer (`SoluMethod`) and the delegations of `Analysis` -/

/-- Modelled from the spec: the solution-method peer of an analysis (`SoluMethod.h` is not
among the sources), by what its member functions hand to `Analysis`: the bundle behind
`getModelWrapperPtr` and the pointer that each accessor returns (`none` for `nullptr`;
an object other than the three collaborators of the bundle is given by its address). -/
structure SoluMethod where
  getModelWrapperPtr : Option ModelWrapper
  getConstraintHandlerPtr : Option ConstraintHandler
  getDOF_NumbererPtr : Option DOF_Numberer
  getAnalysisModelPtr : Option AnalysisModel
  getLinearSOEPtr : Option Addr
  getEigenSOEPtr : Option Addr
  getIntegratorPtr : Option Addr
  getIncrementalIntegratorPtr : Option Addr
  getEigenIntegratorPtr : Option Addr
  getLinearBucklingIntegratorPtr : Option Addr
  getTransientIntegratorPtr : Option Addr
  getStaticIntegratorPtr : Option Addr
  getEigenSolutionAlgorithmPtr : Option Addr
  getEquiSolutionAlgorithmPtr : Option Addr
  getDomainDecompSolutionAlgorithmPtr : Option Addr
  getConvergenceTestPtr : Option Addr
  deriving DecidableEq

/-- Data members of `Analysis`: the result of the last analysis and the non-owning pointer
to the solution-method peer, `none` for `nullptr`. -/
structure Analysis where
  analysis_result : Int
  metodo_solu : Option SoluMethod
  deriving DecidableEq

/-- State left by the constructor `Analysis(SoluMethod *s)`. -/
def Analysis.construct (s : Option SoluMethod) : Analysis :=
  { analysis_result := -100, metodo_solu := s }

/-- Model of `Analysis::getConstraintHandlerPtr`. -/
def Analysis.getConstraintHandlerPtr (a : Analysis) : Option ConstraintHandler :=
  match a.metodo_solu with
  | some sm => sm.getConstraintHandlerPtr
  | none => none

/-- Model of `Analysis::getDOF_NumbererPtr`. -/
def Analysis.getDOF_NumbererPtr (a : Analysis) : Option DOF_Numberer :=
  match a.metodo_solu with
  | some sm => sm.getDOF_NumbererPtr
  | none => none

/-- Model of `Analysis::getAnalysisModelPtr`. -/
def Analysis.getAnalysisModelPtr (a : Analysis) : Option AnalysisModel :=
  match a.metodo_solu with
  | some sm => sm.getAnalysisModelPtr
  | none => none

/-- Model of `Analysis::getLinearSOEPtr`. -/
def Analysis.getLinearSOEPtr (a : Analysis) : Option Addr :=
  match a.metodo_solu with
  | some sm => sm.getLinearSOEPtr
  | none => none

/-- Model of `Analysis::getEigenSOEPtr`. -/
def Analysis.getEigenSOEPtr (a : Analysis) : Option Addr :=
  match a.metodo_solu with
  | some sm => sm.getEigenSOEPtr
  | none => none

/-- Model of `Analysis::getIntegratorPtr` (both the `const` and the non-`const` overload). -/
def Analysis.getIntegratorPtr (a : Analysis) : Option Addr :=
  match a.metodo_solu with
  | some sm => sm.getIntegratorPtr
  | none => none

/-- Model of `Analysis::getIncrementalIntegratorPtr`. -/
def Analysis.getIncrementalIntegratorPtr (a : Analysis) : Option Addr :=
  match a.metodo_solu with
  | some sm => sm.getIncrementalIntegratorPtr
  | none => none

/-- Model of `Analysis::getEigenIntegratorPtr`. -/
def Analysis.getEigenIntegratorPtr (a : Analysis) : Option Addr :=
  match a.metodo_solu with
  | some sm => sm.getEigenIntegratorPtr
  | none => none

/-- Model of `Analysis::getLinearBucklingIntegratorPtr`. -/
def Analysis.getLinearBucklingIntegratorPtr (a : Analysis) : Option Addr :=
  match a.metodo_solu with
  | some sm => sm.getLinearBucklingIntegratorPtr
  | none => none

/-- Model of `Analysis::getTransientIntegratorPtr`. -/
def Analysis.getTransientIntegratorPtr (a : Analysis) : Option Addr :=
  match a.metodo_solu with
  | some sm => sm.getTransientIntegratorPtr
  | none => none

/-- Model of `Analysis::getStaticIntegratorPtr` (`retval` starts as `nullptr` and is set
from the peer when there is one). -/
def Analysis.getStaticIntegratorPtr (a : Analysis) : Option Addr :=
  match a.metodo_solu with
  | some sm => sm.getStaticIntegratorPtr
  | none => none

/-- Model of `Analysis::getEigenSolutionAlgorithmPtr`. -/
def Analysis.getEigenSolutionAlgorithmPtr (a : Analysis) : Option Addr :=
  match a.metodo_solu with
  | some sm => sm.getEigenSolutionAlgorithmPtr
  | none => none

/-- Model of `Analysis::getEquiSolutionAlgorithmPtr`. -/
def Analysis.getEquiSolutionAlgorithmPtr (a : Analysis) : Option Addr :=
  match a.metodo_solu with
  | some sm => sm.getEquiSolutionAlgorithmPtr
  | none => none

/-- Model of `Analysis::getDomainDecompSolutionAlgorithmPtr`. -/
def Analysis.getDomainDecompSolutionAlgorithmPtr (a : Analysis) : Option Addr :=
  match a.metodo_solu with
  | some sm => sm.getDomainDecompSolutionAlgorithmPtr
  | none => none

/-- Model of `Analysis::getConvergenceTestPtr` (both the `const` and the non-`const`
overload). -/
def Analysis.getConvergenceTestPtr (a : Analysis) : Option Addr :=
  match a.metodo_solu with
  | some sm => sm.getConvergenceTestPtr
  | none => none

/-- Model of `Analysis::setLinearSOE`. The member `SoluMethod::setLinearSOE` is not among
the sources: `peerSet` is its effect for the argument at hand, the status it returns and
the peer it leaves. -/
def Analysis.setLinearSOE (peerSet : SoluMethod → Int × SoluMethod) (a : Analysis) :
    Int × Analysis :=
  match a.metodo_solu with
  | some sm => ((peerSet sm).1, { a with metodo_solu := some (peerSet sm).2 })
  | none => (0, a)

/-- Model of `Analysis::setEigenSOE`; `peerSet` stands for `SoluMethod::setEigenSOE`, which
is not among the sources. -/
def Analysis.setEigenSOE (peerSet : SoluMethod → Int × SoluMethod) (a : Analysis) :
    Int × Analysis :=
  match a.metodo_solu with
  | some sm => ((peerSet sm).1, { a with metodo_solu := some (peerSet sm).2 })
  | none => (0, a)

/-- Model of `Analysis::setIntegrator`; `peerSet` stands for `SoluMethod::setIntegrator`,
which is not among the sources. -/
def Analysis.setIntegrator (peerSet : SoluMethod → Int × SoluMethod) (a : Analysis) :
    Int × Analysis :=
  match a.metodo_solu with
  | some sm => ((peerSet sm).1, { a with metodo_solu := some (peerSet sm).2 })
  | none => (0, a)

/-- Model of `Analysis::setAlgorithm`; `peerSet` stands for `SoluMethod::setAlgorithm`,
which is not among the sources. -/
def Analysis.setAlgorithm (peerSet : SoluMethod → Int × SoluMethod) (a : Analysis) :
    Int × Analysis :=
  match a.metodo_solu with
  | some sm => ((peerSet sm).1, { a with metodo_solu := some (peerSet sm).2 })
  | none => (0, a)

/-- Model of `ModelWrapper::setNumberer`: `copia_numerador(&theNewNumberer); return 0`. -/
def ModelWrapper.setNumberer (b : ModelWrapper) (theNewNumberer : DOF_Numberer) (e : Env) :
    Outcome Int :=
  let o := b.copia_numerador (some theNewNumberer) e
  { value := o.value.map (fun _ => 0), bundle := o.bundle, env := o.env }

/-- Result of a member function of `Analysis` that works on the bundle of the peer: the
value returned (`none` when the call was aborted or a null pointer was dereferenced), the
driver with the bundle as the call leaves it, and the environment. -/
structure DriverOutcome (α : Type) where
  value : Option α
  driver : Analysis
  env : Env
  deriving DecidableEq

/-- Model of `Analysis::setNumberer`: with a peer that has a bundle, the status of the
bundle's `setNumberer`; otherwise `0`. -/
def Analysis.setNumberer (a : Analysis) (theNewNumberer : DOF_Numberer) (e : Env) :
    DriverOutcome Int :=
  match a.metodo_solu with
  | some sm =>
    match sm.getModelWrapperPtr with
    | some b =>
      let o := b.setNumberer theNewNumberer e
      { value := o.value,
        driver := { a with metodo_solu := some { sm with getModelWrapperPtr := some o.bundle } },
        env := o.env }
    | none => { value := some 0, driver := a, env := e }
  | none => { value := some 0, driver := a, env := e }

/-! ## Distribution hooks -/

/-- Model of `ModelWrapper::brokeConstraintHandler`:
`theHandler= cp.brokeConstraintHandler(data(0)); theHandler->set_owner(this)`.
`CommParameters` is not among the sources: `broker` is `cp.brokeConstraintHandler`, the
instance produced for a type tag (`none` for `nullptr`). The result is `none` when the
null pointer is dereferenced. The handler held before is not released. -/
def ModelWrapper.brokeConstraintHandler (broker : Int → Option ConstraintHandler)
    (b : ModelWrapper) (data : List Int) : Option ModelWrapper :=
  match broker (data.getD 0 0) with
  | some h => some { b with theHandler := some { h with owner := some b.self } }
  | none => none

/-- Model of `ModelWrapper::brokeNumberer`:
`theDOFNumberer= cp.brokeNumberer(data(1)); theDOFNumberer->set_owner(this)`, with
`broker` for `cp.brokeNumberer` (`CommParameters` is not among the sources). -/
def ModelWrapper.brokeNumberer (broker : Int → Option DOF_Numberer)
    (b : ModelWrapper) (data : List Int) : Option ModelWrapper :=
  match broker (data.getD 1 0) with
  | some n => some { b with theDOFNumberer := some { n with owner := some b.self } }
  | none => none

/-- Model of `ModelWrapper::brokeAnalysisModel`:
`theModel= cp.brokeAnalysisModel(data(2)); theModel->set_owner(this)`, with `broker` for
`cp.brokeAnalysisModel` (`CommParameters` is not among the sources). -/
def ModelWrapper.brokeAnalysisModel (broker : Int → Option AnalysisModel)
    (b : ModelWrapper) (data : List Int) : Option ModelWrapper :=
  match broker (data.getD 2 0) with
  | some m => some { b with theModel := some { m with owner := some b.self } }
  | none => none

/-- Call `metodo_solu->getModelWrapperPtr()->f(...)` of the hooks of `Analysis`: both
pointers are dereferenced without a test, `none` is the result for a null pointer. -/
def Analysis.onBundle (a : Analysis) (f : ModelWrapper → Option ModelWrapper) :
    Option Analysis :=
  match a.metodo_solu with
  | some sm =>
    match sm.getModelWrapperPtr with
    | some b =>
      match f b with
      | some b2 =>
        some { a with metodo_solu := some { sm with getModelWrapperPtr := some b2 } }
      | none => none
    | none => none
  | none => none

/-- Model of `Analysis::brokeConstraintHandler`. -/
def Analysis.brokeConstraintHandler (broker : Int → Option ConstraintHandler) (a : Analysis)
    (data : List Int) : Option Analysis :=
  a.onBundle (fun b => b.brokeConstraintHandler broker data)

/-- Model of `Analysis::brokeNumberer`. -/
def Analysis.brokeNumberer (broker : Int → Option DOF_Numberer) (a : Analysis)
    (data : List Int) : Option Analysis :=
  a.onBundle (fun b => b.brokeNumberer broker data)

/-- Model of `Analysis::brokeAnalysisModel`. -/
def Analysis.brokeAnalysisModel (broker : Int → Option AnalysisModel) (a : Analysis)
    (data : List Int) : Option Analysis :=
  a.onBundle (fun b => b.brokeAnalysisModel broker data)

/-- Peer with the bundle `b` whose accessors all return `nullptr`. -/
def barePeer (b : Option ModelWrapper) : SoluMethod :=
  ⟨b, none, none, none, none, none, none, none, none, none, none, none, none, none, none,
    none⟩

/-- Plain numberer at address `7`, not owned by any bundle. -/
def looseNumberer : DOF_Numberer := ⟨7, .plainNumberer, none, 5⟩

/-- Bundle at address `0` after `clearAll` (`libera`) on the freshly constructed one: all
three slots are empty. -/
def clearedBundle : ModelWrapper × Env := freshBundle.1.libera freshBundle.2

/-- Plain numberer that is an object of its own, placed in the environment `e`: the object
and the environment in which it is alive. -/
def standaloneNumberer (e : Env) : DOF_Numberer × Env :=
  (⟨e.heap.alloc.1, .plainNumberer, none, 5⟩, { e with heap := e.heap.alloc.2 })

/-- The freshly constructed bundle after `setNumberer` of a plain numberer that is an object
of its own: it holds a model (at address `1`) and its own copy of the numberer (at address
`3`). -/
def numberedBundle : ModelWrapper × Env :=
  ((freshBundle.1.setNumberer (standaloneNumberer freshBundle.2).1
      (standaloneNumberer freshBundle.2).2).bundle,
    (freshBundle.1.setNumberer (standaloneNumberer freshBundle.2).1
      (standaloneNumberer freshBundle.2).2).env)

/-! ## Further invariants of the buffers, rows of the layout -/

/-- Invariant of the buffers besides `AllocInv`: the right-hand side has an entry for every
row, the first row starts at offset `0`, and the solver index is twice as long as the
column-index array. -/
def UmfpackGenLinSOE.BufferInv (s : UmfpackGenLinSOE R) : Prop :=
  s.size ≤ s.B.length ∧ s.rowStartA.getD 0 0 = 0 ∧ s.index.length = 2 * s.colA.length

/-- Slots `rowStartA[a]`, ..., `rowStartA[a+1] - 1` of the column-index array. -/
def UmfpackGenLinSOE.rowSlots (s : UmfpackGenLinSOE R) (a : Nat) : List Int :=
  (s.colA.drop (s.rowStartA.getD a 0)).take
    (s.rowStartA.getD (a + 1) 0 - s.rowStartA.getD a 0)

/-- System sized for three uncoupled DOFs and then for two coupled DOFs: the row starts
keep the length of the first sizing. -/
def regrownSOE : UmfpackGenLinSOE ℤ :=
  ((UmfpackGenLinSOE.init.setSize threeGraph 0).2.setSize pairGraph 0).2

/-! ## `setSize` with the 32-bit `int` of the source -/

/-- Value of an `int` expression whose exact value is `x`: `x` wrapped to the range of a
32-bit two's-complement integer, which is what an overflowing `int` multiplication leaves
on the usual targets (`r` is the 32-bit pattern read as an unsigned number). -/
@[irreducible]
def wrapInt (x : Int) : Int :=
  let r := (x % 4294967296).toNat
  if r < 2147483648 then (r : Int) else (r : Int) - 4294967296

/-- The product `20*nnz` that `setSize` computes for the graph fits a 32-bit `int`. -/
def Graph.fitsInt (g : Graph) : Prop := 20 * countNNZ g.vertices ≤ 2147483647

instance (g : Graph) : Decidable g.fitsInt := by
  unfold Graph.fitsInt; infer_instance

/-- First part of `setSize` with `int lValue = 20*nnz` and the argument `2*nnz` of the
index computed in 32-bit arithmetic: `lValue` can be negative, and the test
`lValue > A.Size()` then fails. The constructors `Vector(n)` and `ID(n)` are not among the
sources; they are taken to give an empty object for `n ≤ 0`. -/
def UmfpackGenLinSOE.setSizeAlloc32 [Zero R] (g : Graph) (s : UmfpackGenLinSOE R) :
    UmfpackGenLinSOE R :=
  let size := g.getNumVertex
  let newNNZ := countNNZ g.vertices
  let nnz := newNNZ
  let lValue : Int := wrapInt (20 * (nnz : Int))
  let s1 : UmfpackGenLinSOE R :=
    if lValue > (s.A.length : Int) then
      { s with A := List.replicate lValue.toNat 0, colA := List.replicate newNNZ 0,
               index := List.replicate (wrapInt (2 * (nnz : Int))).toNat 0 }
    else s
  let s2 : UmfpackGenLinSOE R :=
    { s1 with size := size, nnz := nnz, lValue := lValue,
              A := List.replicate s1.A.length 0, factored := false }
  if size > s2.B.length then
    { s2 with B := List.replicate size 0, X := List.replicate size 0,
              rowStartA := List.replicate (size + 1) 0 }
  else s2

/-- Model of `UmfpackGenLinSOE::setSize(Graph &)` with the 32-bit `lValue`: the first part
is `setSizeAlloc32`, the rest is as in `setSize`. -/
def UmfpackGenLinSOE.setSize32 [Zero R] (g : Graph) (solverOK : Int)
    (s : UmfpackGenLinSOE R) : Int × UmfpackGenLinSOE R :=
  let s1 := s.setSizeAlloc32 g
  let rows := s1.setSizeRows g
  if rows.1 = false then
    (-1, { s1 with size := 0, colA := rows.2.1, rowStartA := rows.2.2 })
  else
    (if solverOK < 0 then solverOK else 0,
     { s1 with colA := rows.2.1, rowStartA := rows.2.2,
               index := fillIndex s1.nnz rows.2.1 rows.2.2 s1.size 0 0 s1.index })

/-- States reachable from a freshly constructed system by calls of `setSize32` for graphs
whose `20*nnz` fits an `int`, of `addA` and of `zeroA`. -/
inductive ReachableFit [CommRing R] [DecidableEq R] : UmfpackGenLinSOE R → Prop
  | init : ReachableFit UmfpackGenLinSOE.init
  | setSize (g : Graph) (solverOK : Int) {s : UmfpackGenLinSOE R} :
      g.fitsInt → ReachableFit s → ReachableFit (s.setSize32 g solverOK).2
  | addA (m : Matrix R) (id : List Int) (fact : R) {s : UmfpackGenLinSOE R} :
      ReachableFit s → ReachableFit (s.addA m id fact).2
  | zeroA {s : UmfpackGenLinSOE R} : ReachableFit s → ReachableFit s.zeroA

/-- Graph of `N` vertices tagged `first`, ..., `first + N - 1`, each adjacent to all the
others. -/
def cliqueGraph (first N : Nat) : Graph :=
  ⟨(List.range N).map (fun (i : Nat) =>
    (⟨((first + i : Nat) : Int),
      ((List.range N).erase i).map (fun (j : Nat) => ((first + j : Nat) : Int))⟩ : Vertex))⟩

/-- The same clique with the tags `1..10363`: no vertex is tagged `0`. -/
def hugeGapGraph : Graph := cliqueGraph 1 10363

/-! ## Element-matrix reads of `addA` -/

/-- Whether the scan `for (k = startRowLoc; k < endRowLoc; k++) if (colA[k] == col)` of
`addA` enters the body of the `if`, where `m(i,j)` is read; `n` slots remain from `k`. -/
def scanFinds (colA : List Int) (col : Int) : Nat → Nat → Bool
  | 0, _ => false
  | n + 1, k => if colA.getD k 0 = col then true else scanFinds colA col n (k + 1)

/-- Index pairs `(i, j)` of the reads `m(i,j)` made by the loop over `j` of `addA` for the
local row `i`, in the order of the reads. -/
def addARowReads (size : Nat) (colA : List Int) (id : List Int) (i startRowLoc endRowLoc : Nat) :
    List (Nat × Nat) :=
  (List.range id.length).filterMap
    (fun j =>
      let col := id.getD j 0
      if col < (size : Int) ∧ col ≥ 0 then
        if scanFinds colA col (endRowLoc - startRowLoc) startRowLoc = true then some (i, j)
        else none
      else none)

/-- Index pairs of the reads `m(i,j)` made by the loop over `i` of `addA`. -/
def addALoopReads (s : UmfpackGenLinSOE R) (id : List Int) : List (Nat × Nat) :=
  (List.range id.length).flatMap
    (fun i =>
      let row := id.getD i 0
      if row < (s.size : Int) ∧ row ≥ 0 then
        addARowReads s.size s.colA id i (s.rowStartA.getD row.toNat 0)
          (s.rowStartA.getD (row.toNat + 1) 0)
      else [])

/-- Index pairs `(i, j)` of the reads `m(i,j)` that `addA(m, id, fact)` makes: none on the
quick return and on the shape error, those of the loops otherwise (both branches make
the same reads). -/
def UmfpackGenLinSOE.addAReads [CommRing R] [DecidableEq R] (m : Matrix R) (id : List Int)
    (fact : R) (s : UmfpackGenLinSOE R) : List (Nat × Nat) :=
  if fact = 0 then []
  else if id.length ≠ m.noRows ∧ id.length ≠ m.noCols then []
  else addALoopReads s id

/-- Element matrix with one row and two columns, entries `1 2`. -/
def wideMatrix : Matrix ℤ := ⟨1, 2, fun _ j => (j : Int) + 1⟩

/-! ## Bounds-checked accesses to the arrays -/

/-- Read of `l[i]` that fails (`none`) when `i` is not an index of `l`. -/
def readAt {α : Type} (l : List α) (i : Nat) : Option α := l.get? i

/-- Write `l[i] = x` that fails (`none`) when `i` is not an index of `l`. -/
def writeAt {α : Type} (l : List α) (i : Nat) (x : α) : Option (List α) :=
  if i < l.length then some (l.set i x) else none

/-- The loop of `shiftUp` with every read and write of `colA` checked. -/
def shiftUpC (j : Nat) : Nat → List Int → Option (List Int)
  | 0, colA => some colA
  | k + 1, colA =>
    if k + 1 > j then
      match readAt colA k with
      | some x =>
        match writeAt colA (k + 1) x with
        | some c => shiftUpC j k c
        | none => none
      | none => none
    else some colA

/-- The loop of `findPlace` with every read and write of `colA` checked. -/
def findPlaceC (row : Int) (lastLoc : Nat) : Nat → Nat → List Int → Option (List Int × Bool)
  | 0, _, colA => some (colA, false)
  | n + 1, j, colA =>
    match readAt colA j with
    | some x =>
      if x > row then
        match shiftUpC j lastLoc colA with
        | some c => (writeAt c j row).map (fun c2 => (c2, true))
        | none => none
      else findPlaceC row lastLoc n (j + 1) colA
    | none => none

/-- The body of `insertCol` with every read and write of `colA` checked. -/
def insertColC (row : Int) (startLoc lastLoc : Nat) (colA : List Int) : Option (List Int) :=
  match findPlaceC row lastLoc (lastLoc - startLoc) startLoc colA with
  | some r => if r.2 = false then writeAt r.1 lastLoc row else some r.1
  | none => none

/-- The row of `placeRow` with every read and write of `colA` checked. -/
def placeRowC (v : Vertex) (startLoc : Nat) (colA : List Int) : Option (List Int × Nat) :=
  match writeAt colA startLoc v.tag with
  | some c0 =>
    v.adjacency.foldlM
      (fun (p : List Int × Nat) row =>
        (insertColC row startLoc p.2 p.1).map (fun c => (c, p.2 + 1)))
      (c0, startLoc + 1)
  | none => none

/-- The row loop of `fillRows` with every access to `colA` and `rowStartA` checked. -/
def fillRowsC (g : Graph) :
    Nat → Nat → Nat → List Int → List Nat → Option (Bool × List Int × List Nat)
  | 0, _, _, colA, rowStartA => some (true, colA, rowStartA)
  | n + 1, a, startLoc, colA, rowStartA =>
    match g.getVertexPtr (a : Int) with
    | none => some (false, colA, rowStartA)
    | some v =>
      match placeRowC v startLoc colA with
      | some p =>
        match writeAt rowStartA (a + 1) p.2 with
        | some rs => fillRowsC g n (a + 1) p.2 p.1 rs
        | none => none
      | none => none

/-- The inner loop of the index fill with the read of `colA` and the two writes of `index`
checked. -/
def fillIndexRowC (nnz : Nat) (colA : List Int) (ii : Nat) :
    Nat → Nat → Nat → List Int → Option (List Int × Nat)
  | 0, _, p, index => some (index, p)
  | n + 1, j, p, index =>
    match readAt colA j with
    | some c =>
      match writeAt index p ((ii : Int) + 1) with
      | some i1 =>
        match writeAt i1 (nnz + p) (c + 1) with
        | some i2 => fillIndexRowC nnz colA ii n (j + 1) (p + 1) i2
        | none => none
      | none => none
    | none => none

/-- The outer loop of the index fill with the two reads of `rowStartA` checked. -/
def fillIndexC (nnz : Nat) (colA : List Int) (rowStartA : List Nat) :
    Nat → Nat → Nat → List Int → Option (List Int)
  | 0, _, _, index => some index
  | n + 1, ii, p, index =>
    match readAt rowStartA ii with
    | some rowBegin =>
      match readAt rowStartA (ii + 1) with
      | some next =>
        match fillIndexRowC nnz colA ii (next - rowBegin) rowBegin p index with
        | some r => fillIndexC nnz colA rowStartA n (ii + 1) r.2 r.1
        | none => none
      | none => none
    | none => none

/-- The block `if (size != 0)` of `setSize` with every array access checked. -/
def UmfpackGenLinSOE.setSizeRowsC (g : Graph) (s : UmfpackGenLinSOE R) :
    Option (Bool × List Int × List Nat) :=
  if s.size ≠ 0 then
    match writeAt s.rowStartA 0 0 with
    | some rs => fillRowsC g s.size 0 0 s.colA rs
    | none => none
  else some (true, s.colA, s.rowStartA)

/-- `setSize` (with the 32-bit `lValue`) with every read and write of `colA`, `rowStartA`
and `index` checked, the element accesses `index[0]` and `index[nnz]` that give
`indexRowPtr` and `indexColPtr` included: `none` as soon as one of them is out of bounds,
the result of `setSize32` otherwise. -/
def UmfpackGenLinSOE.setSizeC [Zero R] (g : Graph) (solverOK : Int)
    (s : UmfpackGenLinSOE R) : Option (Int × UmfpackGenLinSOE R) :=
  let s1 := s.setSizeAlloc32 g
  match s1.setSizeRowsC g with
  | some rows =>
    if rows.1 = false then
      some (-1, { s1 with size := 0, colA := rows.2.1, rowStartA := rows.2.2 })
    else
      match readAt s1.index 0 with
      | some _ =>
        match readAt s1.index s1.nnz with
        | some _ =>
          match fillIndexC s1.nnz rows.2.1 rows.2.2 s1.size 0 0 s1.index with
          | some idx =>
            some (if solverOK < 0 then solverOK else 0,
              { s1 with colA := rows.2.1, rowStartA := rows.2.2, index := idx })
          | none => none
        | none => none
      | none => none
  | none => none

theorem shiftUp_length (j k : Nat) (colA : List Int) :
    (shiftUp j k colA).length = colA.length := by
  induction k generalizing colA with
  | zero => rfl
  | succ k ih =>
    unfold shiftUp
    split
    · rw [ih]; simp
    · rfl

theorem findPlace_length (row : Int) (lastLoc n j : Nat) (colA : List Int) :
    (findPlace row lastLoc n j colA).1.length = colA.length := by
  induction n generalizing j with
  | zero => rfl
  | succ n ih =>
    unfold findPlace
    split
    · simp [shiftUp_length]
    · exact ih (j + 1)

theorem insertCol_length (row : Int) (startLoc lastLoc : Nat) (colA : List Int) :
    (insertCol row startLoc lastLoc colA).length = colA.length := by
  unfold insertCol
  simp only
  split <;> simp [findPlace_length]

theorem placeRow_length (v : Vertex) (startLoc : Nat) (colA : List Int) :
    (placeRow v startLoc colA).1.length = colA.length := by
  unfold placeRow
  have key : ∀ (adj : List Int) (p : List Int × Nat),
      (adj.foldl (fun (p : List Int × Nat) row =>
        (insertCol row startLoc p.2 p.1, p.2 + 1)) p).1.length = p.1.length := by
    intro adj
    induction adj with
    | nil => intro p; rfl
    | cons row adj ih => intro p; rw [List.foldl_cons, ih]; exact insertCol_length _ _ _ _
  rw [key]; simp

theorem fillRows_length (g : Graph) (n a startLoc : Nat) (colA : List Int)
    (rowStartA : List Nat) :
    (fillRows g n a startLoc colA rowStartA).2.1.length = colA.length ∧
    (fillRows g n a startLoc colA rowStartA).2.2.length = rowStartA.length := by
  induction n generalizing a startLoc colA rowStartA with
  | zero => exact ⟨rfl, rfl⟩
  | succ n ih =>
    unfold fillRows
    cases g.getVertexPtr (a : Int) with
    | none => exact ⟨rfl, rfl⟩
    | some v =>
      simp only
      obtain ⟨h1, h2⟩ := ih (a + 1) (placeRow v startLoc colA).2 (placeRow v startLoc colA).1
        (rowStartA.set (a + 1) (placeRow v startLoc colA).2)
      rw [h1, h2, placeRow_length]; simp

/-! ## Fields of the state after `setSize` -/

theorem setSizeAlloc_size [Zero R] (g : Graph) (s : UmfpackGenLinSOE R) :
    (s.setSizeAlloc g).size = g.getNumVertex := by
  unfold UmfpackGenLinSOE.setSizeAlloc
  dsimp only
  split_ifs <;> simp_all

theorem setSizeAlloc_nnz [Zero R] (g : Graph) (s : UmfpackGenLinSOE R) :
    (s.setSizeAlloc g).nnz = countNNZ g.vertices := by
  unfold UmfpackGenLinSOE.setSizeAlloc
  dsimp only
  split_ifs <;> simp_all

theorem setSizeAlloc_factored [Zero R] (g : Graph) (s : UmfpackGenLinSOE R) :
    (s.setSizeAlloc g).factored = false := by
  unfold UmfpackGenLinSOE.setSizeAlloc
  dsimp only
  split_ifs <;> simp_all

theorem setSizeAlloc_A [Zero R] (g : Graph) (s : UmfpackGenLinSOE R) :
    (s.setSizeAlloc g).A =
      List.replicate
        (if 20 * countNNZ g.vertices > s.A.length then 20 * countNNZ g.vertices
          else s.A.length) 0 := by
  unfold UmfpackGenLinSOE.setSizeAlloc
  dsimp only
  split_ifs <;> simp_all

theorem setSizeAlloc_colA [Zero R] (g : Graph) (s : UmfpackGenLinSOE R) :
    (s.setSizeAlloc g).colA =
      if 20 * countNNZ g.vertices > s.A.length then List.replicate (countNNZ g.vertices) 0
        else s.colA := by
  unfold UmfpackGenLinSOE.setSizeAlloc
  dsimp only
  split_ifs <;> simp_all

theorem setSizeAlloc_index [Zero R] (g : Graph) (s : UmfpackGenLinSOE R) :
    (s.setSizeAlloc g).index =
      if 20 * countNNZ g.vertices > s.A.length then
        List.replicate (2 * countNNZ g.vertices) 0
      else s.index := by
  unfold UmfpackGenLinSOE.setSizeAlloc
  dsimp only
  split_ifs <;> simp_all

theorem setSizeAlloc_B [Zero R] (g : Graph) (s : UmfpackGenLinSOE R) :
    (s.setSizeAlloc g).B =
      if g.getNumVertex > s.B.length then List.replicate g.getNumVertex 0 else s.B := by
  unfold UmfpackGenLinSOE.setSizeAlloc
  dsimp only
  split_ifs <;> simp_all

theorem setSizeAlloc_X [Zero R] (g : Graph) (s : UmfpackGenLinSOE R) :
    (s.setSizeAlloc g).X =
      if g.getNumVertex > s.B.length then List.replicate g.getNumVertex 0 else s.X := by
  unfold UmfpackGenLinSOE.setSizeAlloc
  dsimp only
  split_ifs <;> simp_all

theorem setSizeAlloc_rowStartA [Zero R] (g : Graph) (s : UmfpackGenLinSOE R) :
    (s.setSizeAlloc g).rowStartA =
      if g.getNumVertex > s.B.length then List.replicate (g.getNumVertex + 1) 0
        else s.rowStartA := by
  unfold UmfpackGenLinSOE.setSizeAlloc
  dsimp only
  split_ifs <;> simp_all

theorem setSizeRows_length (g : Graph) (s : UmfpackGenLinSOE R) :
    (s.setSizeRows g).2.1.length = s.colA.length ∧
    (s.setSizeRows g).2.2.length = s.rowStartA.length := by
  unfold UmfpackGenLinSOE.setSizeRows
  split
  · have h := fillRows_length g s.size 0 0 s.colA (s.rowStartA.set 0 0)
    simpa using h
  · exact ⟨rfl, rfl⟩

theorem setSize_nnz [Zero R] (g : Graph) (solverOK : Int) (s : UmfpackGenLinSOE R) :
    (s.setSize g solverOK).2.nnz = countNNZ g.vertices := by
  unfold UmfpackGenLinSOE.setSize
  simp only
  split <;> exact setSizeAlloc_nnz g s

theorem setSize_factored [Zero R] (g : Graph) (solverOK : Int) (s : UmfpackGenLinSOE R) :
    (s.setSize g solverOK).2.factored = false := by
  unfold UmfpackGenLinSOE.setSize
  simp only
  split <;> exact setSizeAlloc_factored g s

theorem setSize_A [Zero R] (g : Graph) (solverOK : Int) (s : UmfpackGenLinSOE R) :
    (s.setSize g solverOK).2.A = (s.setSizeAlloc g).A := by
  unfold UmfpackGenLinSOE.setSize
  simp only
  split <;> rfl

theorem setSize_B [Zero R] (g : Graph) (solverOK : Int) (s : UmfpackGenLinSOE R) :
    (s.setSize g solverOK).2.B = (s.setSizeAlloc g).B := by
  unfold UmfpackGenLinSOE.setSize
  simp only
  split <;> rfl

theorem setSize_X [Zero R] (g : Graph) (solverOK : Int) (s : UmfpackGenLinSOE R) :
    (s.setSize g solverOK).2.X = (s.setSizeAlloc g).X := by
  unfold UmfpackGenLinSOE.setSize
  simp only
  split <;> rfl

theorem setSize_colA [Zero R] (g : Graph) (solverOK : Int) (s : UmfpackGenLinSOE R) :
    (s.setSize g solverOK).2.colA = ((s.setSizeAlloc g).setSizeRows g).2.1 := by
  unfold UmfpackGenLinSOE.setSize
  simp only
  split <;> rfl

theorem setSize_rowStartA [Zero R] (g : Graph) (solverOK : Int) (s : UmfpackGenLinSOE R) :
    (s.setSize g solverOK).2.rowStartA = ((s.setSizeAlloc g).setSizeRows g).2.2 := by
  unfold UmfpackGenLinSOE.setSize
  simp only
  split <;> rfl

theorem setSize_size [Zero R] (g : Graph) (solverOK : Int) (s : UmfpackGenLinSOE R) :
    (s.setSize g solverOK).2.size =
      if ((s.setSizeAlloc g).setSizeRows g).1 = false then 0 else g.getNumVertex := by
  unfold UmfpackGenLinSOE.setSize
  simp only
  split
  · rfl
  · exact setSizeAlloc_size g s

theorem setSize_status [Zero R] (g : Graph) (solverOK : Int) (s : UmfpackGenLinSOE R) :
    (s.setSize g solverOK).1 =
      if ((s.setSizeAlloc g).setSizeRows g).1 = false then -1
      else if solverOK < 0 then solverOK else 0 := by
  unfold UmfpackGenLinSOE.setSize
  simp only
  split <;> rfl

/-! ## What `addA` and `zeroA` leave alone -/

theorem scanRow_length [Add R] [Zero R] (colA : List Int) (col : Int) (v : R) (n k : Nat)
    (A : List R) : (scanRow colA col v n k A).length = A.length := by
  induction n generalizing k with
  | zero => rfl
  | succ n ih =>
    unfold scanRow
    split
    · simp
    · exact ih (k + 1)

theorem foldl_length_of_step {α β : Type} (f : List α → β → List α)
    (hf : ∀ A b, (f A b).length = A.length) (l : List β) (A : List α) :
    (l.foldl f A).length = A.length := by
  induction l generalizing A with
  | nil => rfl
  | cons b l ih => rw [List.foldl_cons, ih, hf]

theorem addARow_length [Add R] [Zero R] (size : Nat) (colA id : List Int)
    (val : Nat → Nat → R) (i startRowLoc endRowLoc : Nat) (A : List R) :
    (addARow size colA id val i startRowLoc endRowLoc A).length = A.length := by
  unfold addARow
  apply foldl_length_of_step
  intro A j
  dsimp only
  split
  · exact scanRow_length _ _ _ _ _ _
  · rfl

theorem addALoop_length [Add R] [Zero R] (s : UmfpackGenLinSOE R) (id : List Int)
    (val : Nat → Nat → R) : (addALoop s id val).length = s.A.length := by
  unfold addALoop
  apply foldl_length_of_step
  intro A i
  dsimp only
  split
  · exact addARow_length _ _ _ _ _ _ _ _
  · rfl

theorem addA_frame [CommRing R] [DecidableEq R] (m : Matrix R) (id : List Int) (fact : R)
    (s : UmfpackGenLinSOE R) :
    (s.addA m id fact).2 = { s with A := (s.addA m id fact).2.A } := by
  unfold UmfpackGenLinSOE.addA
  split_ifs <;> rfl

theorem addA_A_length [CommRing R] [DecidableEq R] (m : Matrix R) (id : List Int) (fact : R)
    (s : UmfpackGenLinSOE R) : (s.addA m id fact).2.A.length = s.A.length := by
  unfold UmfpackGenLinSOE.addA
  split_ifs <;> simp [addALoop_length]

theorem addA_factored [CommRing R] [DecidableEq R] (m : Matrix R) (id : List Int) (fact : R)
    (s : UmfpackGenLinSOE R) : (s.addA m id fact).2.factored = s.factored := by
  rw [addA_frame]

theorem addA_size [CommRing R] [DecidableEq R] (m : Matrix R) (id : List Int) (fact : R)
    (s : UmfpackGenLinSOE R) : (s.addA m id fact).2.size = s.size := by
  rw [addA_frame]

theorem addA_nnz [CommRing R] [DecidableEq R] (m : Matrix R) (id : List Int) (fact : R)
    (s : UmfpackGenLinSOE R) : (s.addA m id fact).2.nnz = s.nnz := by
  rw [addA_frame]

theorem addA_colA [CommRing R] [DecidableEq R] (m : Matrix R) (id : List Int) (fact : R)
    (s : UmfpackGenLinSOE R) : (s.addA m id fact).2.colA = s.colA := by
  rw [addA_frame]

theorem addA_rowStartA [CommRing R] [DecidableEq R] (m : Matrix R) (id : List Int)
    (fact : R) (s : UmfpackGenLinSOE R) : (s.addA m id fact).2.rowStartA = s.rowStartA := by
  rw [addA_frame]

theorem addA_B [CommRing R] [DecidableEq R] (m : Matrix R) (id : List Int)
    (fact : R) (s : UmfpackGenLinSOE R) : (s.addA m id fact).2.B = s.B := by
  rw [addA_frame]

/-! ## The allocation invariant -/

theorem allocInv_setSize [Zero R] (g : Graph) (solverOK : Int) (s : UmfpackGenLinSOE R)
    (h : s.AllocInv) : (s.setSize g solverOK).2.AllocInv := by
  obtain ⟨hA, _, hB⟩ := h
  have hc := (setSizeRows_length g (s.setSizeAlloc g)).1
  have hr := (setSizeRows_length g (s.setSizeAlloc g)).2
  unfold UmfpackGenLinSOE.AllocInv
  rw [setSize_A, setSize_colA, setSize_rowStartA, setSize_nnz, setSize_B, hc, hr,
    setSizeAlloc_A, setSizeAlloc_colA, setSizeAlloc_B, setSizeAlloc_rowStartA]
  refine ⟨?_, ?_, ?_⟩
  · split_ifs <;> simp [hA]
  · split_ifs with h1
    · simp
    · omega
  · split_ifs with h1
    · right; simp
    · exact hB

theorem allocInv_addA [CommRing R] [DecidableEq R] (m : Matrix R) (id : List Int) (fact : R)
    (s : UmfpackGenLinSOE R) (h : s.AllocInv) : (s.addA m id fact).2.AllocInv := by
  unfold UmfpackGenLinSOE.AllocInv
  rw [addA_A_length, addA_colA, addA_nnz, addA_B, addA_rowStartA]
  exact h

theorem allocInv_zeroA [Zero R] (s : UmfpackGenLinSOE R) (h : s.AllocInv) :
    s.zeroA.AllocInv := by
  unfold UmfpackGenLinSOE.AllocInv at h ⊢
  unfold UmfpackGenLinSOE.zeroA
  simpa using h

theorem Reachable.allocInv [CommRing R] [DecidableEq R] {s : UmfpackGenLinSOE R}
    (h : Reachable s) : s.AllocInv := by
  induction h with
  | init => simp [UmfpackGenLinSOE.AllocInv, UmfpackGenLinSOE.init]
  | setSize g solverOK _ ih => exact allocInv_setSize g solverOK _ ih
  | addA m id fact _ ih => exact allocInv_addA m id fact _ ih
  | zeroA _ ih => exact allocInv_zeroA _ ih

/-! ## The ordered insertion of `setSize` -/

theorem getD_append_length (pre : List Int) (y : Int) (post : List Int) :
    (pre ++ y :: post).getD pre.length 0 = y := by
  rw [List.getD_eq_getElem?_getD, List.getElem?_append_right (le_refl _)]
  simp

theorem set_append_length (pre : List Int) (y z : Int) (post : List Int) :
    (pre ++ y :: post).set pre.length z = pre ++ z :: post := by
  rw [List.set_append_right _ _ (le_refl _)]
  simp

theorem shiftUp_spec (pre sl : List Int) :
    ∀ (x : Int) (post : List Int) (j k : Nat), j = pre.length → k = j + sl.length →
      ∃ h, shiftUp j k (pre ++ sl ++ x :: post) = pre ++ h :: sl ++ post := by
  induction sl using List.reverseRecOn with
  | nil =>
    intro x post j k hj hk
    refine ⟨x, ?_⟩
    have hkj : k = j := by simpa using hk
    subst hkj
    cases k with
    | zero => simp [shiftUp]
    | succ k => simp [shiftUp]
  | append_singleton sl0 y ih =>
    intro x post j k hj hk
    have hk2 : k = (j + sl0.length) + 1 := by simp at hk; omega
    subst hk2
    unfold shiftUp
    rw [if_pos (by omega)]
    have e1 : pre ++ (sl0 ++ [y]) ++ x :: post = (pre ++ sl0) ++ y :: (x :: post) := by simp
    have hl : j + sl0.length = (pre ++ sl0).length := by simp [hj]
    have e2 : ((pre ++ sl0) ++ y :: (x :: post)).set (j + sl0.length + 1) y
        = pre ++ sl0 ++ y :: (y :: post) := by
      have : j + sl0.length + 1 = (pre ++ sl0 ++ [y]).length := by simp [hj]; omega
      have e3 : (pre ++ sl0) ++ y :: (x :: post) = (pre ++ sl0 ++ [y]) ++ x :: post := by simp
      rw [e3, this, set_append_length]; simp
    rw [e1, hl, getD_append_length, ← hl, e2]
    obtain ⟨h, hh⟩ := ih y (y :: post) j (j + sl0.length) hj rfl
    exact ⟨h, by rw [hh]; simp⟩

theorem findPlace_spec (row : Int) (sl : List Int) :
    ∀ (pre : List Int) (x : Int) (post : List Int) (j lastLoc : Nat), j = pre.length →
      lastLoc = j + sl.length →
      (if (findPlace row lastLoc sl.length j (pre ++ sl ++ x :: post)).2 = false then
          (findPlace row lastLoc sl.length j (pre ++ sl ++ x :: post)).1.set lastLoc row
        else (findPlace row lastLoc sl.length j (pre ++ sl ++ x :: post)).1)
        = pre ++ List.orderedInsert (· < ·) row sl ++ post := by
  induction sl with
  | nil =>
    intro pre x post j lastLoc hj hl
    have : lastLoc = pre.length := by simp at hl; omega
    subst this
    simp [findPlace, set_append_length]
  | cons b sl ih =>
    intro pre x post j lastLoc hj hl
    simp only [List.length_cons]
    unfold findPlace
    have hb : (pre ++ b :: sl ++ x :: post).getD j 0 = b := by
      have : pre ++ b :: sl ++ x :: post = pre ++ b :: (sl ++ x :: post) := by simp
      rw [this, hj, getD_append_length]
    rw [hb]
    by_cases hgt : b > row
    · rw [if_pos hgt]
      simp only [Bool.true_eq_false, if_false]
      obtain ⟨h, hh⟩ := shiftUp_spec pre (b :: sl) x post j lastLoc hj hl
      rw [hh, hj]
      have : pre ++ h :: (b :: sl) ++ post = pre ++ h :: ((b :: sl) ++ post) := by simp
      rw [this, set_append_length]
      simp [List.orderedInsert, hgt]
    · rw [if_neg hgt]
      have e1 : pre ++ b :: sl ++ x :: post = (pre ++ [b]) ++ sl ++ x :: post := by simp
      rw [e1, ih (pre ++ [b]) x post (j + 1) lastLoc (by simp [hj])
        (by simp at hl; omega)]
      have : ¬ row < b := hgt
      simp [List.orderedInsert, this]

theorem insertCol_spec (row : Int) (pre sl : List Int) (x : Int) (post : List Int) :
    insertCol row pre.length (pre.length + sl.length) (pre ++ sl ++ x :: post)
      = pre ++ List.orderedInsert (· < ·) row sl ++ post := by
  unfold insertCol
  simp only [Nat.add_sub_cancel_left]
  exact findPlace_spec row sl pre x post pre.length (pre.length + sl.length) rfl rfl

theorem placeRow_fold_spec (pre : List Int) (adj : List Int) :
    ∀ (acc mid post : List Int), mid.length = adj.length →
      adj.foldl (fun (p : List Int × Nat) row => (insertCol row pre.length p.2 p.1, p.2 + 1))
          (pre ++ acc ++ mid ++ post, pre.length + acc.length)
        = (pre ++ adj.foldl (fun acc row => List.orderedInsert (· < ·) row acc) acc ++ post,
            pre.length + acc.length + adj.length) := by
  induction adj with
  | nil =>
    intro acc mid post hm
    have : mid = [] := List.eq_nil_of_length_eq_zero (by simpa using hm)
    subst this
    simp
  | cons row adj ih =>
    intro acc mid post hm
    cases mid with
    | nil => simp at hm
    | cons x mid =>
      rw [List.foldl_cons, List.foldl_cons]
      have e1 : pre ++ acc ++ x :: mid ++ post = pre ++ acc ++ x :: (mid ++ post) := by simp
      dsimp only
      rw [e1, insertCol_spec]
      have e2 : pre ++ List.orderedInsert (· < ·) row acc ++ (mid ++ post)
          = pre ++ List.orderedInsert (· < ·) row acc ++ mid ++ post := by simp
      have e3 : pre.length + acc.length + 1
          = pre.length + (List.orderedInsert (· < ·) row acc).length := by
        rw [List.orderedInsert_length]; omega
      rw [e2, e3, ih _ mid post (by simpa using hm)]
      rw [List.orderedInsert_length]
      simp only [List.length_cons]
      congr 1
      omega

theorem placeRow_spec (v : Vertex) (pre mid post : List Int)
    (hm : mid.length = v.adjacency.length + 1) :
    placeRow v pre.length (pre ++ mid ++ post)
      = (pre ++ rowCols v ++ post, pre.length + (rowCols v).length) := by
  cases mid with
  | nil => simp at hm
  | cons x mid =>
    unfold placeRow
    have e1 : (pre ++ x :: mid ++ post).set pre.length v.tag
        = pre ++ [v.tag] ++ mid ++ post := by
      have : pre ++ x :: mid ++ post = pre ++ x :: (mid ++ post) := by simp
      rw [this, set_append_length]; simp
    have e2 : pre.length + 1 = pre.length + [v.tag].length := by simp
    rw [e1, e2, placeRow_fold_spec pre v.adjacency [v.tag] mid post (by simpa using hm)]
    have hl : (rowCols v).length = v.adjacency.length + 1 := by
      unfold rowCols
      have : ∀ (adj acc : List Int),
          (adj.foldl (fun acc row => List.orderedInsert (· < ·) row acc) acc).length
            = acc.length + adj.length := by
        intro adj
        induction adj with
        | nil => intro acc; simp
        | cons r adj ih =>
          intro acc
          rw [List.foldl_cons, ih, List.orderedInsert_length]; simp; omega
      rw [this]; simp; omega
    rw [hl]
    unfold rowCols
    simp only [List.length_cons, List.length_nil]
    congr 1
    omega

/-! ## The row loop of `setSize` -/

theorem rowCols_length (v : Vertex) : (rowCols v).length = v.adjacency.length + 1 := by
  unfold rowCols
  have : ∀ (adj acc : List Int),
      (adj.foldl (fun acc row => List.orderedInsert (· < ·) row acc) acc).length
        = acc.length + adj.length := by
    intro adj
    induction adj with
    | nil => intro acc; simp
    | cons r adj ih =>
      intro acc
      rw [List.foldl_cons, ih, List.orderedInsert_length]; simp; omega
  rw [this]; simp; omega

theorem getD_set_nat (l : List Nat) (i j x : Nat) :
    (l.set i x).getD j 0 = if i = j ∧ i < l.length then x else l.getD j 0 := by
  simp only [List.getD_eq_getElem?_getD, List.getElem?_set]
  by_cases h : i = j
  · subst h
    by_cases h2 : i < l.length
    · simp [h2]
    · simp [h2, List.getElem?_eq_none (not_lt.mp h2)]
  · simp [h]

theorem fillRows_spec (g : Graph) (n : Nat) :
    ∀ (a : Nat) (pre mid post : List Int) (rowStartA : List Nat),
      (∀ b, a ≤ b → b < a + n → g.getVertexPtr (b : Int) ≠ none) →
      mid.length = (rowsFrom g n a).length →
      (fillRows g n a pre.length (pre ++ mid ++ post) rowStartA).1 = true ∧
      (fillRows g n a pre.length (pre ++ mid ++ post) rowStartA).2.1
        = pre ++ rowsFrom g n a ++ post ∧
      ∀ i, (fillRows g n a pre.length (pre ++ mid ++ post) rowStartA).2.2.getD i 0
        = if a < i ∧ i ≤ a + n ∧ i < rowStartA.length then
            pre.length + (rowsFrom g (i - a) a).length
          else rowStartA.getD i 0 := by
  induction n with
  | zero =>
    intro a pre mid post rowStartA _ hm
    have : mid = [] := List.eq_nil_of_length_eq_zero (by simpa [rowsFrom] using hm)
    subst this
    refine ⟨rfl, by simp [fillRows, rowsFrom], ?_⟩
    intro i
    have : ¬ (a < i ∧ i ≤ a + 0 ∧ i < rowStartA.length) := by omega
    rw [if_neg this]
    rfl
  | succ n ih =>
    intro a pre mid post rowStartA hfound hm
    have hsome := hfound a (le_refl _) (by omega)
    obtain ⟨v, hv⟩ := Option.ne_none_iff_exists'.mp hsome
    have hrow : rowOf g a = rowCols v := by simp [rowOf, hv]
    have hrf : rowsFrom g (n + 1) a = rowCols v ++ rowsFrom g n (a + 1) := by
      simp [rowsFrom, hrow]
    rw [hrf, List.length_append] at hm
    have hsplit : mid = mid.take (rowCols v).length ++ mid.drop (rowCols v).length :=
      (List.take_append_drop _ _).symm
    have hl1 : (mid.take (rowCols v).length).length = v.adjacency.length + 1 := by
      rw [List.length_take, ← rowCols_length]; omega
    have hl2 : (mid.drop (rowCols v).length).length = (rowsFrom g n (a + 1)).length := by
      rw [List.length_drop]; omega
    have hplace := placeRow_spec v pre (mid.take (rowCols v).length)
      (mid.drop (rowCols v).length ++ post) hl1
    have hcol : pre ++ mid ++ post
        = pre ++ mid.take (rowCols v).length ++ (mid.drop (rowCols v).length ++ post) := by
      rw [List.append_assoc, List.append_assoc, ← List.append_assoc (mid.take _),
        List.take_append_drop]
    unfold fillRows
    rw [hv]
    dsimp only
    rw [hcol, hplace]
    dsimp only
    have hpre : pre.length + (rowCols v).length = (pre ++ rowCols v).length := by simp
    have hcol2 : pre ++ rowCols v ++ (mid.drop (rowCols v).length ++ post)
        = (pre ++ rowCols v) ++ mid.drop (rowCols v).length ++ post := by simp
    rw [hcol2, hpre]
    obtain ⟨h1, h2, h3⟩ := ih (a + 1) (pre ++ rowCols v) (mid.drop (rowCols v).length) post
      (rowStartA.set (a + 1) (pre ++ rowCols v).length)
      (fun b hb1 hb2 => hfound b (by omega) (by omega)) hl2
    refine ⟨h1, by rw [h2, hrf]; simp, ?_⟩
    intro i
    rw [h3 i, List.length_set, getD_set_nat]
    by_cases hi : a + 1 < i ∧ i ≤ a + 1 + n ∧ i < rowStartA.length
    · rw [if_pos hi, if_pos (by omega)]
      have : i - a = (i - (a + 1)) + 1 := by omega
      rw [this]
      simp only [rowsFrom, hrow, List.length_append]
      omega
    · rw [if_neg hi]
      by_cases hi2 : a + 1 = i ∧ a + 1 < rowStartA.length
      · rw [if_pos hi2, if_pos (by omega)]
        have : i - a = 0 + 1 := by omega
        rw [this]
        simp [rowsFrom, hrow]
      · rw [if_neg hi2, if_neg (by omega)]

/-! ## Graphs whose rows are all found -/

theorem getVertexPtr_some {g : Graph} {a : Int} {v : Vertex} (h : g.getVertexPtr a = some v) :
    v ∈ g.vertices ∧ v.tag = a := by
  unfold Graph.getVertexPtr at h
  exact ⟨List.mem_of_find?_eq_some h, by simpa using List.find?_some h⟩

theorem rowsFrom_succ_last (g : Graph) (n a : Nat) :
    rowsFrom g (n + 1) a = rowsFrom g n a ++ rowOf g (a + n) := by
  induction n generalizing a with
  | zero => simp [rowsFrom]
  | succ n ih =>
    rw [rowsFrom, ih (a + 1), rowsFrom]
    have : a + 1 + n = a + (n + 1) := by omega
    rw [this, List.append_assoc]

theorem rowsFrom_length_mono (g : Graph) (n m : Nat) (h : n ≤ m) :
    (rowsFrom g n 0).length ≤ (rowsFrom g m 0).length := by
  induction m with
  | zero =>
    have : n = 0 := by omega
    subst this; exact le_refl _
  | succ m ih =>
    by_cases hn : n = m + 1
    · subst hn; exact le_refl _
    · rw [rowsFrom_succ_last, List.length_append]
      have := ih (by omega)
      omega

theorem rowVertices_succ (g : Graph) (n : Nat) (v : Vertex)
    (hv : g.getVertexPtr (n : Int) = some v) :
    g.rowVertices (n + 1) = g.rowVertices n ++ [v] := by
  unfold Graph.rowVertices
  rw [List.range_succ, List.filterMap_append]
  simp [hv]

theorem rowVertices_facts (g : Graph) (h : g.AllFound) (n : Nat) (hn : n ≤ g.getNumVertex) :
    (g.rowVertices n).length = n ∧
    (g.rowVertices n).map Vertex.tag = (List.range n).map (fun (b : Nat) => (b : Int)) ∧
    (∀ v ∈ g.rowVertices n, v ∈ g.vertices) ∧
    (rowsFrom g n 0).length
      = ((g.rowVertices n).map (fun v => v.adjacency.length + 1)).sum := by
  induction n with
  | zero => simp [Graph.rowVertices, rowsFrom]
  | succ n ih =>
    obtain ⟨h1, h2, h3, h4⟩ := ih (by omega)
    obtain ⟨v, hv⟩ := Option.ne_none_iff_exists'.mp (h n (by omega))
    obtain ⟨hmem, htag⟩ := getVertexPtr_some hv
    rw [rowVertices_succ g n v hv]
    refine ⟨by simp [h1], ?_, ?_, ?_⟩
    · rw [List.map_append, h2, List.range_succ, List.map_append]
      simp [htag]
    · intro w hw
      rcases List.mem_append.mp hw with hw | hw
      · exact h3 w hw
      · have : w = v := by simpa using hw
        rw [this]; exact hmem
    · rw [rowsFrom_succ_last, List.length_append, h4, List.map_append, List.sum_append]
      have : rowOf g (0 + n) = rowCols v := by simp [rowOf, hv]
      rw [this, rowCols_length]
      simp

theorem rowVertices_perm (g : Graph) (h : g.AllFound) :
    (g.rowVertices g.getNumVertex).Perm g.vertices := by
  obtain ⟨h1, h2, h3, _⟩ := rowVertices_facts g h g.getNumVertex (le_refl _)
  have hnd : (g.rowVertices g.getNumVertex).Nodup := by
    apply List.Nodup.of_map Vertex.tag
    rw [h2]
    exact (List.nodup_range _).map (fun a b hab => by exact_mod_cast hab)
  have hsub : g.rowVertices g.getNumVertex ⊆ g.vertices := fun v hv => h3 v hv
  exact (List.subperm_of_subset hnd hsub).perm_of_length_le (by rw [h1]; exact le_refl _)

theorem countNNZ_eq_sum (vs : List Vertex) :
    countNNZ vs = (vs.map (fun v => v.adjacency.length + 1)).sum := by
  unfold countNNZ
  have : ∀ (l : List Vertex) (init : Nat),
      l.foldl (fun newNNZ v => newNNZ + (v.adjacency.length + 1)) init
        = init + (l.map (fun v => v.adjacency.length + 1)).sum := by
    intro l
    induction l with
    | nil => intro init; simp
    | cons v l ih => intro init; rw [List.foldl_cons, ih]; simp; omega
  rw [this]; simp

theorem countNNZ_eq_rows (g : Graph) (h : g.AllFound) :
    countNNZ g.vertices = (rowsFrom g g.getNumVertex 0).length := by
  rw [countNNZ_eq_sum, (rowVertices_facts g h g.getNumVertex (le_refl _)).2.2.2]
  exact ((rowVertices_perm g h).map _).sum_eq.symm

theorem vertex_tag_found (g : Graph) (h : g.AllFound) (v : Vertex) (hv : v ∈ g.vertices) :
    ∃ b, b < g.getNumVertex ∧ v.tag = (b : Int) := by
  have hmem : v ∈ g.rowVertices g.getNumVertex := (rowVertices_perm g h).mem_iff.mpr hv
  unfold Graph.rowVertices at hmem
  obtain ⟨b, hb, hbv⟩ := List.mem_filterMap.mp hmem
  exact ⟨b, List.mem_range.mp hb, (getVertexPtr_some hbv).2⟩

/-! ## The state after a successful `setSize` -/

theorem fillRows_found (g : Graph) (n : Nat) :
    ∀ (a startLoc : Nat) (colA : List Int) (rowStartA : List Nat),
      (fillRows g n a startLoc colA rowStartA).1 = true →
      ∀ b : Nat, a ≤ b → b < a + n → g.getVertexPtr (b : Int) ≠ none := by
  induction n with
  | zero => intro a _ _ _ _ b h1 h2; omega
  | succ n ih =>
    intro a startLoc colA rowStartA h b h1 h2
    unfold fillRows at h
    cases hv : g.getVertexPtr (a : Int) with
    | none => rw [hv] at h; simp at h
    | some v =>
      rw [hv] at h
      by_cases hb : b = a
      · subst hb; rw [hv]; simp
      · exact ih _ _ _ _ h b (by omega) (by omega)

theorem setSizeRows_found [Zero R] (g : Graph) (s : UmfpackGenLinSOE R)
    (h : ((s.setSizeAlloc g).setSizeRows g).1 = true) : g.AllFound := by
  intro b hb
  unfold UmfpackGenLinSOE.setSizeRows at h
  rw [setSizeAlloc_size] at h
  have hne : g.getNumVertex ≠ 0 := by omega
  rw [if_pos hne] at h
  exact fillRows_found g _ _ _ _ _ h b (Nat.zero_le _) (by omega)

theorem setSize_stores_of_found [Zero R] (g : Graph) (solverOK : Int)
    (s : UmfpackGenLinSOE R) (hinv : s.AllocInv)
    (h : ((s.setSizeAlloc g).setSizeRows g).1 = true) :
    (s.setSize g solverOK).2.Stores g := by
  have hfound := setSizeRows_found g s h
  have hnnz := countNNZ_eq_rows g hfound
  obtain ⟨hA, _, hB⟩ := hinv
  have hsize : (s.setSize g solverOK).2.size = g.getNumVertex := by
    rw [setSize_size, if_neg (by simp [h])]
  have hcap : countNNZ g.vertices ≤ (s.setSizeAlloc g).colA.length := by
    rw [setSizeAlloc_colA]
    split_ifs with h1
    · simp
    · omega
  have hrlen : g.getNumVertex ≠ 0 → g.getNumVertex + 1 ≤ (s.setSizeAlloc g).rowStartA.length := by
    intro hne
    rw [setSizeAlloc_rowStartA]
    split_ifs with h1
    · simp
    · omega
  refine ⟨hfound, hsize, ?_, ?_, ?_, ?_⟩
  · rw [setSize_nnz, hsize, hnnz]
  · rw [setSize_nnz, setSize_A, setSizeAlloc_A]
    split_ifs with h1
    · simp; omega
    · simp; omega
  · rw [setSize_nnz, setSize_colA, hsize]
    unfold UmfpackGenLinSOE.setSizeRows
    rw [setSizeAlloc_size]
    split_ifs with hne
    · have hsplit : (s.setSizeAlloc g).colA
          = [] ++ (s.setSizeAlloc g).colA.take (countNNZ g.vertices)
            ++ (s.setSizeAlloc g).colA.drop (countNNZ g.vertices) := by simp
      have hml : ((s.setSizeAlloc g).colA.take (countNNZ g.vertices)).length
          = (rowsFrom g g.getNumVertex 0).length := by
        rw [List.length_take, ← hnnz]; omega
      have hspec := fillRows_spec g g.getNumVertex 0 []
        ((s.setSizeAlloc g).colA.take (countNNZ g.vertices))
        ((s.setSizeAlloc g).colA.drop (countNNZ g.vertices))
        ((s.setSizeAlloc g).rowStartA.set 0 0)
        (fun b _ hb => hfound b (by omega)) hml
      rw [← hsplit] at hspec
      rw [show ([] : List Int).length = 0 from rfl] at hspec
      rw [hspec.2.1, hnnz]
      simp
    · have h0 : g.getNumVertex = 0 := by omega
      have hz : countNNZ g.vertices = 0 := by rw [hnnz, h0]; rfl
      rw [hz, h0]
      simp [rowsFrom]
  · intro r hr
    rw [hsize] at hr
    have hne : g.getNumVertex ≠ 0 := by omega
    rw [setSize_rowStartA]
    unfold UmfpackGenLinSOE.setSizeRows
    rw [setSizeAlloc_size, if_pos hne]
    have hsplit : (s.setSizeAlloc g).colA
        = [] ++ (s.setSizeAlloc g).colA.take (countNNZ g.vertices)
          ++ (s.setSizeAlloc g).colA.drop (countNNZ g.vertices) := by simp
    have hml : ((s.setSizeAlloc g).colA.take (countNNZ g.vertices)).length
        = (rowsFrom g g.getNumVertex 0).length := by
      rw [List.length_take, ← hnnz]; omega
    have hspec := fillRows_spec g g.getNumVertex 0 []
      ((s.setSizeAlloc g).colA.take (countNNZ g.vertices))
      ((s.setSizeAlloc g).colA.drop (countNNZ g.vertices))
      ((s.setSizeAlloc g).rowStartA.set 0 0)
      (fun b _ hb => hfound b (by omega)) hml
    rw [← hsplit] at hspec
    rw [show ([] : List Int).length = 0 from rfl] at hspec
    have hlen := hrlen hne
    have key : ∀ i, i ≤ g.getNumVertex →
        (fillRows g g.getNumVertex 0 0 (s.setSizeAlloc g).colA
          ((s.setSizeAlloc g).rowStartA.set 0 0)).2.2.getD i 0 = (rowsFrom g i 0).length := by
      intro i hi
      rw [hspec.2.2 i, List.length_set]
      by_cases hi0 : i = 0
      · subst hi0
        rw [if_neg (by omega), getD_set_nat, if_pos ⟨rfl, by omega⟩]
        rfl
      · rw [if_pos ⟨by omega, by omega, by omega⟩]
        simp
    exact ⟨key r (by omega), key (r + 1) (by omega)⟩

theorem setSize_stores [Zero R] (g : Graph) (solverOK : Int) (s : UmfpackGenLinSOE R)
    (hinv : s.AllocInv) (h : (s.setSize g solverOK).1 = 0) :
    (s.setSize g solverOK).2.Stores g := by
  apply setSize_stores_of_found g solverOK s hinv
  rw [setSize_status] at h
  by_contra hc
  rw [if_pos (by simpa using hc)] at h
  omega

/-! ## What `addA` adds to a slot -/

theorem getD_set_ring [CommRing R] (l : List R) (i j : Nat) (x : R) (hj : j < l.length) :
    (l.set i x).getD j 0 = if i = j then x else l.getD j 0 := by
  simp only [List.getD_eq_getElem?_getD, List.getElem?_set]
  by_cases h : i = j
  · subst h; simp [hj]
  · simp [h]

theorem scanRow_getD [CommRing R] (colA : List Int) (col : Int) (v : R) (n : Nat) :
    ∀ (k0 : Nat) (A : List R) (k : Nat), k < A.length →
      (scanRow colA col v n k0 A).getD k 0
        = A.getD k 0 + if scanHit colA col n k0 k = true then v else 0 := by
  induction n with
  | zero => intro k0 A k _; simp [scanRow, scanHit]
  | succ n ih =>
    intro k0 A k hk
    unfold scanRow scanHit
    by_cases hc : colA.getD k0 0 = col
    · rw [if_pos hc, if_pos hc, getD_set_ring _ _ _ _ hk]
      by_cases hkk : k0 = k
      · subst hkk; simp
      · have : ¬ k = k0 := fun h => hkk h.symm
        simp [hkk, this]
    · rw [if_neg hc, if_neg hc]
      exact ih (k0 + 1) A k hk

theorem foldl_getD_add [CommRing R] {β : Type} (f : List R → β → List R) (d : β → R)
    (k : Nat) (hlen : ∀ A b, (f A b).length = A.length)
    (hget : ∀ A b, k < A.length → (f A b).getD k 0 = A.getD k 0 + d b) (l : List β) :
    ∀ A : List R, k < A.length → (l.foldl f A).getD k 0 = A.getD k 0 + (l.map d).sum := by
  induction l with
  | nil => intro A _; simp
  | cons b l ih =>
    intro A hk
    rw [List.foldl_cons, ih (f A b) (by rw [hlen]; exact hk), hget A b hk]
    simp [add_assoc]

theorem sum_map_range [CommRing R] (d : Nat → R) (n : Nat) :
    ((List.range n).map d).sum = ∑ i ∈ Finset.range n, d i := by
  induction n with
  | zero => simp
  | succ n ih => rw [List.range_succ, List.map_append, List.sum_append, ih,
      Finset.sum_range_succ]; simp

theorem addARow_getD [CommRing R] (size : Nat) (colA id : List Int) (val : Nat → Nat → R)
    (i startRowLoc endRowLoc : Nat) (A : List R) (k : Nat) (hk : k < A.length) :
    (addARow size colA id val i startRowLoc endRowLoc A).getD k 0
      = A.getD k 0 + ∑ j ∈ Finset.range id.length,
          if (id.getD j 0 < (size : Int) ∧ id.getD j 0 ≥ 0) ∧
              scanHit colA (id.getD j 0) (endRowLoc - startRowLoc) startRowLoc k = true
            then val i j else 0 := by
  unfold addARow
  rw [← sum_map_range]
  apply foldl_getD_add
  · intro A j
    dsimp only
    split
    · exact scanRow_length _ _ _ _ _ _
    · rfl
  · intro A j hkA
    dsimp only
    by_cases hc : id.getD j 0 < (size : Int) ∧ id.getD j 0 ≥ 0
    · rw [if_pos hc, scanRow_getD _ _ _ _ _ _ _ hkA]
      congr 1
      by_cases hh : scanHit colA (id.getD j 0) (endRowLoc - startRowLoc) startRowLoc k = true
      · rw [if_pos hh, if_pos ⟨hc, hh⟩]
      · rw [if_neg hh, if_neg (fun h => hh h.2)]
    · rw [if_neg hc, if_neg (fun h => hc h.1), add_zero]
  · exact hk

theorem addALoop_getD [CommRing R] (s : UmfpackGenLinSOE R) (id : List Int)
    (val : Nat → Nat → R) (k : Nat) (hk : k < s.A.length) :
    (addALoop s id val).getD k 0
      = s.A.getD k 0 + ∑ i ∈ Finset.range id.length, ∑ j ∈ Finset.range id.length,
          if (id.getD i 0 < (s.size : Int) ∧ id.getD i 0 ≥ 0) ∧
              (id.getD j 0 < (s.size : Int) ∧ id.getD j 0 ≥ 0) ∧
              scanHit s.colA (id.getD j 0)
                (s.rowStartA.getD ((id.getD i 0).toNat + 1) 0
                  - s.rowStartA.getD (id.getD i 0).toNat 0)
                (s.rowStartA.getD (id.getD i 0).toNat 0) k = true
            then val i j else 0 := by
  unfold addALoop
  rw [← sum_map_range]
  apply foldl_getD_add
  · intro A i
    dsimp only
    split
    · exact addARow_length _ _ _ _ _ _ _ _
    · rfl
  · intro A i hkA
    dsimp only
    by_cases hc : id.getD i 0 < (s.size : Int) ∧ id.getD i 0 ≥ 0
    · rw [if_pos hc, addARow_getD _ _ _ _ _ _ _ _ _ hkA]
      congr 1
      apply Finset.sum_congr rfl
      intro j _
      by_cases hh : (id.getD j 0 < (s.size : Int) ∧ id.getD j 0 ≥ 0) ∧
          scanHit s.colA (id.getD j 0)
            (s.rowStartA.getD ((id.getD i 0).toNat + 1) 0
              - s.rowStartA.getD (id.getD i 0).toNat 0)
            (s.rowStartA.getD (id.getD i 0).toNat 0) k = true
      · rw [if_pos hh, if_pos ⟨hc, hh⟩]
      · rw [if_neg hh, if_neg (fun h => hh h.2)]
    · rw [if_neg hc, Finset.sum_eq_zero, add_zero]
      intro j _
      rw [if_neg (fun h => hc h.1)]
  · exact hk

/-! ## The slot found by the scan -/

theorem scanHit_range (colA : List Int) (col : Int) (n : Nat) :
    ∀ (k0 k : Nat), scanHit colA col n k0 k = true →
      k0 ≤ k ∧ k < k0 + n ∧ colA.getD k 0 = col := by
  induction n with
  | zero => intro k0 k h; simp [scanHit] at h
  | succ n ih =>
    intro k0 k h
    unfold scanHit at h
    by_cases hc : colA.getD k0 0 = col
    · rw [if_pos hc] at h
      have hk : k = k0 := by simpa using h
      subst hk
      exact ⟨le_refl _, by omega, hc⟩
    · rw [if_neg hc] at h
      obtain ⟨h1, h2, h3⟩ := ih (k0 + 1) k h
      exact ⟨by omega, by omega, h3⟩

theorem scanHit_of_distinct (colA : List Int) (col : Int) (n : Nat) :
    ∀ (k0 k : Nat),
      (∀ k1 k2, k0 ≤ k1 → k1 < k0 + n → k0 ≤ k2 → k2 < k0 + n →
        colA.getD k1 0 = colA.getD k2 0 → k1 = k2) →
      k0 ≤ k → k < k0 + n → colA.getD k 0 = col → scanHit colA col n k0 k = true := by
  induction n with
  | zero => intro k0 k _ h1 h2 _; omega
  | succ n ih =>
    intro k0 k hd h1 h2 h3
    unfold scanHit
    by_cases hc : colA.getD k0 0 = col
    · rw [if_pos hc]
      have : k = k0 := hd k k0 h1 h2 (le_refl _) (by omega) (by rw [h3, hc])
      simp [this]
    · rw [if_neg hc]
      have hne : k ≠ k0 := by
        intro h; subst h; exact hc h3
      exact ih (k0 + 1) k
        (fun k1 k2 a1 a2 a3 a4 a5 => hd k1 k2 (by omega) (by omega) (by omega) (by omega) a5)
        (by omega) (by omega) h3

/-! ## Rows of a stored graph -/

theorem rowsFrom_split (g : Graph) (n r : Nat) (h : r < n) :
    ∃ rest, rowsFrom g n 0 = rowsFrom g r 0 ++ rowOf g r ++ rest := by
  induction n with
  | zero => omega
  | succ n ih =>
    by_cases hr : r = n
    · subst hr
      exact ⟨[], by rw [rowsFrom_succ_last]; simp⟩
    · obtain ⟨rest, hrest⟩ := ih (by omega)
      exact ⟨rest ++ rowOf g (0 + n), by rw [rowsFrom_succ_last, hrest]; simp⟩

theorem getD_append_mid (pre mid post : List Int) (k : Nat) (h1 : pre.length ≤ k)
    (h2 : k < pre.length + mid.length) :
    (pre ++ mid ++ post).getD k 0 = mid.getD (k - pre.length) 0 := by
  rw [List.getD_eq_getElem?_getD, List.getD_eq_getElem?_getD, List.append_assoc,
    List.getElem?_append_right h1, List.getElem?_append_left (by omega)]

theorem rowCols_perm (v : Vertex) : (rowCols v).Perm (v.adjacency ++ [v.tag]) := by
  unfold rowCols
  have : ∀ (adj acc : List Int),
      (adj.foldl (fun acc row => List.orderedInsert (· < ·) row acc) acc).Perm
        (adj ++ acc) := by
    intro adj
    induction adj with
    | nil => intro acc; exact List.Perm.refl _
    | cons row adj ih =>
      intro acc
      rw [List.foldl_cons]
      refine (ih _).trans ?_
      refine ((List.perm_orderedInsert _ row acc).append_left adj).trans ?_
      exact List.perm_middle
  exact this _ _

theorem rowOf_facts (g : Graph) (hg : g.WellFormed) (hf : g.AllFound) (r : Nat)
    (hr : r < g.getNumVertex) :
    (rowOf g r).Nodup ∧ ∀ c ∈ rowOf g r, 0 ≤ c ∧ c < (g.getNumVertex : Int) := by
  obtain ⟨v, hv⟩ := Option.ne_none_iff_exists'.mp (hf r hr)
  obtain ⟨hmem, htag⟩ := getVertexPtr_some hv
  obtain ⟨hsorted, hself, hadj⟩ := hg v hmem
  have hrow : rowOf g r = rowCols v := by simp [rowOf, hv]
  rw [hrow]
  constructor
  · rw [(rowCols_perm v).nodup_iff]
    have hnd : v.adjacency.Nodup := hsorted.imp (fun h => ne_of_lt h)
    rw [List.nodup_append]
    refine ⟨hnd, List.nodup_singleton _, ?_⟩
    intro c hc hc2
    have : c = v.tag := by simpa using hc2
    rw [this] at hc
    exact hself hc
  · intro c hc
    have hc2 := (rowCols_perm v).mem_iff.mp hc
    rcases List.mem_append.mp hc2 with h | h
    · obtain ⟨w, hw, hwc⟩ := hadj c h
      obtain ⟨b, hb, hbt⟩ := vertex_tag_found g hf w hw
      rw [← hwc, hbt]
      exact ⟨by omega, by exact_mod_cast hb⟩
    · have : c = v.tag := by simpa using h
      rw [this, htag]
      exact ⟨by omega, by exact_mod_cast hr⟩

theorem stores_row (s : UmfpackGenLinSOE R) (g : Graph) (hs : s.Stores g) (r : Nat)
    (hr : r < s.size) :
    s.rowStartA.getD (r + 1) 0 = s.rowStartA.getD r 0 + (rowOf g r).length ∧
    s.rowStartA.getD (r + 1) 0 ≤ s.A.length ∧
    ∀ k, s.rowStartA.getD r 0 ≤ k → k < s.rowStartA.getD (r + 1) 0 →
      s.colA.getD k 0 = (rowOf g r).getD (k - s.rowStartA.getD r 0) 0 := by
  obtain ⟨_, _, hnnz, hA, hcol, hrs⟩ := hs
  obtain ⟨h1, h2⟩ := hrs r hr
  have hlen : (rowsFrom g (r + 1) 0).length = (rowsFrom g r 0).length + (rowOf g r).length := by
    rw [rowsFrom_succ_last, List.length_append]; simp
  have hmono := rowsFrom_length_mono g (r + 1) s.size (by omega)
  refine ⟨by rw [h1, h2, hlen], by omega, ?_⟩
  intro k hk1 hk2
  obtain ⟨rest, hrest⟩ := rowsFrom_split g s.size r hr
  have hsplit : s.colA = rowsFrom g r 0 ++ rowOf g r ++ (rest ++ s.colA.drop s.nnz) := by
    conv_lhs => rw [← List.take_append_drop s.nnz s.colA, hcol, hrest]
    simp
  rw [h1] at hk1 ⊢
  rw [h2, hlen] at hk2
  conv_lhs => rw [hsplit]
  exact getD_append_mid _ _ _ k hk1 hk2

/-! ## Assembly into a sized system -/

theorem stores_addA [CommRing R] [DecidableEq R] (g : Graph) (m : Matrix R) (id : List Int)
    (fact : R) (s : UmfpackGenLinSOE R) (h : s.Stores g) : (s.addA m id fact).2.Stores g := by
  unfold UmfpackGenLinSOE.Stores at h ⊢
  rw [addA_size, addA_nnz, addA_A_length, addA_colA, addA_rowStartA]
  exact h

theorem stores_zeroA [Zero R] (g : Graph) (s : UmfpackGenLinSOE R) (h : s.Stores g) :
    s.zeroA.Stores g := by
  unfold UmfpackGenLinSOE.Stores at h ⊢
  unfold UmfpackGenLinSOE.zeroA
  simpa using h

theorem SizedBy.stores [CommRing R] [DecidableEq R] {g : Graph} {s : UmfpackGenLinSOE R}
    (h : SizedBy g s) : s.Stores g := by
  induction h with
  | setSize solverOK hr h0 => exact setSize_stores g solverOK _ hr.allocInv h0
  | addA m id fact _ ih => exact stores_addA g m id fact _ ih
  | zeroA _ ih => exact stores_zeroA g _ ih

theorem nodup_getD_inj (l : List Int) (h : l.Nodup) (i j : Nat) (hi : i < l.length)
    (hj : j < l.length) (e : l.getD i 0 = l.getD j 0) : i = j := by
  rw [List.getD_eq_getElem _ _ hi, List.getD_eq_getElem _ _ hj] at e
  exact (h.getElem_inj_iff).mp e

theorem getD_mem_of_lt (l : List Int) (i : Nat) (hi : i < l.length) : l.getD i 0 ∈ l := by
  rw [List.getD_eq_getElem _ _ hi]
  exact List.getElem_mem hi

theorem stores_rowStart_mono (s : UmfpackGenLinSOE R) (g : Graph) (hs : s.Stores g)
    (r r' : Nat) (hr : r < r') (hr' : r' < s.size) :
    s.rowStartA.getD (r + 1) 0 ≤ s.rowStartA.getD r' 0 := by
  obtain ⟨_, _, _, _, _, hrs⟩ := hs
  rw [(hrs r (by omega)).2, (hrs r' hr').1]
  exact rowsFrom_length_mono g (r + 1) r' (by omega)

theorem addALoop_slot [CommRing R] (g : Graph) (hg : g.WellFormed)
    (s : UmfpackGenLinSOE R) (hs : s.Stores g) (id : List Int) (val : Nat → Nat → R)
    (r k : Nat) (hr : r < s.size) (hk1 : s.rowStartA.getD r 0 ≤ k)
    (hk2 : k < s.rowStartA.getD (r + 1) 0) :
    (addALoop s id val).getD k 0
      = s.A.getD k 0 + ∑ i ∈ Finset.range id.length, ∑ j ∈ Finset.range id.length,
          if id.getD i 0 = (r : Int) ∧ id.getD j 0 = s.colA.getD k 0 then val i j else 0 := by
  obtain ⟨hrow1, hrow2, hrow3⟩ := stores_row s g hs r hr
  have hsize : s.size = g.getNumVertex := hs.2.1
  obtain ⟨hnd, hrange⟩ := rowOf_facts g hg hs.1 r (by omega)
  rw [addALoop_getD s id val k (by omega)]
  congr 1
  apply Finset.sum_congr rfl
  intro i _
  apply Finset.sum_congr rfl
  intro j _
  apply if_congr _ rfl rfl
  constructor
  · rintro ⟨⟨hi1, hi2⟩, _, hhit⟩
    have hri : (id.getD i 0).toNat < s.size := by omega
    obtain ⟨a1, a2, a3⟩ := scanHit_range _ _ _ _ _ hhit
    obtain ⟨b1, _, _⟩ := stores_row s g hs _ hri
    have hrr : (id.getD i 0).toNat = r := by
      by_contra hne
      rcases Nat.lt_or_gt_of_ne hne with hlt | hgt
      · have := stores_rowStart_mono s g hs _ r hlt hr
        omega
      · have := stores_rowStart_mono s g hs r _ hgt hri
        omega
    exact ⟨by omega, a3.symm⟩
  · rintro ⟨hi, hj⟩
    have hidx : k - s.rowStartA.getD r 0 < (rowOf g r).length := by omega
    have hcol := hrow3 k hk1 hk2
    have hmem := hrange _ (getD_mem_of_lt (rowOf g r) _ hidx)
    rw [← hcol, ← hj, ← hsize] at hmem
    have hrr : (id.getD i 0).toNat = r := by omega
    refine ⟨by omega, by omega, ?_⟩
    rw [hrr]
    apply scanHit_of_distinct
    · intro k1 k2 c1 c2 c3 c4 c5
      rw [hrow3 k1 c1 (by omega), hrow3 k2 c3 (by omega)] at c5
      have := nodup_getD_inj _ hnd _ _ (by omega) (by omega) c5
      omega
    · exact hk1
    · omega
    · exact hj.symm

theorem addALoop_off_row [CommRing R] (g : Graph) (s : UmfpackGenLinSOE R)
    (hs : s.Stores g) (id : List Int) (val : Nat → Nat → R) (k : Nat)
    (hk : ¬ ∃ r, r < s.size ∧ s.rowStartA.getD r 0 ≤ k ∧ k < s.rowStartA.getD (r + 1) 0) :
    (addALoop s id val).getD k 0 = s.A.getD k 0 := by
  by_cases hlt : k < s.A.length
  · rw [addALoop_getD s id val k hlt, Finset.sum_eq_zero, add_zero]
    intro i _
    apply Finset.sum_eq_zero
    intro j _
    rw [if_neg]
    rintro ⟨⟨hi1, hi2⟩, _, hhit⟩
    have hri : (id.getD i 0).toNat < s.size := by omega
    obtain ⟨a1, a2, _⟩ := scanHit_range _ _ _ _ _ hhit
    obtain ⟨b1, _, _⟩ := stores_row s g hs _ hri
    exact hk ⟨_, hri, a1, by omega⟩
  · rw [List.getD_eq_default _ _ (by rw [addALoop_length]; omega),
      List.getD_eq_default _ _ (by omega)]

theorem addA_status_of_shape [CommRing R] [DecidableEq R] (m : Matrix R) (id : List Int)
    (fact : R) (s : UmfpackGenLinSOE R)
    (hm : ¬ (id.length ≠ m.noRows ∧ id.length ≠ m.noCols)) : (s.addA m id fact).1 = 0 := by
  unfold UmfpackGenLinSOE.addA
  split_ifs <;> rfl

theorem addA_A_of_shape [CommRing R] [DecidableEq R] (m : Matrix R) (id : List Int)
    (fact : R) (s : UmfpackGenLinSOE R)
    (hm : ¬ (id.length ≠ m.noRows ∧ id.length ≠ m.noCols)) (hf : fact ≠ 0) :
    (s.addA m id fact).2.A = addALoop s id (fun i j => fact * m.entry i j) := by
  unfold UmfpackGenLinSOE.addA
  rw [if_neg hf, if_neg hm]
  split_ifs with h1
  · subst h1; simp
  · rfl

theorem addA_slot [CommRing R] [DecidableEq R] (g : Graph) (hg : g.WellFormed)
    (s : UmfpackGenLinSOE R) (hs : s.Stores g) (m : Matrix R) (id : List Int) (fact : R)
    (hm : ¬ (id.length ≠ m.noRows ∧ id.length ≠ m.noCols))
    (r k : Nat) (hr : r < s.size) (hk1 : s.rowStartA.getD r 0 ≤ k)
    (hk2 : k < s.rowStartA.getD (r + 1) 0) :
    (s.addA m id fact).2.A.getD k 0
      = s.A.getD k 0 + fact * ∑ i ∈ Finset.range id.length, ∑ j ∈ Finset.range id.length,
          if id.getD i 0 = (r : Int) ∧ id.getD j 0 = s.colA.getD k 0 then m.entry i j
          else 0 := by
  by_cases hf : fact = 0
  · subst hf
    simp [UmfpackGenLinSOE.addA]
  · rw [addA_A_of_shape m id fact s hm hf, addALoop_slot g hg s hs id _ r k hr hk1 hk2,
      Finset.mul_sum]
    congr 1
    apply Finset.sum_congr rfl
    intro i _
    rw [Finset.mul_sum]
    apply Finset.sum_congr rfl
    intro j _
    split_ifs <;> simp

theorem addA_off_row [CommRing R] [DecidableEq R] (g : Graph)
    (s : UmfpackGenLinSOE R) (hs : s.Stores g) (m : Matrix R) (id : List Int) (fact : R)
    (k : Nat)
    (hk : ¬ ∃ r, r < s.size ∧ s.rowStartA.getD r 0 ≤ k ∧ k < s.rowStartA.getD (r + 1) 0) :
    (s.addA m id fact).2.A.getD k 0 = s.A.getD k 0 := by
  unfold UmfpackGenLinSOE.addA
  split_ifs
  · rfl
  · rfl
  · exact addALoop_off_row g s hs id _ k hk
  · exact addALoop_off_row g s hs id _ k hk

/-! ## Claims on the assembly (C1, C2, C3) and on the sizing (C6) -/

/-- C2, the failing input: the 3x2 element matrix of ones against the dofIds `0, 1` with
factor `1` on the system of two coupled DOFs. The row count `3` differs from the number
of dofIds, `2`; `addA` nevertheless returns the status `0`, not a negative one, and the
stored value of slot `0` changes from `0` to `1`. -/
theorem addA_accepts_mismatch :
    tallMatrix.noRows = 3 ∧ tallMatrix.noCols = 2 ∧ ([0, 1] : List Int).length = 2 ∧
    (pairSOE.addA tallMatrix [0, 1] 1).1 = 0 ∧
    pairSOE.A.getD 0 0 = 0 ∧
    (pairSOE.addA tallMatrix [0, 1] 1).2.A.getD 0 0 = 1 := by
  decide

/-- C3, refutation of the claim as stated: `addA` on a factored system leaves the factored
flag set. -/
theorem addA_factored_counterexample :
    factoredSOE.factored = true ∧
    (factoredSOE.addA sampleMatrix [0, 1] 1).2.factored = true := by
  decide

/-- C3, amended: the factored flag is false after every `zeroA` and after every
`setSize`; `addA` never writes the flag, so after `addA` it is what it was before the
call. -/
theorem factored_after_zeroA_addA [CommRing R] [DecidableEq R] (s : UmfpackGenLinSOE R)
    (m : Matrix R) (id : List Int) (fact : R) (g : Graph) (solverOK : Int) :
    s.zeroA.factored = false ∧ (s.setSize g solverOK).2.factored = false ∧
    (s.addA m id fact).2.factored = s.factored :=
  ⟨rfl, setSize_factored g solverOK s, addA_factored m id fact s⟩

theorem fillRows_true (g : Graph) (n : Nat) :
    ∀ (a startLoc : Nat) (colA : List Int) (rowStartA : List Nat),
      (∀ b : Nat, a ≤ b → b < a + n → g.getVertexPtr (b : Int) ≠ none) →
      (fillRows g n a startLoc colA rowStartA).1 = true := by
  induction n with
  | zero => intro _ _ _ _ _; rfl
  | succ n ih =>
    intro a startLoc colA rowStartA h
    obtain ⟨v, hv⟩ := Option.ne_none_iff_exists'.mp (h a (le_refl _) (by omega))
    unfold fillRows
    rw [hv]
    exact ih _ _ _ _ (fun b h1 h2 => h b (by omega) (by omega))

theorem setSizeRows_true_iff [Zero R] (g : Graph) (s : UmfpackGenLinSOE R) :
    ((s.setSizeAlloc g).setSizeRows g).1 = true ↔ g.AllFound := by
  constructor
  · exact setSizeRows_found g s
  · intro h
    unfold UmfpackGenLinSOE.setSizeRows
    split_ifs
    · exact fillRows_true g _ _ _ _ _ (fun b _ hb => h b (by rw [setSizeAlloc_size] at hb; omega))
    · rfl

theorem fillIndexRow_length (nnz : Nat) (colA : List Int) (ii n : Nat) :
    ∀ (j p : Nat) (index : List Int),
      (fillIndexRow nnz colA ii n j p index).1.length = index.length := by
  induction n with
  | zero => intro _ _ _; rfl
  | succ n ih =>
    intro j p index
    unfold fillIndexRow
    rw [ih]; simp

theorem fillIndex_length (nnz : Nat) (colA : List Int) (rowStartA : List Nat) (n : Nat) :
    ∀ (ii p : Nat) (index : List Int),
      (fillIndex nnz colA rowStartA n ii p index).length = index.length := by
  induction n with
  | zero => intro _ _ _; rfl
  | succ n ih =>
    intro ii p index
    unfold fillIndex
    dsimp only
    rw [ih, fillIndexRow_length]

theorem setSize_index_length [Zero R] (g : Graph) (solverOK : Int) (s : UmfpackGenLinSOE R) :
    (s.setSize g solverOK).2.index.length = (s.setSizeAlloc g).index.length := by
  unfold UmfpackGenLinSOE.setSize
  dsimp only
  split
  · rfl
  · exact fillIndex_length _ _ _ _ _ _ _

/-- C6, refutation of the claim as stated: for the graph whose only vertex is tagged `5`
the vertex count is `1` but `setSize` leaves `size = 0` (and returns `-1`). -/
theorem setSize_size_counterexample :
    gapGraph.getNumVertex = 1 ∧
    ((UmfpackGenLinSOE.init : UmfpackGenLinSOE ℤ).setSize gapGraph 0).2.size = 0 ∧
    ((UmfpackGenLinSOE.init : UmfpackGenLinSOE ℤ).setSize gapGraph 0).1 = -1 := by
  decide

/-- C6, amended: the first pass of `setSize` sets `size` to the vertex count and `nnz` to
the sum over all vertices of (size of the adjacency set + 1); `nnz` has this value when
`setSize` returns; `size` is the vertex count when `setSize` returns provided every tag
in `[0, vertex count)` has a vertex in the graph, and otherwise the row loop resets
`size` to `0` and `setSize` returns `-1`. -/
theorem setSize_size_nnz [Zero R] (g : Graph) (solverOK : Int) (s : UmfpackGenLinSOE R) :
    (s.setSizeAlloc g).size = g.getNumVertex ∧
    (s.setSizeAlloc g).nnz = (g.vertices.map (fun v => v.adjacency.length + 1)).sum ∧
    (s.setSize g solverOK).2.nnz = (g.vertices.map (fun v => v.adjacency.length + 1)).sum ∧
    (g.AllFound → (s.setSize g solverOK).2.size = g.getNumVertex) ∧
    (¬ g.AllFound → (s.setSize g solverOK).2.size = 0 ∧ (s.setSize g solverOK).1 = -1) := by
  refine ⟨setSizeAlloc_size g s, by rw [setSizeAlloc_nnz, countNNZ_eq_sum],
    by rw [setSize_nnz, countNNZ_eq_sum], ?_, ?_⟩
  · intro h
    have := (setSizeRows_true_iff g s).mpr h
    rw [setSize_size, if_neg (by simp [this])]
  · intro h
    have : ((s.setSizeAlloc g).setSizeRows g).1 = false := by
      have h2 := mt (setSizeRows_true_iff g s).mp h
      simpa using h2
    rw [setSize_size, setSize_status, if_pos this, if_pos this]
    exact ⟨rfl, rfl⟩

/-- Instance of the amended C6: the two coupled DOFs (all tags found) and the graph whose
only vertex is tagged `5` (tag `0` missing). -/
theorem setSize_size_nnz_witness :
    (pairGraph.AllFound ∧
      ((UmfpackGenLinSOE.init : UmfpackGenLinSOE ℤ).setSize pairGraph 0).2.size
        = pairGraph.getNumVertex) ∧
    (¬ gapGraph.AllFound ∧
      ((UmfpackGenLinSOE.init : UmfpackGenLinSOE ℤ).setSize gapGraph 0).2.size = 0) :=
  ⟨⟨by decide, (setSize_size_nnz pairGraph 0 UmfpackGenLinSOE.init).2.2.2.1 (by decide)⟩,
    ⟨by decide,
      ((setSize_size_nnz gapGraph 0 UmfpackGenLinSOE.init).2.2.2.2 (by decide)).1⟩⟩

/-- Reallocation rule of `setSize` with the exact product `20 * n`: the value,
column-index and index arrays keep their capacity when `20 * n` does not exceed the
capacity of the value array and are reallocated to `20 * n`, `n` and `2 * n` entries
otherwise; the right-hand side, the solution and the row starts follow the vertex
count. -/
theorem setSize_realloc_exact [CommRing R] [DecidableEq R] (g : Graph) (solverOK : Int)
    (s : UmfpackGenLinSOE R) (h : Reachable s) :
    (countNNZ g.vertices ≤ s.nnz → 20 * countNNZ g.vertices ≤ s.A.length) ∧
    (20 * countNNZ g.vertices ≤ s.A.length →
      (s.setSize g solverOK).2.A.length = s.A.length ∧
      (s.setSize g solverOK).2.colA.length = s.colA.length ∧
      (s.setSize g solverOK).2.index.length = s.index.length) ∧
    (s.A.length < 20 * countNNZ g.vertices →
      (s.setSize g solverOK).2.A.length = 20 * countNNZ g.vertices ∧
      (s.setSize g solverOK).2.colA.length = countNNZ g.vertices ∧
      (s.setSize g solverOK).2.index.length = 2 * countNNZ g.vertices) ∧
    (countNNZ g.vertices ≤ (s.setSize g solverOK).2.A.length ∧
      countNNZ g.vertices ≤ (s.setSize g solverOK).2.colA.length) ∧
    (g.getNumVertex ≤ s.B.length →
      (s.setSize g solverOK).2.B.length = s.B.length ∧
      (s.setSize g solverOK).2.X.length = s.X.length ∧
      (s.setSize g solverOK).2.rowStartA.length = s.rowStartA.length) ∧
    (s.B.length < g.getNumVertex →
      (s.setSize g solverOK).2.B.length = g.getNumVertex ∧
      (s.setSize g solverOK).2.X.length = g.getNumVertex ∧
      (s.setSize g solverOK).2.rowStartA.length = g.getNumVertex + 1) := by
  obtain ⟨hA, hn, _⟩ := h.allocInv
  have hc := (setSizeRows_length g (s.setSizeAlloc g)).1
  have hr := (setSizeRows_length g (s.setSizeAlloc g)).2
  rw [setSize_A, setSize_colA, setSize_rowStartA, setSize_B, setSize_X, setSize_index_length,
    hc, hr, setSizeAlloc_A, setSizeAlloc_colA, setSizeAlloc_B, setSizeAlloc_X,
    setSizeAlloc_rowStartA, setSizeAlloc_index]
  refine ⟨by omega, ?_, ?_, ?_, ?_, ?_⟩
  · intro h1
    rw [if_neg (by omega), if_neg (by omega), if_neg (by omega)]
    simp
  · intro h1
    rw [if_pos (by omega), if_pos (by omega), if_pos (by omega)]
    simp
  · split_ifs with h1
    · simp; omega
    · simp; omega
  · intro h1
    rw [if_neg (by omega), if_neg (by omega), if_neg (by omega)]
    exact ⟨rfl, rfl, rfl⟩
  · intro h1
    rw [if_pos (by omega), if_pos (by omega), if_pos (by omega)]
    simp

/-! ## Order independence and reassembly -/

theorem list_ext_getD [CommRing R] (l1 l2 : List R) (hlen : l1.length = l2.length)
    (h : ∀ k, k < l1.length → l1.getD k 0 = l2.getD k 0) : l1 = l2 := by
  apply List.ext_getElem hlen
  intro k h1 h2
  have := h k h1
  rwa [List.getD_eq_getElem _ _ h1, List.getD_eq_getElem _ _ h2] at this

theorem addALoop_getD_shift [CommRing R] (s t : UmfpackGenLinSOE R) (id : List Int)
    (val : Nat → Nat → R) (h1 : s.size = t.size) (h2 : s.colA = t.colA)
    (h3 : s.rowStartA = t.rowStartA) (k : Nat) (hs : k < s.A.length) (ht : k < t.A.length) :
    (addALoop s id val).getD k 0 + t.A.getD k 0
      = (addALoop t id val).getD k 0 + s.A.getD k 0 := by
  rw [addALoop_getD s id val k hs, addALoop_getD t id val k ht, h1, h2, h3]
  ring

theorem addA_getD_shift [CommRing R] [DecidableEq R] (s t : UmfpackGenLinSOE R)
    (m : Matrix R) (id : List Int) (fact : R) (h1 : s.size = t.size) (h2 : s.colA = t.colA)
    (h3 : s.rowStartA = t.rowStartA) (k : Nat) (hs : k < s.A.length) (ht : k < t.A.length) :
    (s.addA m id fact).2.A.getD k 0 + t.A.getD k 0
      = (t.addA m id fact).2.A.getD k 0 + s.A.getD k 0 := by
  unfold UmfpackGenLinSOE.addA
  split_ifs
  · exact add_comm _ _
  · exact add_comm _ _
  · exact addALoop_getD_shift s t id _ h1 h2 h3 k hs ht
  · exact addALoop_getD_shift s t id _ h1 h2 h3 k hs ht

theorem addA_comm_A [CommRing R] [DecidableEq R] (s : UmfpackGenLinSOE R)
    (mA : Matrix R) (idA : List Int) (fA : R) (mB : Matrix R) (idB : List Int) (fB : R) :
    ((s.addA mA idA fA).2.addA mB idB fB).2.A = ((s.addA mB idB fB).2.addA mA idA fA).2.A := by
  apply list_ext_getD
  · simp only [addA_A_length]
  · intro k hk
    simp only [addA_A_length] at hk
    have e1 := addA_getD_shift (s.addA mA idA fA).2 s mB idB fB (addA_size _ _ _ _)
      (addA_colA _ _ _ _) (addA_rowStartA _ _ _ _) k (by rw [addA_A_length]; exact hk) hk
    have e2 := addA_getD_shift (s.addA mB idB fB).2 s mA idA fA (addA_size _ _ _ _)
      (addA_colA _ _ _ _) (addA_rowStartA _ _ _ _) k (by rw [addA_A_length]; exact hk) hk
    have e3 : ((s.addA mA idA fA).2.addA mB idB fB).2.A.getD k 0 + s.A.getD k 0
        = ((s.addA mB idB fB).2.addA mA idA fA).2.A.getD k 0 + s.A.getD k 0 := by
      rw [e1, e2]; exact add_comm _ _
    exact add_right_cancel e3

theorem sameStorage_addA [CommRing R] [DecidableEq R] (s t : UmfpackGenLinSOE R)
    (m : Matrix R) (id : List Int) (fact : R) (h : s.SameStorage t) :
    (s.addA m id fact).2.SameStorage (t.addA m id fact).2 := by
  obtain ⟨h1, h2, h3, h4⟩ := h
  refine ⟨by rw [addA_size, addA_size, h1], by rw [addA_colA, addA_colA, h2],
    by rw [addA_rowStartA, addA_rowStartA, h3], ?_⟩
  have hl : ∀ val : Nat → Nat → R, addALoop s id val = addALoop t id val := by
    intro val
    unfold addALoop
    rw [h1, h2, h3, h4]
  unfold UmfpackGenLinSOE.addA
  split_ifs
  · exact h4
  · exact h4
  · exact hl _
  · exact hl _

theorem sameStorage_assemble [CommRing R] [DecidableEq R]
    (L : List (Matrix R × List Int × R)) :
    ∀ s t : UmfpackGenLinSOE R, s.SameStorage t → (s.assemble L).SameStorage (t.assemble L) := by
  induction L with
  | nil => intro s t h; exact h
  | cons c L ih =>
    intro s t h
    unfold UmfpackGenLinSOE.assemble
    rw [List.foldl_cons, List.foldl_cons]
    exact ih _ _ (sameStorage_addA s t c.1 c.2.1 c.2.2 h)

theorem assemble_frame [CommRing R] [DecidableEq R] (L : List (Matrix R × List Int × R)) :
    ∀ s : UmfpackGenLinSOE R, (s.assemble L).size = s.size ∧ (s.assemble L).colA = s.colA ∧
      (s.assemble L).rowStartA = s.rowStartA ∧ (s.assemble L).A.length = s.A.length := by
  induction L with
  | nil => intro s; exact ⟨rfl, rfl, rfl, rfl⟩
  | cons c L ih =>
    intro s
    unfold UmfpackGenLinSOE.assemble
    rw [List.foldl_cons]
    obtain ⟨h1, h2, h3, h4⟩ := ih (s.addA c.1 c.2.1 c.2.2).2
    unfold UmfpackGenLinSOE.assemble at h1 h2 h3 h4
    rw [h1, h2, h3, h4, addA_size, addA_colA, addA_rowStartA, addA_A_length]
    exact ⟨rfl, rfl, rfl, rfl⟩

/-- C4. In every state of the system (in particular a sized one whose values are all
zero), `addA` of a contribution A followed by `addA` of a contribution B leaves exactly
the same stored values as B followed by A. -/
theorem addA_order_independent [CommRing R] [DecidableEq R] (s : UmfpackGenLinSOE R)
    (mA : Matrix R) (idA : List Int) (fA : R) (mB : Matrix R) (idB : List Int) (fB : R) :
    ((s.addA mA idA fA).2.addA mB idB fB).2.A = ((s.addA mB idB fB).2.addA mA idA fA).2.A :=
  addA_comm_A s mA idA fA mB idB fB

/-- C9. For a system whose stored values are all zero and a list `L` of contributions,
assembling `L`, calling `zeroA` and assembling `L` again gives exactly the stored values
of the first assembly. -/
theorem reassemble_after_zeroA [CommRing R] [DecidableEq R] (s : UmfpackGenLinSOE R)
    (hz : s.A = List.replicate s.A.length 0) (L : List (Matrix R × List Int × R)) :
    ((s.assemble L).zeroA.assemble L).A = (s.assemble L).A := by
  obtain ⟨h1, h2, h3, h4⟩ := assemble_frame L s
  have hsame : (s.assemble L).zeroA.SameStorage s := by
    refine ⟨h1, h2, h3, ?_⟩
    show List.replicate (s.assemble L).A.length 0 = s.A
    rw [h4, ← hz]
  exact (sameStorage_assemble L _ _ hsame).2.2.2

set_option maxRecDepth 4000 in
/-- Instance of C9: the contributions `1 2 / 3 4` over ids `0, 1` with factor `2` and over
ids `1, 0` with factor `1` on the system of two coupled DOFs. -/
theorem reassemble_after_zeroA_witness :
    pairSOE.A = List.replicate pairSOE.A.length 0 ∧
    ((pairSOE.assemble [(sampleMatrix, [0, 1], 2), (sampleMatrix, [1, 0], 1)]).zeroA.assemble
        [(sampleMatrix, [0, 1], 2), (sampleMatrix, [1, 0], 1)]).A
      = (pairSOE.assemble [(sampleMatrix, [0, 1], 2), (sampleMatrix, [1, 0], 1)]).A :=
  ⟨by decide, reassemble_after_zeroA pairSOE (by decide) _⟩

/-! ## Skipped ids -/

theorem foldl_skip {α β : Type} (q : β → Prop) [DecidablePred q] (F : α → β → α)
    (l : List β) :
    ∀ init : α, l.foldl (fun A i => if q i then F A i else A) init
      = (l.filter (fun i => decide (q i))).foldl F init := by
  induction l with
  | nil => intro init; rfl
  | cons b l ih =>
    intro init
    rw [List.foldl_cons, ih]
    by_cases h : q b
    · rw [if_pos h, List.filter_cons_of_pos (by simpa using h), List.foldl_cons]
    · rw [if_neg h, List.filter_cons_of_neg (by simpa using h)]

theorem foldl_congr_mem {α β : Type} (f g : α → β → α) (l : List β)
    (h : ∀ x ∈ l, ∀ A, f A x = g A x) : ∀ init : α, l.foldl f init = l.foldl g init := by
  induction l with
  | nil => intro init; rfl
  | cons b l ih =>
    intro init
    rw [List.foldl_cons, List.foldl_cons, h b (List.mem_cons_self _ _),
      ih (fun x hx => h x (List.mem_cons_of_mem _ hx))]

theorem map_getD_range {α : Type} (l : List α) (d : α) :
    (List.range l.length).map (fun a => l.getD a d) = l := by
  apply List.ext_getElem
  · simp
  · intro k h1 h2
    simp [List.getD_eq_getElem?_getD, h2]

theorem foldl_reindex {α : Type} (F : α → Nat → α) (keep : List Nat) (init : α) :
    (List.range keep.length).foldl (fun A a => F A (keep.getD a 0)) init
      = keep.foldl F init := by
  conv_rhs => rw [← map_getD_range keep 0]
  rw [List.foldl_map]

theorem keptIds_eq_map (size : Nat) (id : List Int) :
    keptIds size id = (keptIdx size id).map (fun i => id.getD i 0) := by
  unfold keptIds keptIdx
  conv_lhs => rw [← map_getD_range id 0]
  rw [List.filter_map]
  rfl

theorem keptIds_getD (size : Nat) (id : List Int) (a : Nat)
    (ha : a < (keptIdx size id).length) :
    (keptIds size id).getD a 0 = id.getD ((keptIdx size id).getD a 0) 0 := by
  rw [keptIds_eq_map]
  simp [List.getD_eq_getElem?_getD, ha]

theorem keptIdx_pass (size : Nat) (id : List Int) (i : Nat) (hi : i ∈ keptIdx size id) :
    id.getD i 0 < (size : Int) ∧ id.getD i 0 ≥ 0 := by
  unfold keptIdx at hi
  simpa using (List.mem_filter.mp hi).2

theorem getD_mem_nat (l : List Nat) (a : Nat) (ha : a < l.length) : l.getD a 0 ∈ l := by
  rw [List.getD_eq_getElem _ _ ha]
  exact List.getElem_mem ha

theorem addARow_eq_kept [Add R] [Zero R] (size : Nat) (colA id : List Int)
    (val : Nat → Nat → R) (i startRowLoc endRowLoc : Nat) (A : List R) :
    addARow size colA id val i startRowLoc endRowLoc A
      = (keptIdx size id).foldl
          (fun A j => scanRow colA (id.getD j 0) (val i j) (endRowLoc - startRowLoc)
            startRowLoc A) A := by
  unfold addARow keptIdx
  exact foldl_skip (fun j => id.getD j 0 < (size : Int) ∧ id.getD j 0 ≥ 0) _ _ A

theorem addARow_restrict [Add R] [Zero R] (size : Nat) (colA id : List Int)
    (val : Nat → Nat → R) (i startRowLoc endRowLoc : Nat) (A : List R) :
    addARow size colA (keptIds size id)
        (fun a b => val ((keptIdx size id).getD a 0) ((keptIdx size id).getD b 0))
        i startRowLoc endRowLoc A
      = addARow size colA id val ((keptIdx size id).getD i 0) startRowLoc endRowLoc A := by
  rw [addARow_eq_kept size colA id]
  unfold addARow
  have hlen : (keptIds size id).length = (keptIdx size id).length := by
    rw [keptIds_eq_map, List.length_map]
  rw [hlen]
  refine Eq.trans ?_ (foldl_reindex _ (keptIdx size id) A)
  apply foldl_congr_mem
  intro b hb A
  have hb2 : b < (keptIdx size id).length := List.mem_range.mp hb
  have hp := keptIdx_pass size id _ (getD_mem_nat _ b hb2)
  dsimp only
  rw [keptIds_getD size id b hb2, if_pos hp]

theorem addALoop_eq_kept [Add R] [Zero R] (s : UmfpackGenLinSOE R) (id : List Int)
    (val : Nat → Nat → R) :
    addALoop s id val
      = (keptIdx s.size id).foldl
          (fun A i => addARow s.size s.colA id val i
            (s.rowStartA.getD (id.getD i 0).toNat 0)
            (s.rowStartA.getD ((id.getD i 0).toNat + 1) 0) A) s.A := by
  unfold addALoop keptIdx
  exact foldl_skip (fun i => id.getD i 0 < (s.size : Int) ∧ id.getD i 0 ≥ 0) _ _ s.A

theorem addALoop_restrict [Add R] [Zero R] (s : UmfpackGenLinSOE R) (id : List Int)
    (val : Nat → Nat → R) :
    addALoop s (keptIds s.size id)
        (fun a b => val ((keptIdx s.size id).getD a 0) ((keptIdx s.size id).getD b 0))
      = addALoop s id val := by
  rw [addALoop_eq_kept s id]
  unfold addALoop
  have hlen : (keptIds s.size id).length = (keptIdx s.size id).length := by
    rw [keptIds_eq_map, List.length_map]
  rw [hlen]
  refine Eq.trans ?_ (foldl_reindex _ (keptIdx s.size id) s.A)
  apply foldl_congr_mem
  intro a ha A
  have ha2 : a < (keptIdx s.size id).length := List.mem_range.mp ha
  have hp := keptIdx_pass s.size id _ (getD_mem_nat _ a ha2)
  dsimp only
  rw [keptIds_getD s.size id a ha2, if_pos hp, addARow_restrict]

/-- C5. For a call that passes the shape validation, `addA` returns `0` and leaves the same
stored values as the call made with the out-of-range dofIds removed (and the element
matrix reduced to the remaining rows and columns); when every id is out of range the
stored values do not change. -/
theorem addA_skips_out_of_range [CommRing R] [DecidableEq R] (s : UmfpackGenLinSOE R)
    (m : Matrix R) (id : List Int) (fact : R)
    (hm : id.length = m.noRows ∨ id.length = m.noCols) :
    (s.addA m id fact).1 = 0 ∧
    (s.addA (m.restrict (keptIdx s.size id)) (keptIds s.size id) fact).1 = 0 ∧
    (s.addA m id fact).2.A
      = (s.addA (m.restrict (keptIdx s.size id)) (keptIds s.size id) fact).2.A ∧
    ((∀ x ∈ id, ¬ (x < (s.size : Int) ∧ x ≥ 0)) → (s.addA m id fact).2.A = s.A) := by
  have hshape : ¬ (id.length ≠ m.noRows ∧ id.length ≠ m.noCols) := by
    rintro ⟨h1, h2⟩
    rcases hm with h | h
    · exact h1 h
    · exact h2 h
  have hlen : (keptIds s.size id).length = (keptIdx s.size id).length := by
    rw [keptIds_eq_map, List.length_map]
  have hshape2 : ¬ ((keptIds s.size id).length ≠ (m.restrict (keptIdx s.size id)).noRows ∧
      (keptIds s.size id).length ≠ (m.restrict (keptIdx s.size id)).noCols) := by
    rintro ⟨h1, _⟩
    exact h1 hlen
  have heq : (s.addA m id fact).2.A
      = (s.addA (m.restrict (keptIdx s.size id)) (keptIds s.size id) fact).2.A := by
    by_cases hf : fact = 0
    · subst hf
      simp [UmfpackGenLinSOE.addA]
    · rw [addA_A_of_shape m id fact s hshape hf, addA_A_of_shape _ _ fact s hshape2 hf]
      exact (addALoop_restrict s id (fun i j => fact * m.entry i j)).symm
  refine ⟨addA_status_of_shape m id fact s hshape, addA_status_of_shape _ _ fact s hshape2,
    heq, ?_⟩
  intro hall
  have hnil : keptIds s.size id = [] := by
    unfold keptIds
    rw [List.filter_eq_nil_iff]
    intro x hx
    simpa using hall x hx
  rw [heq, hnil]
  unfold UmfpackGenLinSOE.addA
  split_ifs <;> rfl

/-- Instance of C5: the ids `0, 7, 1, -1` on the system of two coupled DOFs; the ids `7`
and `-1` are skipped. -/
theorem addA_skips_out_of_range_witness :
    (([0, 7, 1, -1] : List Int).length = fourMatrix.noRows ∨
      ([0, 7, 1, -1] : List Int).length = fourMatrix.noCols) ∧
    (pairSOE.addA fourMatrix [0, 7, 1, -1] 3).1 = 0 ∧
    (pairSOE.addA fourMatrix [0, 7, 1, -1] 3).2.A
      = (pairSOE.addA (fourMatrix.restrict (keptIdx pairSOE.size [0, 7, 1, -1]))
          (keptIds pairSOE.size [0, 7, 1, -1]) 3).2.A :=
  ⟨Or.inl rfl,
    (addA_skips_out_of_range pairSOE fourMatrix [0, 7, 1, -1] 3 (Or.inl rfl)).1,
    (addA_skips_out_of_range pairSOE fourMatrix [0, 7, 1, -1] 3 (Or.inl rfl)).2.2.1⟩

/-! ## Scenario: uncoupled DOFs and the identity element matrix -/

theorem isoGraph_numVertex (N : Nat) : (isoGraph N).getNumVertex = N := by
  simp [isoGraph, Graph.getNumVertex]

theorem isoGraph_getVertexPtr (N b : Nat) (hb : b < N) :
    (isoGraph N).getVertexPtr (b : Int) = some ⟨(b : Int), []⟩ := by
  induction N with
  | zero => omega
  | succ N ih =>
    unfold Graph.getVertexPtr isoGraph
    rw [List.range_succ, List.map_append, List.find?_append]
    by_cases hbN : b < N
    · have := ih hbN
      unfold Graph.getVertexPtr isoGraph at this
      rw [this]; rfl
    · have hbe : b = N := by omega
      subst hbe
      have hnone : List.find? (fun v => decide (v.tag = (b : Int)))
          ((List.range b).map (fun (i : Nat) => (⟨(i : Int), []⟩ : Vertex))) = none := by
        rw [List.find?_eq_none]
        intro v hv
        obtain ⟨i, hi, hiv⟩ := List.mem_map.mp hv
        have : i < b := List.mem_range.mp hi
        rw [← hiv]
        simp
        omega
      rw [hnone]
      simp

theorem isoGraph_allFound (N : Nat) : (isoGraph N).AllFound := by
  intro b hb
  rw [isoGraph_numVertex] at hb
  rw [isoGraph_getVertexPtr N b hb]
  simp

theorem isoGraph_wellFormed (N : Nat) : (isoGraph N).WellFormed := by
  intro v hv
  unfold isoGraph at hv
  obtain ⟨i, _, hiv⟩ := List.mem_map.mp hv
  rw [← hiv]
  simp

theorem isoGraph_rowOf (N b : Nat) (hb : b < N) : rowOf (isoGraph N) b = [(b : Int)] := by
  unfold rowOf
  rw [isoGraph_getVertexPtr N b hb]
  rfl

theorem isoGraph_rowsFrom_length (N n : Nat) (hn : n ≤ N) :
    (rowsFrom (isoGraph N) n 0).length = n := by
  induction n with
  | zero => rfl
  | succ n ih =>
    rw [rowsFrom_succ_last, List.length_append, ih (by omega), Nat.zero_add,
      isoGraph_rowOf N n (by omega)]
    rfl

theorem allIds_getD (N i : Nat) (hi : i < N) : (allIds N).getD i 0 = (i : Int) := by
  unfold allIds
  simp [List.getD_eq_getElem?_getD, hi]

theorem allIds_length (N : Nat) : (allIds N).length = N := by
  simp [allIds]

theorem identity_sum [CommRing R] (N k : Nat) (hk : k < N) :
    (∑ i ∈ Finset.range (allIds N).length, ∑ j ∈ Finset.range (allIds N).length,
      if (allIds N).getD i 0 = (k : Int) ∧ (allIds N).getD j 0 = (k : Int)
        then (identityMatrix R N).entry i j else 0) = 1 := by
  rw [allIds_length]
  rw [Finset.sum_eq_single k]
  · rw [Finset.sum_eq_single k]
    · rw [allIds_getD N k hk]
      simp [identityMatrix]
    · intro j hj hjk
      have hj2 : j < N := Finset.mem_range.mp hj
      rw [allIds_getD N j hj2, if_neg]
      rintro ⟨_, h⟩
      exact hjk (by exact_mod_cast h)
    · intro h
      exact absurd (Finset.mem_range.mpr hk) h
  · intro i hi hik
    have hi2 : i < N := Finset.mem_range.mp hi
    apply Finset.sum_eq_zero
    intro j _
    rw [allIds_getD N i hi2, if_neg]
    rintro ⟨h, _⟩
    exact hik (by exact_mod_cast h)
  · intro h
    exact absurd (Finset.mem_range.mpr hk) h

theorem isoGraph_stores [CommRing R] [DecidableEq R] (N : Nat) (solverOK : Int)
    (s0 : UmfpackGenLinSOE R) (h : Reachable s0) :
    ((s0.setSize (isoGraph N) solverOK).2).Stores (isoGraph N) :=
  setSize_stores_of_found (isoGraph N) solverOK s0 h.allocInv
    ((setSizeRows_true_iff (isoGraph N) s0).mpr (isoGraph_allFound N))

theorem isoGraph_layout [CommRing R] [DecidableEq R] (N : Nat) (solverOK : Int)
    (s0 : UmfpackGenLinSOE R) (h : Reachable s0) :
    (s0.setSize (isoGraph N) solverOK).2.size = N ∧
    (s0.setSize (isoGraph N) solverOK).2.nnz = N ∧
    ∀ r, r < N →
      (s0.setSize (isoGraph N) solverOK).2.rowStartA.getD r 0 = r ∧
      (s0.setSize (isoGraph N) solverOK).2.rowStartA.getD (r + 1) 0 = r + 1 ∧
      (s0.setSize (isoGraph N) solverOK).2.colA.getD r 0 = (r : Int) := by
  have hst := isoGraph_stores N solverOK s0 h
  have hsize : (s0.setSize (isoGraph N) solverOK).2.size = N := by
    rw [hst.2.1, isoGraph_numVertex]
  refine ⟨hsize, ?_, ?_⟩
  · rw [hst.2.2.1, hsize, isoGraph_rowsFrom_length N N (le_refl _)]
  · intro r hr
    obtain ⟨a1, a2⟩ := hst.2.2.2.2.2 r (by omega)
    rw [isoGraph_rowsFrom_length N r (by omega)] at a1
    rw [isoGraph_rowsFrom_length N (r + 1) (by omega)] at a2
    refine ⟨a1, a2, ?_⟩
    have := (stores_row _ _ hst r (by omega)).2.2 r (by omega) (by omega)
    rw [this, a1, isoGraph_rowOf N r hr]
    simp

theorem getD_replicate_zero [CommRing R] (n k : Nat) :
    (List.replicate n (0 : R)).getD k 0 = 0 := by
  rw [List.getD_eq_getElem?_getD, List.getElem?_replicate]
  split <;> rfl

theorem coeff_zeroA [CommRing R] (s : UmfpackGenLinSOE R) (r c : Nat) :
    s.zeroA.coeff r c = 0 := by
  unfold UmfpackGenLinSOE.coeff UmfpackGenLinSOE.zeroA
  apply List.sum_eq_zero
  intro x hx
  obtain ⟨k, _, hk⟩ := List.mem_map.mp hx
  rw [← hk]
  dsimp only
  rw [getD_replicate_zero]
  split <;> rfl

theorem identity_on_layout [CommRing R] [DecidableEq R] (N : Nat) (s : UmfpackGenLinSOE R)
    (hst : s.Stores (isoGraph N)) (hsize : s.size = N) (hzero : ∀ k, s.A.getD k 0 = 0)
    (hlay : ∀ r, r < N → s.rowStartA.getD r 0 = r ∧ s.rowStartA.getD (r + 1) 0 = r + 1 ∧
      s.colA.getD r 0 = (r : Int)) :
    (∀ k, (s.addA (identityMatrix R N) (allIds N) 1).2.A.getD k 0 = if k < N then 1 else 0) ∧
    (∀ r c, r < N → c < N →
      (s.addA (identityMatrix R N) (allIds N) 1).2.coeff r c = if r = c then 1 else 0) := by
  have hshape : ¬ ((allIds N).length ≠ (identityMatrix R N).noRows ∧
      (allIds N).length ≠ (identityMatrix R N).noCols) := by
    rintro ⟨h1, _⟩
    exact h1 (allIds_length N)
  have hslot : ∀ k, (s.addA (identityMatrix R N) (allIds N) 1).2.A.getD k 0
      = if k < N then 1 else 0 := by
    intro k
    by_cases hk : k < N
    · obtain ⟨a1, a2, a3⟩ := hlay k hk
      rw [if_pos hk, addA_slot (isoGraph N) (isoGraph_wellFormed N) s hst _ _ 1 hshape k k
        (by omega) (by omega) (by omega), a3, identity_sum N k hk, hzero]
      simp
    · rw [if_neg hk, addA_off_row (isoGraph N) s hst _ _ 1 k, hzero]
      rintro ⟨r, hr, h1, h2⟩
      rw [hsize] at hr
      obtain ⟨a1, a2, _⟩ := hlay r hr
      omega
  refine ⟨hslot, ?_⟩
  intro r c hr hc
  obtain ⟨a1, a2, a3⟩ := hlay r hr
  unfold UmfpackGenLinSOE.coeff
  rw [addA_rowStartA, addA_colA, a1, a2]
  have : r + 1 - r = 1 := by omega
  rw [this]
  simp only [List.range'_one, List.map_cons, List.map_nil, List.sum_cons, List.sum_nil,
    add_zero]
  rw [hslot r, if_pos hr, a3]
  by_cases hrc : r = c
  · subst hrc; simp
  · have : ¬ ((r : Int) = (c : Int)) := by exact_mod_cast hrc
    rw [if_neg this, if_neg hrc]

/-- C10. For the graph of `N` uncoupled DOFs tagged `0..N-1` and any reachable state:
`setSize` gives `nnz = N`; `addA` of the identity matrix of order `N` over the dofIds
`0..N-1` with factor `1` then leaves the value `1` in each of the `N` stored slots and
`0` in every other entry of the value array, so that the coefficient `(r, c)` of the
global matrix is `1` for `r = c` and `0` otherwise; `zeroA` then leaves every value,
hence every coefficient, zero. -/
theorem identity_scenario [CommRing R] [DecidableEq R] (N : Nat) (solverOK : Int)
    (s0 : UmfpackGenLinSOE R) (h : Reachable s0) :
    (s0.setSize (isoGraph N) solverOK).2.nnz = N ∧
    (∀ k, ((s0.setSize (isoGraph N) solverOK).2.addA (identityMatrix R N) (allIds N)
        1).2.A.getD k 0 = if k < N then 1 else 0) ∧
    (∀ r c, r < N → c < N →
      ((s0.setSize (isoGraph N) solverOK).2.addA (identityMatrix R N) (allIds N)
        1).2.coeff r c = if r = c then 1 else 0) ∧
    (∀ k, ((s0.setSize (isoGraph N) solverOK).2.addA (identityMatrix R N) (allIds N)
        1).2.zeroA.A.getD k 0 = 0) ∧
    (∀ r c, ((s0.setSize (isoGraph N) solverOK).2.addA (identityMatrix R N) (allIds N)
        1).2.zeroA.coeff r c = 0) := by
  obtain ⟨hsize, hnnz, hlay⟩ := isoGraph_layout N solverOK s0 h
  have hzero : ∀ k, (s0.setSize (isoGraph N) solverOK).2.A.getD k 0 = 0 := by
    intro k
    rw [setSize_A, setSizeAlloc_A, getD_replicate_zero]
  obtain ⟨h1, h2⟩ := identity_on_layout N _ (isoGraph_stores N solverOK s0 h) hsize hzero hlay
  refine ⟨hnnz, h1, h2, ?_, ?_⟩
  · intro k
    show (List.replicate _ (0 : R)).getD k 0 = 0
    exact getD_replicate_zero _ _
  · intro r c
    exact coeff_zeroA _ r c

/-- Instance of C10, the scenario of the specification: two uncoupled DOFs, integer
coefficients, starting from the freshly constructed system. -/
theorem identity_scenario_witness :
    Reachable (UmfpackGenLinSOE.init : UmfpackGenLinSOE ℤ) ∧
    ((UmfpackGenLinSOE.init : UmfpackGenLinSOE ℤ).setSize (isoGraph 2) 0).2.nnz = 2 ∧
    (((UmfpackGenLinSOE.init : UmfpackGenLinSOE ℤ).setSize (isoGraph 2) 0).2.addA
        (identityMatrix ℤ 2) (allIds 2) 1).2.coeff 0 0 = 1 ∧
    (((UmfpackGenLinSOE.init : UmfpackGenLinSOE ℤ).setSize (isoGraph 2) 0).2.addA
        (identityMatrix ℤ 2) (allIds 2) 1).2.coeff 0 1 = 0 ∧
    (((UmfpackGenLinSOE.init : UmfpackGenLinSOE ℤ).setSize (isoGraph 2) 0).2.addA
        (identityMatrix ℤ 2) (allIds 2) 1).2.zeroA.coeff 1 1 = 0 :=
  ⟨Reachable.init,
    (identity_scenario 2 0 UmfpackGenLinSOE.init Reachable.init).1,
    (identity_scenario 2 0 UmfpackGenLinSOE.init Reachable.init).2.2.1 0 0 (by decide)
      (by decide),
    (identity_scenario 2 0 UmfpackGenLinSOE.init Reachable.init).2.2.1 0 1 (by decide)
      (by decide),
    (identity_scenario 2 0 UmfpackGenLinSOE.init Reachable.init).2.2.2.2 1 1⟩

/-! ## Failing and empty sizings (C11, C12) -/

theorem setSize_state_indep [Zero R] (g : Graph) (ok1 ok2 : Int) (s : UmfpackGenLinSOE R) :
    (s.setSize g ok1).2 = (s.setSize g ok2).2 := by
  unfold UmfpackGenLinSOE.setSize
  dsimp only
  split <;> rfl

set_option maxRecDepth 4000 in
/-- C11, refutation of the claim as stated. On the system of two coupled DOFs holding
assembled values, a `setSize` for the graph whose only vertex is tagged `5` fails with
`-1` and leaves `size = 0`, `nnz = 1` and a zeroed value array; a `setSize` for the same
two coupled DOFs whose solver fails with `-3` returns `-3` and has zeroed the stored
values. -/
theorem setSize_failure_counterexample :
    (((pairSOE.addA sampleMatrix [0, 1] 1).2.setSize gapGraph 0).1 = -1 ∧
      (pairSOE.addA sampleMatrix [0, 1] 1).2.size = 2 ∧
      ((pairSOE.addA sampleMatrix [0, 1] 1).2.setSize gapGraph 0).2.size = 0 ∧
      (pairSOE.addA sampleMatrix [0, 1] 1).2.nnz = 4 ∧
      ((pairSOE.addA sampleMatrix [0, 1] 1).2.setSize gapGraph 0).2.nnz = 1) ∧
    (((pairSOE.addA sampleMatrix [0, 1] 1).2.setSize pairGraph (-3)).1 = -3 ∧
      (pairSOE.addA sampleMatrix [0, 1] 1).2.A.getD 0 0 = 1 ∧
      ((pairSOE.addA sampleMatrix [0, 1] 1).2.setSize pairGraph (-3)).2.A.getD 0 0 = 0) := by
  decide

/-- C11, amended. A failing `setSize` does not restore the state before the call: `nnz` is
the nonzero count of the new graph, every stored value is zero and the factored flag is
cleared. When a tag in `[0, N)` has no vertex the status is `-1` and `size` is reset to
`0`; otherwise the failure is the solver's, the status is the solver's status, `size` is
`N` and the state is exactly the one a successful `setSize` on the same graph leaves. -/
theorem setSize_failure [Zero R] (g : Graph) (solverOK : Int) (s : UmfpackGenLinSOE R)
    (h : (s.setSize g solverOK).1 < 0) :
    (s.setSize g solverOK).2.nnz = (g.vertices.map (fun v => v.adjacency.length + 1)).sum ∧
    (s.setSize g solverOK).2.A = List.replicate (s.setSize g solverOK).2.A.length 0 ∧
    (s.setSize g solverOK).2.factored = false ∧
    (¬ g.AllFound → (s.setSize g solverOK).1 = -1 ∧ (s.setSize g solverOK).2.size = 0) ∧
    (g.AllFound → (s.setSize g solverOK).1 = solverOK ∧
      (s.setSize g solverOK).2.size = g.getNumVertex ∧
      (s.setSize g 0).1 = 0 ∧ (s.setSize g solverOK).2 = (s.setSize g 0).2) := by
  refine ⟨by rw [setSize_nnz, countNNZ_eq_sum], ?_, setSize_factored g solverOK s, ?_, ?_⟩
  · rw [setSize_A, setSizeAlloc_A]
    simp
  · intro hnf
    have hrows : ((s.setSizeAlloc g).setSizeRows g).1 = false := by
      have h2 := mt (setSizeRows_true_iff g s).mp hnf
      simpa using h2
    rw [setSize_status, setSize_size, if_pos hrows, if_pos hrows]
    exact ⟨rfl, rfl⟩
  · intro hf
    have hrows := (setSizeRows_true_iff g s).mpr hf
    have hne : ¬ ((s.setSizeAlloc g).setSizeRows g).1 = false := by simp [hrows]
    rw [setSize_status, if_neg hne] at h
    have hneg : solverOK < 0 := by
      by_contra hc
      rw [if_neg hc] at h
      omega
    refine ⟨?_, ?_, ?_, setSize_state_indep g solverOK 0 s⟩
    · rw [setSize_status, if_neg hne, if_pos hneg]
    · rw [setSize_size, if_neg hne]
    · rw [setSize_status, if_neg hne, if_neg (by omega)]

/-- Instance of the amended C11: the system of two coupled DOFs resized for the graph
whose only vertex is tagged `5`. -/
theorem setSize_failure_witness :
    (pairSOE.setSize gapGraph 0).1 < 0 ∧ ¬ gapGraph.AllFound ∧
    (pairSOE.setSize gapGraph 0).1 = -1 ∧ (pairSOE.setSize gapGraph 0).2.size = 0 :=
  ⟨by decide, by decide, (setSize_failure gapGraph 0 pairSOE (by decide)).2.2.2.1 (by decide)⟩

/-- C13. `CheckPointers` returns `true` exactly when the model, the constraint handler and
the numberer are all three present, `false` as soon as one of them is unset, and it
leaves the bundle and the free store as they were. -/
theorem checkPointers_iff (b : ModelWrapper) (e : Env) :
    (b.CheckPointers e).1
      = (b.theModel.isSome && b.theHandler.isSome && b.theDOFNumberer.isSome) ∧
    ((b.CheckPointers e).1 = true ↔
      b.theModel ≠ none ∧ b.theHandler ≠ none ∧ b.theDOFNumberer ≠ none) ∧
    (b.CheckPointers e).2.1 = b ∧ (b.CheckPointers e).2.2.heap = e.heap := by
  cases hm : b.theModel <;> cases hh : b.theHandler <;> cases hn : b.theDOFNumberer <;>
    simp [ModelWrapper.CheckPointers, hm, hh, hn]

/-- C14, refutation of the claim as stated: on a freshly constructed bundle,
`newConstraintHandler("foo")` and `newNumberer("foo")` both end in a failed assertion
instead of returning. -/
theorem newHandler_unknown_counterexample :
    (∀ k : HandlerKind, "foo" ≠ k.name) ∧ (∀ k : NumbererKind, "foo" ≠ k.name) ∧
    (freshBundle.1.newConstraintHandler "foo" freshBundle.2).value = none ∧
    (freshBundle.1.newNumberer "foo" freshBundle.2).value = none := by
  refine ⟨?_, ?_, by decide, by decide⟩
  · intro k; cases k <;> decide
  · intro k; cases k <;> decide

/-- C14, amended. For a name that is not a recognised identifier, `newConstraintHandler`
releases the current handler, writes one message, leaves the handler slot unset and then
fails `assert(theHandler)`: the call does not return a handler. Likewise `newNumberer`
releases the current numberer, writes the two messages of `alloc_numerador` and
`setup_numerador`, leaves the numberer slot unset and fails `assert(theDOFNumberer)`. The
other slots are untouched. -/
theorem newHandler_unknown (b : ModelWrapper) (nmb : String) (e : Env) :
    ((∀ k : HandlerKind, nmb ≠ k.name) →
      (b.newConstraintHandler nmb e).value = none ∧
      (b.newConstraintHandler nmb e).bundle = { b with theHandler := none } ∧
      (b.newConstraintHandler nmb e).env.cerr = e.cerr ++ [Diag.unknownHandler nmb]) ∧
    ((∀ k : NumbererKind, nmb ≠ k.name) →
      (b.newNumberer nmb e).value = none ∧
      (b.newNumberer nmb e).bundle = { b with theDOFNumberer := none } ∧
      (b.newNumberer nmb e).env.cerr
        = e.cerr ++ [Diag.unknownNumberer nmb, Diag.numbererUndefined]) := by
  constructor
  · intro h
    have h1 := h .lagrange
    have h2 := h .penalty
    have h3 := h .plain
    have h4 := h .transformation
    simp only [HandlerKind.name] at h1 h2 h3 h4
    rcases b with ⟨self, owner, tm, th, tn⟩
    cases th <;>
      simp [ModelWrapper.newConstraintHandler, ModelWrapper.alloc_constraint_handler,
        ModelWrapper.libera_constraint_handler, h1, h2, h3, h4, Store.free]
  · intro h
    have h1 := h .dofNumberer
    have h2 := h .plainNumberer
    have h3 := h .parallelNumberer
    simp only [NumbererKind.name] at h1 h2 h3
    rcases b with ⟨self, owner, tm, th, tn⟩
    cases tn <;>
      simp [ModelWrapper.newNumberer, ModelWrapper.alloc_numerador,
        ModelWrapper.libera_numerador, ModelWrapper.setup_numerador, h1, h2, h3,
        Store.free]

/-- Instance of the amended C14: the name `foo` on a freshly constructed bundle. -/
theorem newHandler_unknown_witness :
    (∀ k : HandlerKind, "foo" ≠ k.name) ∧
    (freshBundle.1.newConstraintHandler "foo" freshBundle.2).value = none ∧
    (∀ k : NumbererKind, "foo" ≠ k.name) ∧
    (freshBundle.1.newNumberer "foo" freshBundle.2).value = none :=
  ⟨fun k => by cases k <;> decide,
    ((newHandler_unknown freshBundle.1 "foo" freshBundle.2).1
      (fun k => by cases k <;> decide)).1,
    fun k => by cases k <;> decide,
    ((newHandler_unknown freshBundle.1 "foo" freshBundle.2).2
      (fun k => by cases k <;> decide)).1⟩

/-- C15. For each of the four handler identifiers and every prior state of the bundle,
`newConstraintHandler` returns the handler it leaves in the handler slot: a new object of
the variant named, whose owner is the bundle; the previous handler, if any, has been
deleted; the model slot, the numberer slot and `std::cerr` are as before. -/
theorem newConstraintHandler_known (k : HandlerKind) (b : ModelWrapper) (e : Env) :
    (b.newConstraintHandler k.name e).value = some ⟨e.heap.next, k, some b.self, 0⟩ ∧
    (b.newConstraintHandler k.name e).bundle
      = { b with theHandler := some ⟨e.heap.next, k, some b.self, 0⟩ } ∧
    (b.newConstraintHandler k.name e).env.cerr = e.cerr ∧
    (b.newConstraintHandler k.name e).env.heap.live
      = e.heap.next :: (b.libera_constraint_handler e).2.heap.live ∧
    (∀ h, b.theHandler = some h →
      (b.libera_constraint_handler e).2.heap.live = e.heap.live.erase h.addr) := by
  cases k <;> cases hh : b.theHandler <;>
    simp [ModelWrapper.newConstraintHandler, ModelWrapper.alloc_constraint_handler,
      ModelWrapper.libera_constraint_handler, HandlerKind.name, hh, Store.alloc, Store.free]

/-- C16. For a bundle that has a model and any two numberer identifiers,
`newNumberer(n1)` followed by `newNumberer(n2)` returns the numberer it leaves in the
numberer slot: a new object of the variant named by `n2`, whose owner is the bundle. The
instance built for `n1` has been deleted: the live objects are those left after the
release of the numberer the bundle held before, plus the second instance. The model and
handler slots are as before. -/
theorem newNumberer_twice (k1 k2 : NumbererKind) (b : ModelWrapper) (e : Env)
    (hm : b.theModel ≠ none) :
    ((b.newNumberer k1.name e).bundle.newNumberer k2.name (b.newNumberer k1.name e).env).value
      = some ⟨e.heap.next + 1, k2, some b.self, 0⟩ ∧
    ((b.newNumberer k1.name e).bundle.newNumberer k2.name (b.newNumberer k1.name e).env).bundle
      = { b with theDOFNumberer := some ⟨e.heap.next + 1, k2, some b.self, 0⟩ } ∧
    (b.newNumberer k1.name e).value = some ⟨e.heap.next, k1, some b.self, 0⟩ ∧
    ((b.newNumberer k1.name e).bundle.newNumberer k2.name
        (b.newNumberer k1.name e).env).env.heap.live
      = (e.heap.next + 1) :: (b.libera_numerador e).2.heap.live := by
  obtain ⟨m, hm2⟩ := Option.ne_none_iff_exists'.mp hm
  cases k1 <;> cases k2 <;> cases hn : b.theDOFNumberer <;>
    simp [ModelWrapper.newNumberer, ModelWrapper.alloc_numerador,
      ModelWrapper.libera_numerador, ModelWrapper.setup_numerador, NumbererKind.name, hn, hm2,
      Store.alloc, Store.free]

/-- Instance of C16: `plain_numberer` then `parallel_numberer` on a freshly constructed
bundle. -/
theorem newNumberer_twice_witness :
    freshBundle.1.theModel ≠ none ∧
    ((freshBundle.1.newNumberer "plain_numberer" freshBundle.2).bundle.newNumberer
        "parallel_numberer" (freshBundle.1.newNumberer "plain_numberer" freshBundle.2).env).value
      = some ⟨3, .parallelNumberer, some 0, 0⟩ :=
  ⟨by decide,
    (newNumberer_twice .plainNumberer .parallelNumberer freshBundle.1 freshBundle.2
      (by decide)).1⟩

theorem libera_analysis_model_live (b : ModelWrapper) (e : Env) (x : Addr)
    (hx : x ∈ e.heap.live) (hne : ∀ m, b.theModel = some m → m.addr ≠ x) :
    x ∈ (b.libera_analysis_model e).2.heap.live := by
  unfold ModelWrapper.libera_analysis_model
  cases hm : b.theModel with
  | none => exact hx
  | some m =>
    exact (List.mem_erase_of_ne (fun h => hne m hm h.symm)).mpr hx

theorem libera_constraint_handler_live (b : ModelWrapper) (e : Env) (x : Addr)
    (hx : x ∈ e.heap.live) (hne : ∀ h, b.theHandler = some h → h.addr ≠ x) :
    x ∈ (b.libera_constraint_handler e).2.heap.live := by
  unfold ModelWrapper.libera_constraint_handler
  cases hm : b.theHandler with
  | none => exact hx
  | some m =>
    exact (List.mem_erase_of_ne (fun h => hne m hm h.symm)).mpr hx

theorem libera_numerador_live (b : ModelWrapper) (e : Env) (x : Addr)
    (hx : x ∈ e.heap.live) (hne : ∀ n, b.theDOFNumberer = some n → n.addr ≠ x) :
    x ∈ (b.libera_numerador e).2.heap.live := by
  unfold ModelWrapper.libera_numerador
  cases hm : b.theDOFNumberer with
  | none => exact hx
  | some m =>
    exact (List.mem_erase_of_ne (fun h => hne m hm h.symm)).mpr hx

theorem copia_analysis_model_ok (b : ModelWrapper) (src : AnalysisModel) (e : Env)
    (hx : src.addr ∈ e.heap.live) (hne : ∀ m, b.theModel = some m → m.addr ≠ src.addr) :
    b.copia_analysis_model (some src) e
      = { value := some (),
          bundle := { b with theModel := some ⟨e.heap.next, some b.self, src.state⟩ },
          env := ⟨⟨e.heap.next + 1, e.heap.next :: (b.libera_analysis_model e).2.heap.live⟩,
            e.cerr⟩ } := by
  have hl := libera_analysis_model_live b e src.addr hx hne
  unfold ModelWrapper.copia_analysis_model
  simp only [hl, if_true]
  rcases b with ⟨bs, bo, bm, bh, bn⟩
  cases bm <;>
    simp [ModelWrapper.libera_analysis_model, AnalysisModel.getCopy, Store.alloc, Store.free]

theorem copia_constraint_handler_ok (b : ModelWrapper) (src : ConstraintHandler) (e : Env)
    (hx : src.addr ∈ e.heap.live) (hne : ∀ h, b.theHandler = some h → h.addr ≠ src.addr) :
    b.copia_constraint_handler (some src) e
      = { value := some (),
          bundle := { b with theHandler := some ⟨e.heap.next, src.kind, some b.self, src.state⟩ },
          env := ⟨⟨e.heap.next + 1,
            e.heap.next :: (b.libera_constraint_handler e).2.heap.live⟩, e.cerr⟩ } := by
  have hl := libera_constraint_handler_live b e src.addr hx hne
  unfold ModelWrapper.copia_constraint_handler
  simp only [hl, if_true]
  rcases b with ⟨bs, bo, bm, bh, bn⟩
  cases bh <;>
    simp [ModelWrapper.libera_constraint_handler, ConstraintHandler.getCopy, Store.alloc,
      Store.free]

theorem copia_numerador_ok (b : ModelWrapper) (src : DOF_Numberer) (e : Env)
    (hx : src.addr ∈ e.heap.live) (hne : ∀ n, b.theDOFNumberer = some n → n.addr ≠ src.addr) :
    b.copia_numerador (some src) e
      = { value := if b.theModel = none then none else some (),
          bundle :=
            { b with theDOFNumberer := some ⟨e.heap.next, src.kind, some b.self, src.state⟩ },
          env := ⟨⟨e.heap.next + 1, e.heap.next :: (b.libera_numerador e).2.heap.live⟩,
            e.cerr⟩ } := by
  have hl := libera_numerador_live b e src.addr hx hne
  unfold ModelWrapper.copia_numerador
  simp only [hl, if_true]
  rcases b with ⟨bs, bo, bm, bh, bn⟩
  cases bn <;> cases bm <;>
    simp [ModelWrapper.libera_numerador, ModelWrapper.setup_numerador, DOF_Numberer.getCopy,
      Store.alloc, Store.free]

theorem copia_numerador_deleted (b : ModelWrapper) (src : DOF_Numberer) (e : Env)
    (h : src.addr ∉ (b.libera_numerador e).2.heap.live) :
    (b.copia_numerador (some src) e).value = none := by
  unfold ModelWrapper.copia_numerador
  simp only [h, if_false]

theorem copia_analysis_model_deleted (b : ModelWrapper) (src : AnalysisModel) (e : Env)
    (h : src.addr ∉ (b.libera_analysis_model e).2.heap.live) :
    (b.copia_analysis_model (some src) e).value = none := by
  unfold ModelWrapper.copia_analysis_model
  simp only [h, if_false]

theorem copia_step_model (t : ModelWrapper) (bm : Option AnalysisModel) (e : Env)
    (h : ∀ m, bm = some m →
      m.addr ∈ e.heap.live ∧ ∀ m2, t.theModel = some m2 → m2.addr ≠ m.addr) :
    ∃ env1 : Env,
      (if bm.isSome then t.copia_analysis_model bm e
        else ({ value := some (), bundle := t, env := e } : Outcome Unit))
        = { value := some (),
            bundle := { t with theModel :=
              (bm.elim t.theModel (fun m => some ⟨e.heap.next, some t.self, m.state⟩)) },
            env := env1 } ∧
      e.heap.next ≤ env1.heap.next ∧
      ∀ x, x ∈ e.heap.live → (∀ m2, t.theModel = some m2 → m2.addr ≠ x) →
        x ∈ env1.heap.live := by
  cases bm with
  | none => exact ⟨e, rfl, le_refl _, fun x hx _ => hx⟩
  | some m =>
    obtain ⟨h1, h2⟩ := h m rfl
    refine ⟨_, by simp only [Option.isSome_some, if_true]; exact
      copia_analysis_model_ok t m e h1 h2, Nat.le_add_right _ _, ?_⟩
    intro x hx hne
    exact List.mem_cons_of_mem _ (libera_analysis_model_live t e x hx hne)

theorem copia_step_handler (t : ModelWrapper) (bh : Option ConstraintHandler) (e : Env)
    (h : ∀ c, bh = some c →
      c.addr ∈ e.heap.live ∧ ∀ c2, t.theHandler = some c2 → c2.addr ≠ c.addr) :
    ∃ env1 : Env,
      (if bh.isSome then t.copia_constraint_handler bh e
        else ({ value := some (), bundle := t, env := e } : Outcome Unit))
        = { value := some (),
            bundle := { t with theHandler :=
              (bh.elim t.theHandler
                (fun c => some ⟨e.heap.next, c.kind, some t.self, c.state⟩)) },
            env := env1 } ∧
      e.heap.next ≤ env1.heap.next ∧
      ∀ x, x ∈ e.heap.live → (∀ c2, t.theHandler = some c2 → c2.addr ≠ x) →
        x ∈ env1.heap.live := by
  cases bh with
  | none => exact ⟨e, rfl, le_refl _, fun x hx _ => hx⟩
  | some c =>
    obtain ⟨h1, h2⟩ := h c rfl
    refine ⟨_, by simp only [Option.isSome_some, if_true]; exact
      copia_constraint_handler_ok t c e h1 h2, Nat.le_add_right _ _, ?_⟩
    intro x hx hne
    exact List.mem_cons_of_mem _ (libera_constraint_handler_live t e x hx hne)

theorem copia_step_numberer (t : ModelWrapper) (bn : Option DOF_Numberer) (e : Env)
    (h : ∀ n, bn = some n →
      n.addr ∈ e.heap.live ∧ ∀ n2, t.theDOFNumberer = some n2 → n2.addr ≠ n.addr) :
    ∃ env1 : Env,
      (if bn.isSome then t.copia_numerador bn e
        else ({ value := some (), bundle := t, env := e } : Outcome Unit))
        = { value := if bn ≠ none ∧ t.theModel = none then none else some (),
            bundle := { t with theDOFNumberer :=
              (bn.elim t.theDOFNumberer
                (fun n => some ⟨e.heap.next, n.kind, some t.self, n.state⟩)) },
            env := env1 } ∧
      e.heap.next ≤ env1.heap.next ∧
      ∀ x, x ∈ e.heap.live → (∀ n2, t.theDOFNumberer = some n2 → n2.addr ≠ x) →
        x ∈ env1.heap.live := by
  cases bn with
  | none => exact ⟨e, by simp, le_refl _, fun x hx _ => hx⟩
  | some n =>
    obtain ⟨h1, h2⟩ := h n rfl
    refine ⟨⟨⟨e.heap.next + 1, e.heap.next :: (t.libera_numerador e).2.heap.live⟩, e.cerr⟩,
      ?_, Nat.le_add_right _ _, ?_⟩
    · simp only [Option.isSome_some, if_true]
      rw [copia_numerador_ok t n e h1 h2]
      simp
    · intro x hx hne
      exact List.mem_cons_of_mem _ (libera_numerador_live t e x hx hne)

theorem copia_ok (t b : ModelWrapper) (e : Env)
    (hlive : ∀ x ∈ b.parts, x ∈ e.heap.live) (hdisj : ∀ x ∈ b.parts, x ∉ t.parts) :
    (t.copia b e).value
      = (if b.theDOFNumberer ≠ none ∧ b.theModel = none ∧ t.theModel = none then none
          else some ()) ∧
    (t.copia b e).bundle.self = t.self ∧
    (t.copia b e).bundle.owner = t.owner ∧
    (∀ m, b.theModel = some m → ∃ c,
      (t.copia b e).bundle.theModel = some c ∧ c.IsCloneOf m t.self ∧
      e.heap.next ≤ c.addr) ∧
    (b.theModel = none → (t.copia b e).bundle.theModel = t.theModel) ∧
    (∀ h, b.theHandler = some h → ∃ c,
      (t.copia b e).bundle.theHandler = some c ∧ c.IsCloneOf h t.self ∧
      e.heap.next ≤ c.addr) ∧
    (b.theHandler = none → (t.copia b e).bundle.theHandler = t.theHandler) ∧
    (∀ n, b.theDOFNumberer = some n → ∃ c,
      (t.copia b e).bundle.theDOFNumberer = some c ∧ c.IsCloneOf n t.self ∧
      e.heap.next ≤ c.addr) ∧
    (b.theDOFNumberer = none → (t.copia b e).bundle.theDOFNumberer = t.theDOFNumberer) ∧
    (∀ x ∈ b.parts, x ∈ (t.copia b e).env.heap.live) := by
  have hpm : ∀ m, b.theModel = some m → m.addr ∈ b.parts := by
    intro m hm; simp [ModelWrapper.parts, hm]
  have hph : ∀ c, b.theHandler = some c → c.addr ∈ b.parts := by
    intro c hc; simp [ModelWrapper.parts, hc]
  have hpn : ∀ n, b.theDOFNumberer = some n → n.addr ∈ b.parts := by
    intro n hn; simp [ModelWrapper.parts, hn]
  have htm : ∀ x ∈ b.parts, ∀ m2, t.theModel = some m2 → m2.addr ≠ x := by
    intro x hx m2 hm2 heq
    exact hdisj x hx (by simp [ModelWrapper.parts, hm2, ← heq])
  have hth : ∀ x ∈ b.parts, ∀ c2, t.theHandler = some c2 → c2.addr ≠ x := by
    intro x hx c2 hc2 heq
    exact hdisj x hx (by simp [ModelWrapper.parts, hc2, ← heq])
  have htn : ∀ x ∈ b.parts, ∀ n2, t.theDOFNumberer = some n2 → n2.addr ≠ x := by
    intro x hx n2 hn2 heq
    exact hdisj x hx (by simp [ModelWrapper.parts, hn2, ← heq])
  obtain ⟨env1, eq1, le1, pres1⟩ := copia_step_model t b.theModel e
    (fun m hm => ⟨hlive _ (hpm m hm), htm _ (hpm m hm)⟩)
  obtain ⟨env2, eq2, le2, pres2⟩ := copia_step_handler
    { t with theModel :=
      (b.theModel.elim t.theModel (fun m => some ⟨e.heap.next, some t.self, m.state⟩)) }
    b.theHandler env1
    (fun c hc => ⟨pres1 _ (hlive _ (hph c hc)) (htm _ (hph c hc)), hth _ (hph c hc)⟩)
  obtain ⟨env3, eq3, le3, pres3⟩ := copia_step_numberer
    { t with
      theModel :=
        (b.theModel.elim t.theModel (fun m => some ⟨e.heap.next, some t.self, m.state⟩))
      theHandler :=
        (b.theHandler.elim t.theHandler
          (fun c => some ⟨env1.heap.next, c.kind, some t.self, c.state⟩)) }
    b.theDOFNumberer env2
    (fun n hn => ⟨pres2 _ (pres1 _ (hlive _ (hpn n hn)) (htm _ (hpn n hn)))
      (hth _ (hpn n hn)), htn _ (hpn n hn)⟩)
  have hcopia : t.copia b e
      = { value := if b.theDOFNumberer ≠ none ∧ b.theModel = none ∧ t.theModel = none
            then none else some (),
          bundle :=
            { t with
              theModel :=
                (b.theModel.elim t.theModel
                  (fun m => some ⟨e.heap.next, some t.self, m.state⟩))
              theHandler :=
                (b.theHandler.elim t.theHandler
                  (fun c => some ⟨env1.heap.next, c.kind, some t.self, c.state⟩))
              theDOFNumberer :=
                (b.theDOFNumberer.elim t.theDOFNumberer
                  (fun n => some ⟨env2.heap.next, n.kind, some t.self, n.state⟩)) },
          env := env3 } := by
    unfold ModelWrapper.copia
    dsimp only
    rw [eq1]
    dsimp only
    rw [eq2]
    dsimp only
    by_cases hn : b.theDOFNumberer.isSome
    · rw [if_pos hn] at eq3 ⊢
      rw [eq3]
      cases hbm : b.theModel <;> simp
    · rw [if_neg hn] at eq3 ⊢
      have hnone : b.theDOFNumberer = none := by simpa using hn
      simp [hnone]
      have := congrArg Outcome.env eq3
      simpa using this
  rw [hcopia]
  refine ⟨rfl, rfl, rfl, ?_, ?_, ?_, ?_, ?_, ?_, ?_⟩
  · intro m hm
    exact ⟨⟨e.heap.next, some t.self, m.state⟩, by simp [hm], ⟨rfl, rfl⟩, le_refl _⟩
  · intro hm; simp [hm]
  · intro c hc
    exact ⟨⟨env1.heap.next, c.kind, some t.self, c.state⟩, by simp [hc], ⟨rfl, rfl, rfl⟩,
      le1⟩
  · intro hc; simp [hc]
  · intro n hn
    exact ⟨⟨env2.heap.next, n.kind, some t.self, n.state⟩, by simp [hn], ⟨rfl, rfl, rfl⟩,
      le_trans le1 le2⟩
  · intro hn; simp [hn]
  · intro x hx
    exact pres3 x (pres2 x (pres1 x (hlive x hx) (htm x hx)) (hth x hx)) (htn x hx)

theorem assign_self_deleted (a : ModelWrapper) (m : AnalysisModel) (e : Env)
    (hm : a.theModel = some m) (hnd : e.heap.live.Nodup) : (a.assign a e).value = none := by
  rcases a with ⟨s0, o0, am, ah, an⟩
  simp only at hm
  subst hm
  have hdel : m.addr ∉ ((⟨s0, o0, some m, ah, an⟩ : ModelWrapper).libera_analysis_model
      e).2.heap.live := by
    simp only [ModelWrapper.libera_analysis_model, Store.free]
    intro h
    exact ((List.Nodup.mem_erase_iff hnd).mp h).1 rfl
  have hv := copia_analysis_model_deleted ⟨s0, o0, some m, ah, an⟩ m e hdel
  unfold ModelWrapper.assign ModelWrapper.copia
  simp only [Option.isSome_some, if_true]
  rw [hv]
  exact hv

/-- C17, refutation of the claim as stated. Copy construction from a bundle that holds a
numberer and no model ends in the failed `assert(theModel)` of `setup_numerador`; the
assignment of a bundle without handler into a bundle that has a handler leaves that
handler in place; and the assignment of a bundle (with a model and a handler, both alive)
to itself deletes its model and then copies through the pointer to the deleted object. -/
theorem copy_counterexample :
    (numbererOnlyBundle.theDOFNumberer ≠ none ∧ numbererOnlyBundle.theModel = none ∧
      (ModelWrapper.copyConstruct 2 numbererOnlyBundle ⟨⟨3, [2, 1, 0]⟩, []⟩).value = none) ∧
    (otherBundle.1.theHandler = none ∧
      (handlerBundle.1.assign otherBundle.1 otherBundle.2).value = some () ∧
      (handlerBundle.1.assign otherBundle.1 otherBundle.2).bundle.theHandler
        = handlerBundle.1.theHandler ∧
      handlerBundle.1.theHandler ≠ none) ∧
    (handlerBundle.1.theModel ≠ none ∧
      (∀ x ∈ handlerBundle.1.parts, x ∈ handlerBundle.2.heap.live) ∧
      (handlerBundle.1.assign handlerBundle.1 handlerBundle.2).value = none) := by
  decide

/-- C17, amended. The collaborators of the source bundle `b` are live objects. Copy
construction from `b` completes exactly when the numberer of `b` is absent or its model
is present, and is aborted by `assert(theModel)` otherwise; the new bundle holds each of
model, handler and numberer exactly when `b` does, as a new object that copies the
collaborator of `b` of the same variant and whose owner is the new bundle. For a target
bundle `a` that shares no collaborator with `b` (so `a` is not `b` itself), the assignment
of `b` into `a` completes exactly when the numberer of `b` is absent or a model is present
in `b` or in `a`, and is aborted by `assert(theModel)` otherwise; every collaborator
present in `b` is replaced in `a` by such a copy owned by `a`, and every slot whose
collaborator is absent in `b` keeps what `a` held. In both operations the collaborators of
`b` are still alive afterwards. -/
theorem copy_clones (self : Addr) (a b : ModelWrapper) (e : Env)
    (hlive : ∀ x ∈ b.parts, x ∈ e.heap.live) :
    (((ModelWrapper.copyConstruct self b e).value = some ()
        ↔ (b.theDOFNumberer = none ∨ b.theModel ≠ none)) ∧
      ((ModelWrapper.copyConstruct self b e).value = none
        ↔ (b.theDOFNumberer ≠ none ∧ b.theModel = none)) ∧
      (ModelWrapper.copyConstruct self b e).bundle.self = self ∧
      ((ModelWrapper.copyConstruct self b e).bundle.theModel = none ↔ b.theModel = none) ∧
      ((ModelWrapper.copyConstruct self b e).bundle.theHandler = none ↔ b.theHandler = none) ∧
      ((ModelWrapper.copyConstruct self b e).bundle.theDOFNumberer = none
        ↔ b.theDOFNumberer = none) ∧
      (∀ m, b.theModel = some m → ∃ c,
        (ModelWrapper.copyConstruct self b e).bundle.theModel = some c ∧
        c.IsCloneOf m self ∧ e.heap.next ≤ c.addr) ∧
      (∀ h, b.theHandler = some h → ∃ c,
        (ModelWrapper.copyConstruct self b e).bundle.theHandler = some c ∧
        c.IsCloneOf h self ∧ e.heap.next ≤ c.addr) ∧
      (∀ n, b.theDOFNumberer = some n → ∃ c,
        (ModelWrapper.copyConstruct self b e).bundle.theDOFNumberer = some c ∧
        c.IsCloneOf n self ∧ e.heap.next ≤ c.addr) ∧
      (∀ x ∈ b.parts, x ∈ (ModelWrapper.copyConstruct self b e).env.heap.live)) ∧
    ((∀ x ∈ b.parts, x ∉ a.parts) →
      ((a.assign b e).value = some ()
        ↔ (b.theDOFNumberer = none ∨ b.theModel ≠ none ∨ a.theModel ≠ none)) ∧
      ((a.assign b e).value = none
        ↔ (b.theDOFNumberer ≠ none ∧ b.theModel = none ∧ a.theModel = none)) ∧
      (a.assign b e).bundle.self = a.self ∧
      (∀ m, b.theModel = some m → ∃ c,
        (a.assign b e).bundle.theModel = some c ∧
        c.IsCloneOf m a.self ∧ e.heap.next ≤ c.addr) ∧
      (∀ h, b.theHandler = some h → ∃ c,
        (a.assign b e).bundle.theHandler = some c ∧
        c.IsCloneOf h a.self ∧ e.heap.next ≤ c.addr) ∧
      (∀ n, b.theDOFNumberer = some n → ∃ c,
        (a.assign b e).bundle.theDOFNumberer = some c ∧
        c.IsCloneOf n a.self ∧ e.heap.next ≤ c.addr) ∧
      (b.theModel = none → (a.assign b e).bundle.theModel = a.theModel) ∧
      (b.theHandler = none → (a.assign b e).bundle.theHandler = a.theHandler) ∧
      (b.theDOFNumberer = none → (a.assign b e).bundle.theDOFNumberer = a.theDOFNumberer) ∧
      (∀ x ∈ b.parts, x ∈ (a.assign b e).env.heap.live)) := by
  constructor
  · obtain ⟨hv, hs, _, hm, hm0, hh, hh0, hn, hn0, hl⟩ :=
      copia_ok ⟨self, b.owner, none, none, none⟩ b e hlive
        (by intro x _; simp [ModelWrapper.parts])
    unfold ModelWrapper.copyConstruct
    refine ⟨?_, ?_, hs, ?_, ?_, ?_, hm, hh, hn, hl⟩
    · rw [hv]
      cases b.theDOFNumberer <;> cases b.theModel <;> simp
    · rw [hv]
      cases b.theDOFNumberer <;> cases b.theModel <;> simp
    · constructor
      · intro h0
        by_contra hne
        obtain ⟨m, hbm⟩ := Option.ne_none_iff_exists'.mp hne
        obtain ⟨c, hc, _⟩ := hm m hbm
        rw [hc] at h0
        exact Option.some_ne_none c h0
      · exact hm0
    · constructor
      · intro h0
        by_contra hne
        obtain ⟨m, hbm⟩ := Option.ne_none_iff_exists'.mp hne
        obtain ⟨c, hc, _⟩ := hh m hbm
        rw [hc] at h0
        exact Option.some_ne_none c h0
      · exact hh0
    · constructor
      · intro h0
        by_contra hne
        obtain ⟨m, hbm⟩ := Option.ne_none_iff_exists'.mp hne
        obtain ⟨c, hc, _⟩ := hn m hbm
        rw [hc] at h0
        exact Option.some_ne_none c h0
      · exact hn0
  · intro hdisj
    obtain ⟨hv, hs, _, hm, hm0, hh, hh0, hn, hn0, hl⟩ :=
      copia_ok { a with owner := b.owner } b e hlive hdisj
    unfold ModelWrapper.assign
    refine ⟨?_, ?_, hs, hm, hh, hn, hm0, hh0, hn0, hl⟩
    · rw [hv]
      cases b.theDOFNumberer <;> cases b.theModel <;> cases a.theModel <;> simp
    · rw [hv]
      cases b.theDOFNumberer <;> cases b.theModel <;> cases a.theModel <;> simp

/-- Instance of the amended C17: copy construction, at address `5`, of the bundle that has
a model and a Lagrange handler, and the assignment of the second bundle (a model, no
handler) into it. -/
theorem copy_clones_witness :
    (∀ x ∈ handlerBundle.1.parts, x ∈ (⟨⟨6, [5, 2, 1, 0]⟩, []⟩ : Env).heap.live) ∧
    (ModelWrapper.copyConstruct 5 handlerBundle.1 ⟨⟨6, [5, 2, 1, 0]⟩, []⟩).value = some () ∧
    (ModelWrapper.copyConstruct 5 handlerBundle.1 ⟨⟨6, [5, 2, 1, 0]⟩, []⟩).bundle.self = 5 ∧
    (∀ x ∈ otherBundle.1.parts, x ∈ otherBundle.2.heap.live) ∧
    (∀ x ∈ otherBundle.1.parts, x ∉ handlerBundle.1.parts) ∧
    (handlerBundle.1.assign otherBundle.1 otherBundle.2).value = some () ∧
    (handlerBundle.1.assign otherBundle.1 otherBundle.2).bundle.theHandler
      = handlerBundle.1.theHandler :=
  ⟨by decide,
    ((copy_clones 5 handlerBundle.1 handlerBundle.1 ⟨⟨6, [5, 2, 1, 0]⟩, []⟩
      (by decide)).1.1).mpr (Or.inl rfl),
    (copy_clones 5 handlerBundle.1 handlerBundle.1 ⟨⟨6, [5, 2, 1, 0]⟩, []⟩
      (by decide)).1.2.2.1,
    by decide, by decide,
    (((copy_clones 0 handlerBundle.1 otherBundle.1 otherBundle.2 (by decide)).2
      (by decide)).1).mpr (Or.inl rfl),
    ((copy_clones 0 handlerBundle.1 otherBundle.1 otherBundle.2 (by decide)).2
      (by decide)).2.2.2.2.2.2.2.1 rfl⟩

/-! ## The registry of bundles (C18, C19) -/

theorem existe_iff_mem (r : MapModelWrapper) (cod : String) :
    r.existeModelWrapper cod = true ↔ cod ∈ r.solu_models.map Prod.fst := by
  unfold MapModelWrapper.existeModelWrapper
  rw [List.lookup_isSome_iff]
  constructor
  · rintro ⟨p, hp, hk⟩
    have : cod = p.1 := by simpa using hk
    rw [this]
    exact List.mem_map_of_mem _ hp
  · intro h
    obtain ⟨p, hp, hk⟩ := List.mem_map.mp h
    exact ⟨p, hp, by simp [hk]⟩

theorem lookup_mem (l : List (String × ModelWrapper)) (cod : String) (b : ModelWrapper)
    (h : l.lookup cod = some b) : (cod, b) ∈ l := by
  obtain ⟨l1, l2, hl, _⟩ := List.lookup_eq_some_iff.mp h
  rw [hl]
  simp

theorem crea_existing (r : MapModelWrapper) (cod : String) (e : Env)
    (h : r.existeModelWrapper cod = true) :
    r.creaModelWrapper cod e = { value := r.getModelWrapper cod, reg := r, env := e } := by
  unfold MapModelWrapper.creaModelWrapper
  rw [if_pos h]

theorem crea_new (r : MapModelWrapper) (cod : String) (e : Env)
    (h : ¬ r.existeModelWrapper cod = true) :
    (r.creaModelWrapper cod e).value
      = some ⟨e.heap.next + 2, none, some ⟨e.heap.next + 4, some (e.heap.next + 2), 0⟩, none,
          none⟩ ∧
    (r.creaModelWrapper cod e).reg
      = { solu_models :=
            (cod, ⟨e.heap.next + 2, none, some ⟨e.heap.next + 4, some (e.heap.next + 2), 0⟩,
              none, none⟩) :: r.solu_models } ∧
    (r.creaModelWrapper cod e).env.heap.next = e.heap.next + 5 ∧
    (r.creaModelWrapper cod e).env.cerr = e.cerr := by
  unfold MapModelWrapper.creaModelWrapper
  rw [if_neg h]
  simp [ModelWrapper.construct, ModelWrapper.alloc_analysis_model,
    ModelWrapper.libera_analysis_model, ModelWrapper.assign, ModelWrapper.copia,
    ModelWrapper.copia_analysis_model, AnalysisModel.getCopy, ModelWrapper.destroy,
    ModelWrapper.libera, ModelWrapper.libera_constraint_handler,
    ModelWrapper.libera_numerador, Store.alloc, Store.free]

theorem crea_value_lookup (r : MapModelWrapper) (cod : String) (e : Env) :
    ∃ b, (r.creaModelWrapper cod e).value = some b ∧
      (r.creaModelWrapper cod e).reg.solu_models.lookup cod = some b := by
  by_cases h : r.existeModelWrapper cod = true
  · rw [crea_existing r cod e h]
    unfold MapModelWrapper.existeModelWrapper at h
    obtain ⟨b, hb⟩ := Option.isSome_iff_exists.mp h
    exact ⟨b, hb, hb⟩
  · obtain ⟨h1, h2, _, _⟩ := crea_new r cod e h
    exact ⟨_, h1, by rw [h2]; simp⟩

theorem crea_keeps_lookup (r : MapModelWrapper) (cod c : String) (e : Env)
    (b : ModelWrapper) (hb : r.solu_models.lookup cod = some b) :
    (r.creaModelWrapper c e).reg.solu_models.lookup cod = some b := by
  by_cases h : r.existeModelWrapper c = true
  · rw [crea_existing r c e h]
    exact hb
  · have hne : ¬ cod = c := by
      intro hc
      subst hc
      apply h
      unfold MapModelWrapper.existeModelWrapper
      rw [hb]
      rfl
    rw [(crea_new r c e h).2.1, List.lookup_cons]
    have : (cod == c) = false := by simpa using hne
    rw [this]
    exact hb

theorem inv_crea (r : MapModelWrapper) (cod : String) (e : Env)
    (hinv : MapModelWrapper.Inv (r, e)) :
    MapModelWrapper.Inv ((r.creaModelWrapper cod e).reg, (r.creaModelWrapper cod e).env) := by
  by_cases h : r.existeModelWrapper cod = true
  · rw [crea_existing r cod e h]
    exact hinv
  · obtain ⟨_, h2, h3, _⟩ := crea_new r cod e h
    obtain ⟨i1, i2, i3⟩ := hinv
    unfold MapModelWrapper.Inv
    rw [h2, h3]
    refine ⟨?_, ?_, ?_⟩
    · rw [List.map_cons, List.nodup_cons]
      exact ⟨fun hm => h ((existe_iff_mem r cod).mpr hm), i1⟩
    · rw [List.map_cons, List.nodup_cons]
      refine ⟨?_, i2⟩
      intro hm
      obtain ⟨p, hp, hps⟩ := List.mem_map.mp hm
      have h3 : p.2.self < e.heap.next := i3 p hp
      have h4 : p.2.self = e.heap.next + 2 := hps
      rw [h4] at h3
      exact absurd h3 (Nat.not_lt.mpr (Nat.le_add_right _ _))
    · intro p hp
      rcases List.mem_cons.mp hp with hp | hp
      · rw [hp]
        exact Nat.add_lt_add_left (by decide) e.heap.next
      · exact Nat.lt_of_lt_of_le (i3 p hp) (Nat.le_add_right _ _)

theorem inv_call (s : MapModelWrapper × Env) (c : RegistryCall)
    (hinv : MapModelWrapper.Inv s) : MapModelWrapper.Inv (MapModelWrapper.call s c) := by
  cases c with
  | crea cod => exact inv_crea s.1 cod s.2 hinv
  | clearAll =>
    unfold MapModelWrapper.call MapModelWrapper.clearAll MapModelWrapper.Inv
    simp

theorem inv_run (calls : List RegistryCall) :
    ∀ s : MapModelWrapper × Env, MapModelWrapper.Inv s →
      MapModelWrapper.Inv (MapModelWrapper.run calls s) := by
  induction calls with
  | nil => intro s h; exact h
  | cons c calls ih =>
    intro s h
    unfold MapModelWrapper.run
    rw [List.foldl_cons]
    exact ih _ (inv_call s c h)

theorem run_creas_keeps_lookup (others : List String) (cod : String) (b : ModelWrapper) :
    ∀ s : MapModelWrapper × Env, s.1.solu_models.lookup cod = some b →
      (MapModelWrapper.run (others.map RegistryCall.crea) s).1.solu_models.lookup cod
        = some b := by
  induction others with
  | nil => intro s h; exact h
  | cons c others ih =>
    intro s h
    unfold MapModelWrapper.run
    rw [List.map_cons, List.foldl_cons]
    exact ih _ (crea_keeps_lookup s.1 cod c s.2 b h)

theorem inv_empty (e0 : Env) : MapModelWrapper.Inv (MapModelWrapper.empty, e0) := by
  unfold MapModelWrapper.Inv MapModelWrapper.empty
  simp

/-- C18. On every registry reached from the empty one, `creaModelWrapper(id)` returns a
bundle; a second `creaModelWrapper(id)`, also after `creaModelWrapper` calls on other
identifiers, returns the same bundle (the same object) and leaves the registry and the
environment as they were; `creaModelWrapper` on a different identifier returns a bundle
at a different address; and the identifiers of the registry are pairwise distinct. -/
theorem crea_same_instance (calls : List RegistryCall) (e0 : Env) (id : String)
    (others : List String) (id' : String) (hne : id' ≠ id) :
    (∃ b1 b3,
      (MapModelWrapper.firstCrea calls e0 id).value = some b1 ∧
      ((MapModelWrapper.afterOthers calls e0 id others).1.creaModelWrapper id
        (MapModelWrapper.afterOthers calls e0 id others).2).value = some b1 ∧
      ((MapModelWrapper.afterOthers calls e0 id others).1.creaModelWrapper id'
        (MapModelWrapper.afterOthers calls e0 id others).2).value = some b3 ∧
      b3.self ≠ b1.self) ∧
    ((MapModelWrapper.afterOthers calls e0 id others).1.creaModelWrapper id
      (MapModelWrapper.afterOthers calls e0 id others).2).reg
      = (MapModelWrapper.afterOthers calls e0 id others).1 ∧
    ((MapModelWrapper.afterOthers calls e0 id others).1.creaModelWrapper id
      (MapModelWrapper.afterOthers calls e0 id others).2).env
      = (MapModelWrapper.afterOthers calls e0 id others).2 ∧
    ((MapModelWrapper.afterOthers calls e0 id others).1.solu_models.map Prod.fst).Nodup := by
  have hR := inv_run calls _ (inv_empty e0)
  have hc1 := inv_crea _ id _ hR
  obtain ⟨b1, hv1, hl1⟩ := crea_value_lookup
    (MapModelWrapper.run calls (MapModelWrapper.empty, e0)).1 id
    (MapModelWrapper.run calls (MapModelWrapper.empty, e0)).2
  have hR' : MapModelWrapper.Inv (MapModelWrapper.afterOthers calls e0 id others) :=
    inv_run _ _ hc1
  have hl' : (MapModelWrapper.afterOthers calls e0 id others).1.solu_models.lookup id
      = some b1 := run_creas_keeps_lookup others id b1 _ hl1
  have hex : (MapModelWrapper.afterOthers calls e0 id others).1.existeModelWrapper id
      = true := by
    unfold MapModelWrapper.existeModelWrapper
    rw [hl']
    rfl
  have hc2 := crea_existing _ id (MapModelWrapper.afterOthers calls e0 id others).2 hex
  obtain ⟨b3, hv3, hl3⟩ := crea_value_lookup
    (MapModelWrapper.afterOthers calls e0 id others).1 id'
    (MapModelWrapper.afterOthers calls e0 id others).2
  have hinv3 := inv_crea _ id' _ hR'
  have hl13 := crea_keeps_lookup _ id id'
    (MapModelWrapper.afterOthers calls e0 id others).2 b1 hl'
  refine ⟨⟨b1, b3, hv1, ?_, hv3, ?_⟩, ?_, ?_, hR'.1⟩
  · rw [hc2]
    exact hl'
  · intro hself
    have hm1 := lookup_mem _ _ _ hl13
    have hm3 := lookup_mem _ _ _ hl3
    have := List.inj_on_of_nodup_map hinv3.2.1 hm3 hm1 hself
    exact hne (congrArg Prod.fst this)
  · rw [hc2]
  · rw [hc2]

/-- Instance of C18, the scenario of the specification: `static` twice, then `modal`, on
the empty registry. -/
theorem crea_same_instance_witness :
    "modal" ≠ "static" ∧
    ∃ b1 b3,
      (MapModelWrapper.firstCrea [] env0 "static").value = some b1 ∧
      ((MapModelWrapper.afterOthers [] env0 "static" []).1.creaModelWrapper "static"
        (MapModelWrapper.afterOthers [] env0 "static" []).2).value = some b1 ∧
      ((MapModelWrapper.afterOthers [] env0 "static" []).1.creaModelWrapper "modal"
        (MapModelWrapper.afterOthers [] env0 "static" []).2).value = some b3 ∧
      b3.self ≠ b1.self :=
  ⟨by decide, (crea_same_instance [] env0 "static" [] "modal" (by decide)).1⟩
theorem existe_after_call (s : MapModelWrapper × Env) (c : RegistryCall) (acc : List String)
    (h : ∀ id, s.1.existeModelWrapper id = true ↔ id ∈ acc) :
    ∀ id, (MapModelWrapper.call s c).1.existeModelWrapper id = true
      ↔ id ∈ idsAfter acc [c] := by
  intro id
  cases c with
  | crea cod =>
    show ((s.1.creaModelWrapper cod s.2).reg.existeModelWrapper id = true) ↔ id ∈ cod :: acc
    by_cases hex : s.1.existeModelWrapper cod = true
    · rw [crea_existing s.1 cod s.2 hex, h id, List.mem_cons]
      constructor
      · exact Or.inr
      · rintro (hc | hc)
        · rw [hc]; exact (h cod).mp hex
        · exact hc
    · rw [(crea_new s.1 cod s.2 hex).2.1, existe_iff_mem, List.map_cons, List.mem_cons,
        List.mem_cons, ← existe_iff_mem, h id]
  | clearAll =>
    show ((s.1.clearAll s.2).1.existeModelWrapper id = true) ↔ id ∈ ([] : List String)
    simp [MapModelWrapper.clearAll, MapModelWrapper.existeModelWrapper]

theorem existe_after_run (calls : List RegistryCall) :
    ∀ (s : MapModelWrapper × Env) (acc : List String),
      (∀ id, s.1.existeModelWrapper id = true ↔ id ∈ acc) →
      ∀ id, (MapModelWrapper.run calls s).1.existeModelWrapper id = true
        ↔ id ∈ idsAfter acc calls := by
  induction calls with
  | nil => intro s acc h id; exact h id
  | cons c calls ih =>
    intro s acc h id
    unfold MapModelWrapper.run idsAfter
    rw [List.foldl_cons, List.foldl_cons]
    exact ih (MapModelWrapper.call s c) _ (existe_after_call s c acc h) id

/-- C19. On the registry reached from the empty one by any sequence of `creaModelWrapper`
and `clearAll` calls, `existeModelWrapper(id)` is true exactly for the identifiers passed
to `creaModelWrapper` since the last `clearAll` (or since construction);
`getModelWrapper(id)` returns a bundle exactly when `existeModelWrapper(id)` is true; and
after `clearAll`, `existeModelWrapper(id)` is false. -/
theorem existe_exactly_created (calls : List RegistryCall) (e0 : Env) (id : String) :
    ((MapModelWrapper.run calls (MapModelWrapper.empty, e0)).1.existeModelWrapper id = true
      ↔ id ∈ idsAfter [] calls) ∧
    (((MapModelWrapper.run calls (MapModelWrapper.empty, e0)).1.getModelWrapper id ≠ none)
      ↔ (MapModelWrapper.run calls (MapModelWrapper.empty, e0)).1.existeModelWrapper id
          = true) ∧
    ((MapModelWrapper.run calls (MapModelWrapper.empty, e0)).1.clearAll
        (MapModelWrapper.run calls (MapModelWrapper.empty, e0)).2).1.existeModelWrapper id
      = false := by
  refine ⟨?_, ?_, ?_⟩
  · apply existe_after_run calls (MapModelWrapper.empty, e0) []
    intro id2
    simp [MapModelWrapper.empty, MapModelWrapper.existeModelWrapper]
  · unfold MapModelWrapper.getModelWrapper MapModelWrapper.existeModelWrapper
    rw [Option.ne_none_iff_isSome]
  · simp [MapModelWrapper.clearAll, MapModelWrapper.existeModelWrapper]

/-! ## The analysis driver (C20) -/

/-- C20, refutation of the claim as stated. With no model `newStepDomain` produces no
status at all (the null pointer is dereferenced); and for the model of a freshly
constructed bundle, which fails `CheckPointers` for want of a handler, it returns the
status of the model, here `0`, not a negative one. -/
theorem newStepDomain_counterexample :
    Analysis.newStepDomain (fun _ (_ : Int) => 0) none 1 = none ∧
    (freshBundle.1.CheckPointers freshBundle.2).1 = false ∧
    Analysis.newStepDomain (fun _ (_ : Int) => 0) freshBundle.1.theModel 1 = some 0 := by
  decide

/-- C20, amended. `newStepDomain` returns exactly the status code that the step advance of
the model returns whenever a model is passed, whatever the state of the bundle; it makes
no completeness check of its own, and for an absent model it dereferences the null
pointer and produces no status. -/
theorem newStepDomain_delegates {D : Type} (modelStep : AnalysisModel → D → Int)
    (m : AnalysisModel) (dT : D) :
    Analysis.newStepDomain modelStep (some m) dT = some (modelStep m dT) ∧
    Analysis.newStepDomain modelStep none dT = none :=
  ⟨rfl, rfl⟩

/-! ## Unknown names in `alloc_constraint_handler` and `alloc_numerador` -/

/-- C26. For a name `nmbH` that is none of the four handler identifiers and every prior
state of the bundle, `alloc_constraint_handler(nmbH)` returns `false` and leaves the
handler slot empty; for a name `nmbN` that is none of the three numberer identifiers,
`alloc_numerador(nmbN)` returns `false` (it does return) and leaves the numberer slot
empty. In both cases an instance held before the call has been deleted, and the other
two slots are as before. -/
theorem alloc_unknown_name (b : ModelWrapper) (nmbH nmbN : String) (e : Env)
    (hH : ∀ k : HandlerKind, nmbH ≠ k.name) (hN : ∀ k : NumbererKind, nmbN ≠ k.name) :
    ((b.alloc_constraint_handler nmbH e).1 = false ∧
      (b.alloc_constraint_handler nmbH e).2.1.theHandler = none ∧
      (b.alloc_constraint_handler nmbH e).2.1.theModel = b.theModel ∧
      (b.alloc_constraint_handler nmbH e).2.1.theDOFNumberer = b.theDOFNumberer ∧
      (∀ h, b.theHandler = some h →
        (b.alloc_constraint_handler nmbH e).2.2.heap.live = e.heap.live.erase h.addr)) ∧
    ((b.alloc_numerador nmbN e).value = some false ∧
      (b.alloc_numerador nmbN e).bundle.theDOFNumberer = none ∧
      (b.alloc_numerador nmbN e).bundle.theModel = b.theModel ∧
      (b.alloc_numerador nmbN e).bundle.theHandler = b.theHandler ∧
      (∀ n, b.theDOFNumberer = some n →
        (b.alloc_numerador nmbN e).env.heap.live = e.heap.live.erase n.addr)) := by
  constructor
  · have h1 := hH .lagrange
    have h2 := hH .penalty
    have h3 := hH .plain
    have h4 := hH .transformation
    simp only [HandlerKind.name] at h1 h2 h3 h4
    rcases b with ⟨self, owner, tm, th, tn⟩
    cases th <;>
      simp [ModelWrapper.alloc_constraint_handler, ModelWrapper.libera_constraint_handler,
        h1, h2, h3, h4, Store.free]
  · have h1 := hN .dofNumberer
    have h2 := hN .plainNumberer
    have h3 := hN .parallelNumberer
    simp only [NumbererKind.name] at h1 h2 h3
    rcases b with ⟨self, owner, tm, th, tn⟩
    cases tn <;>
      simp [ModelWrapper.alloc_numerador, ModelWrapper.libera_numerador,
        ModelWrapper.setup_numerador, h1, h2, h3, Store.free]

/-- Instance of C26: the name `foo` on the bundle that holds a Lagrange handler and on the
bundle that holds only a numberer. -/
theorem alloc_unknown_name_witness :
    (∀ k : HandlerKind, "foo" ≠ k.name) ∧ (∀ k : NumbererKind, "foo" ≠ k.name) ∧
    handlerBundle.1.theHandler ≠ none ∧
    (handlerBundle.1.alloc_constraint_handler "foo" handlerBundle.2).1 = false ∧
    (handlerBundle.1.alloc_constraint_handler "foo" handlerBundle.2).2.1.theHandler = none ∧
    numbererOnlyBundle.theDOFNumberer ≠ none ∧
    (numbererOnlyBundle.alloc_numerador "foo" env0).value = some false ∧
    (numbererOnlyBundle.alloc_numerador "foo" env0).bundle.theDOFNumberer = none :=
  ⟨fun k => by cases k <;> decide, fun k => by cases k <;> decide, by decide,
    (alloc_unknown_name handlerBundle.1 "foo" "foo" handlerBundle.2
      (fun k => by cases k <;> decide) (fun k => by cases k <;> decide)).1.1,
    (alloc_unknown_name handlerBundle.1 "foo" "foo" handlerBundle.2
      (fun k => by cases k <;> decide) (fun k => by cases k <;> decide)).1.2.1,
    by decide,
    (alloc_unknown_name numbererOnlyBundle "foo" "foo" env0
      (fun k => by cases k <;> decide) (fun k => by cases k <;> decide)).2.1,
    (alloc_unknown_name numbererOnlyBundle "foo" "foo" env0
      (fun k => by cases k <;> decide) (fun k => by cases k <;> decide)).2.2.1⟩

/-! ## End points of a line -/

/-- C30, the call that departs from the claim: on the line from the point at `1` to the
point at `2`, `SetVertice(1, p)` with `p` the start point the line already has leaves the
test `(i==1) && (p1!=p)` false, takes the `else` branch and assigns `p` to the end point
`p2`, which is no longer the one it was before the call. -/
theorem setVertice_overwrites_other_end :
    sampleLine.p1 = some 1 ∧ sampleLine.p2 = some 2 ∧
    (sampleLine.SetVertice 1 (some 1)).GetVertice 1 = some 1 ∧
    (sampleLine.SetVertice 1 (some 1)).p2 = some 1 ∧
    (sampleLine.SetVertice 1 (some 1)).p2 ≠ sampleLine.p2 := by
  decide

/-! ## Contributions outside the sparsity pattern -/

theorem storesCol_false (s : UmfpackGenLinSOE R) (r : Nat) (c : Int)
    (h : s.storesCol r c = false) (k : Nat) (h1 : s.rowStartA.getD r 0 ≤ k)
    (h2 : k < s.rowStartA.getD r 0 + (s.rowStartA.getD (r + 1) 0 - s.rowStartA.getD r 0)) :
    s.colA.getD k 0 ≠ c := by
  unfold UmfpackGenLinSOE.storesCol at h
  rw [List.any_eq_false] at h
  have := h k (by rw [List.mem_range'_1]; exact ⟨h1, h2⟩)
  simpa using this

theorem scanRow_no_match [Add R] [Zero R] (colA : List Int) (col : Int) (v : R) (n : Nat) :
    ∀ (k0 : Nat) (A : List R), (∀ k, k0 ≤ k → k < k0 + n → colA.getD k 0 ≠ col) →
      scanRow colA col v n k0 A = A := by
  induction n with
  | zero => intro _ _ _; rfl
  | succ n ih =>
    intro k0 A h
    unfold scanRow
    rw [if_neg (h k0 (le_refl _) (by omega))]
    exact ih (k0 + 1) A (fun k h1 h2 => h k (by omega) (by omega))

theorem foldl_fixed {α β : Type} (f : α → β → α) (l : List β) (init : α)
    (h : ∀ x ∈ l, f init x = init) : l.foldl f init = init := by
  induction l with
  | nil => rfl
  | cons b l ih =>
    rw [List.foldl_cons, h b (List.mem_cons_self _ _)]
    exact ih (fun x hx => h x (List.mem_cons_of_mem _ hx))

theorem addALoop_congr_stored [Add R] [Zero R] (s : UmfpackGenLinSOE R) (id : List Int)
    (val val2 : Nat → Nat → R)
    (h : ∀ i j, i < id.length → j < id.length →
      0 ≤ id.getD i 0 → id.getD i 0 < (s.size : Int) →
      0 ≤ id.getD j 0 → id.getD j 0 < (s.size : Int) →
      s.storesCol (id.getD i 0).toNat (id.getD j 0) = true → val i j = val2 i j) :
    addALoop s id val = addALoop s id val2 := by
  unfold addALoop
  apply foldl_congr_mem
  intro i hi A
  have hi2 := List.mem_range.mp hi
  dsimp only
  split_ifs with hrow
  · unfold addARow
    apply foldl_congr_mem
    intro j hj A2
    have hj2 := List.mem_range.mp hj
    dsimp only
    split_ifs with hcol
    · cases hst : s.storesCol (id.getD i 0).toNat (id.getD j 0) with
      | true => rw [h i j hi2 hj2 hrow.2 hrow.1 hcol.2 hcol.1 hst]
      | false =>
        rw [scanRow_no_match _ _ _ _ _ _ (storesCol_false s _ _ hst),
          scanRow_no_match _ _ _ _ _ _ (storesCol_false s _ _ hst)]
    · rfl
  · rfl

theorem addALoop_no_hit [Add R] [Zero R] (s : UmfpackGenLinSOE R) (id : List Int)
    (val : Nat → Nat → R)
    (h : ∀ i j, i < id.length → j < id.length →
      0 ≤ id.getD i 0 → id.getD i 0 < (s.size : Int) →
      0 ≤ id.getD j 0 → id.getD j 0 < (s.size : Int) →
      s.storesCol (id.getD i 0).toNat (id.getD j 0) = false) :
    addALoop s id val = s.A := by
  unfold addALoop
  apply foldl_fixed
  intro i hi
  have hi2 := List.mem_range.mp hi
  dsimp only
  split_ifs with hrow
  · unfold addARow
    apply foldl_fixed
    intro j hj
    have hj2 := List.mem_range.mp hj
    dsimp only
    split_ifs with hcol
    · exact scanRow_no_match _ _ _ _ _ _
        (storesCol_false s _ _ (h i j hi2 hj2 hrow.2 hrow.1 hcol.2 hcol.1))
    · rfl
  · rfl

/-- C27. In `addA`, a pair whose column `c` is not among the columns stored for its row
`r` leaves the value array as it is, whatever the value to add (last part). For a call
that passes the shape test, the status is `0` and the resulting state does not depend on
the entries `m(i,j)` of the pairs that hit no stored position: a matrix `m2` that agrees
with `m` on the pairs that do hit one gives the same state. When no pair with both ids in
`[0, size)` hits a stored position, the state is unchanged. -/
theorem addA_drops_unstored [CommRing R] [DecidableEq R] (s : UmfpackGenLinSOE R)
    (m m2 : Matrix R) (id : List Int) (fact : R)
    (hm : ¬ (id.length ≠ m.noRows ∧ id.length ≠ m.noCols))
    (hm2 : ¬ (id.length ≠ m2.noRows ∧ id.length ≠ m2.noCols))
    (hagree : ∀ i j, i < id.length → j < id.length →
      0 ≤ id.getD i 0 → id.getD i 0 < (s.size : Int) →
      0 ≤ id.getD j 0 → id.getD j 0 < (s.size : Int) →
      s.storesCol (id.getD i 0).toNat (id.getD j 0) = true → m.entry i j = m2.entry i j) :
    (s.addA m id fact).1 = 0 ∧
    (s.addA m id fact).2 = (s.addA m2 id fact).2 ∧
    ((∀ i j, i < id.length → j < id.length →
        0 ≤ id.getD i 0 → id.getD i 0 < (s.size : Int) →
        0 ≤ id.getD j 0 → id.getD j 0 < (s.size : Int) →
        s.storesCol (id.getD i 0).toNat (id.getD j 0) = false) →
      (s.addA m id fact).2 = s) ∧
    (∀ (r : Nat) (c : Int) (v : R) (A : List R), s.storesCol r c = false →
      scanRow s.colA c v (s.rowStartA.getD (r + 1) 0 - s.rowStartA.getD r 0)
        (s.rowStartA.getD r 0) A = A) := by
  refine ⟨addA_status_of_shape m id fact s hm, ?_, ?_, ?_⟩
  · by_cases hf : fact = 0
    · simp [UmfpackGenLinSOE.addA, hf]
    · rw [addA_frame m id fact s, addA_frame m2 id fact s, addA_A_of_shape m id fact s hm hf,
        addA_A_of_shape m2 id fact s hm2 hf]
      rw [addALoop_congr_stored s id _ _
        (fun i j h1 h2 h3 h4 h5 h6 h7 => by rw [hagree i j h1 h2 h3 h4 h5 h6 h7])]
  · intro hmiss
    by_cases hf : fact = 0
    · simp [UmfpackGenLinSOE.addA, hf]
    · rw [addA_frame m id fact s, addA_A_of_shape m id fact s hm hf,
        addALoop_no_hit s id _ hmiss]
  · intro r c v A hst
    exact scanRow_no_match _ _ _ _ _ _ (storesCol_false s r c hst)

/-- Instance of C27: on the system of three uncoupled DOFs, the ids `0, 2` with the matrix
`1 2 / 3 4` give the state that its diagonal part `1 0 / 0 4` gives; the entries `2` and
`3` belong to the positions `(0, 2)` and `(2, 0)`, inside `[0, 3)` and not stored. -/
theorem addA_drops_unstored_witness :
    threeSOE.storesCol 0 2 = false ∧ threeSOE.storesCol 2 0 = false ∧
    (threeSOE.addA sampleMatrix [0, 2] 1).1 = 0 ∧
    (threeSOE.addA sampleMatrix [0, 2] 1).2 = (threeSOE.addA diagMatrix [0, 2] 1).2 := by
  have h := addA_drops_unstored threeSOE sampleMatrix diagMatrix [0, 2] 1 (by decide)
    (by decide)
    (by
      intro i j hi hj _ _ _ _ hst
      have hi2 : i < 2 := hi
      have hj2 : j < 2 := hj
      interval_cases i <;> interval_cases j <;> first | rfl | exact absurd hst (by decide))
  exact ⟨by decide, by decide, h.1, h.2.1⟩

/-! ## Delegations of the analysis driver (C21, C22, C23) -/

/-- C21. Without a solution-method peer every collaborator accessor of `Analysis` returns
the null pointer (the accessors are total: no call fails); with a peer `sm`, each returns
what the accessor of the same name of `sm` returns. -/
theorem accessors_delegate (r : Int) (sm : SoluMethod) :
    (⟨r, none⟩ : Analysis).getConstraintHandlerPtr = none ∧
    (⟨r, none⟩ : Analysis).getDOF_NumbererPtr = none ∧
    (⟨r, none⟩ : Analysis).getAnalysisModelPtr = none ∧
    (⟨r, none⟩ : Analysis).getLinearSOEPtr = none ∧
    (⟨r, none⟩ : Analysis).getEigenSOEPtr = none ∧
    (⟨r, none⟩ : Analysis).getIntegratorPtr = none ∧
    (⟨r, none⟩ : Analysis).getIncrementalIntegratorPtr = none ∧
    (⟨r, none⟩ : Analysis).getEigenIntegratorPtr = none ∧
    (⟨r, none⟩ : Analysis).getLinearBucklingIntegratorPtr = none ∧
    (⟨r, none⟩ : Analysis).getTransientIntegratorPtr = none ∧
    (⟨r, none⟩ : Analysis).getStaticIntegratorPtr = none ∧
    (⟨r, none⟩ : Analysis).getEigenSolutionAlgorithmPtr = none ∧
    (⟨r, none⟩ : Analysis).getEquiSolutionAlgorithmPtr = none ∧
    (⟨r, none⟩ : Analysis).getDomainDecompSolutionAlgorithmPtr = none ∧
    (⟨r, none⟩ : Analysis).getConvergenceTestPtr = none ∧
    (⟨r, some sm⟩ : Analysis).getConstraintHandlerPtr = sm.getConstraintHandlerPtr ∧
    (⟨r, some sm⟩ : Analysis).getDOF_NumbererPtr = sm.getDOF_NumbererPtr ∧
    (⟨r, some sm⟩ : Analysis).getAnalysisModelPtr = sm.getAnalysisModelPtr ∧
    (⟨r, some sm⟩ : Analysis).getLinearSOEPtr = sm.getLinearSOEPtr ∧
    (⟨r, some sm⟩ : Analysis).getEigenSOEPtr = sm.getEigenSOEPtr ∧
    (⟨r, some sm⟩ : Analysis).getIntegratorPtr = sm.getIntegratorPtr ∧
    (⟨r, some sm⟩ : Analysis).getIncrementalIntegratorPtr = sm.getIncrementalIntegratorPtr ∧
    (⟨r, some sm⟩ : Analysis).getEigenIntegratorPtr = sm.getEigenIntegratorPtr ∧
    (⟨r, some sm⟩ : Analysis).getLinearBucklingIntegratorPtr
      = sm.getLinearBucklingIntegratorPtr ∧
    (⟨r, some sm⟩ : Analysis).getTransientIntegratorPtr = sm.getTransientIntegratorPtr ∧
    (⟨r, some sm⟩ : Analysis).getStaticIntegratorPtr = sm.getStaticIntegratorPtr ∧
    (⟨r, some sm⟩ : Analysis).getEigenSolutionAlgorithmPtr = sm.getEigenSolutionAlgorithmPtr ∧
    (⟨r, some sm⟩ : Analysis).getEquiSolutionAlgorithmPtr = sm.getEquiSolutionAlgorithmPtr ∧
    (⟨r, some sm⟩ : Analysis).getDomainDecompSolutionAlgorithmPtr
      = sm.getDomainDecompSolutionAlgorithmPtr ∧
    (⟨r, some sm⟩ : Analysis).getConvergenceTestPtr = sm.getConvergenceTestPtr := by
  refine ⟨rfl, rfl, rfl, rfl, rfl, rfl, rfl, rfl, rfl, rfl, rfl, rfl, rfl, rfl, rfl,
    rfl, rfl, rfl, rfl, rfl, rfl, rfl, rfl, rfl, rfl, rfl, rfl, rfl, rfl, rfl⟩

theorem setNumberer_own_deleted (b : ModelWrapper) (n : DOF_Numberer) (e : Env)
    (hn : b.theDOFNumberer = some n) (hnd : e.heap.live.Nodup) :
    (b.setNumberer n e).value = none := by
  have hdel : n.addr ∉ (b.libera_numerador e).2.heap.live := by
    simp only [ModelWrapper.libera_numerador, hn, Store.free]
    intro h
    exact ((List.Nodup.mem_erase_iff hnd).mp h).1 rfl
  unfold ModelWrapper.setNumberer
  simp only [copia_numerador_deleted b n e hdel, Option.map_none']

/-- C22, refutation of the claim as stated. The peer is present and its bundle is the one
that `clearAll` leaves (no model); the numberer passed in is a live object of its own:
`setNumberer` makes the copy and then stops at `assert(theModel)` in `setup_numerador`, and
no status is returned. And for the bundle that holds a model and a numberer, `setNumberer`
of the numberer that the bundle holds itself deletes that numberer and then copies through
the pointer to the deleted object. -/
theorem setNumberer_counterexample :
    (clearedBundle.1.theModel = none ∧
      (standaloneNumberer clearedBundle.2).1.addr
        ∈ (standaloneNumberer clearedBundle.2).2.heap.live ∧
      ((Analysis.construct (some (barePeer (some clearedBundle.1)))).setNumberer
        (standaloneNumberer clearedBundle.2).1 (standaloneNumberer clearedBundle.2).2).value
        = none ∧
      (clearedBundle.1.setNumberer (standaloneNumberer clearedBundle.2).1
        (standaloneNumberer clearedBundle.2).2).bundle.theDOFNumberer ≠ none) ∧
    (numberedBundle.1.theModel ≠ none ∧
      numberedBundle.1.theDOFNumberer = some ⟨3, .plainNumberer, some 0, 5⟩ ∧
      (3 : Addr) ∈ numberedBundle.2.heap.live ∧
      ((Analysis.construct (some (barePeer (some numberedBundle.1)))).setNumberer
        ⟨3, .plainNumberer, some 0, 5⟩ numberedBundle.2).value = none) := by
  decide

/-- C22, amended. With the peer present, `setLinearSOE`, `setEigenSOE`, `setIntegrator` and
`setAlgorithm` return the status of the operation of the peer (and leave the peer as that
operation leaves it); with the peer absent each returns `0` and changes nothing. With the
peer and its bundle present, for a numberer `n` that is a live object and not the one the
bundle holds itself, `setNumberer` gives what the bundle's `setNumberer` gives: when the
bundle has a model, the status `0`; when it has none, no status, the call being aborted by
`assert(theModel)`. In both cases the numberer slot of the bundle then holds a new object
that is a copy of `n` owned by the bundle, and the other two slots are as before. With
the peer or the bundle absent `setNumberer` returns `0` and changes nothing. -/
theorem setters_delegate (peerSet : SoluMethod → Int × SoluMethod) (r : Int)
    (sm : SoluMethod) (b : ModelWrapper) (n : DOF_Numberer) (e : Env)
    (hb : sm.getModelWrapperPtr = some b) (hn : n.addr ∈ e.heap.live)
    (hne : ∀ n2, b.theDOFNumberer = some n2 → n2.addr ≠ n.addr) :
    Analysis.setLinearSOE peerSet ⟨r, some sm⟩ = ((peerSet sm).1, ⟨r, some (peerSet sm).2⟩) ∧
    Analysis.setEigenSOE peerSet ⟨r, some sm⟩ = ((peerSet sm).1, ⟨r, some (peerSet sm).2⟩) ∧
    Analysis.setIntegrator peerSet ⟨r, some sm⟩ = ((peerSet sm).1, ⟨r, some (peerSet sm).2⟩) ∧
    Analysis.setAlgorithm peerSet ⟨r, some sm⟩ = ((peerSet sm).1, ⟨r, some (peerSet sm).2⟩) ∧
    Analysis.setLinearSOE peerSet ⟨r, none⟩ = (0, ⟨r, none⟩) ∧
    Analysis.setEigenSOE peerSet ⟨r, none⟩ = (0, ⟨r, none⟩) ∧
    Analysis.setIntegrator peerSet ⟨r, none⟩ = (0, ⟨r, none⟩) ∧
    Analysis.setAlgorithm peerSet ⟨r, none⟩ = (0, ⟨r, none⟩) ∧
    ((⟨r, some sm⟩ : Analysis).setNumberer n e).value = (b.setNumberer n e).value ∧
    (b.theModel ≠ none → (b.setNumberer n e).value = some 0) ∧
    (b.theModel = none → (b.setNumberer n e).value = none) ∧
    ((⟨r, some sm⟩ : Analysis).setNumberer n e).driver
      = ⟨r, some { sm with getModelWrapperPtr := some (b.setNumberer n e).bundle }⟩ ∧
    (∃ c, (b.setNumberer n e).bundle.theDOFNumberer = some c ∧ c.IsCloneOf n b.self ∧
      c.addr = e.heap.next) ∧
    (b.setNumberer n e).bundle.theModel = b.theModel ∧
    (b.setNumberer n e).bundle.theHandler = b.theHandler ∧
    n.addr ∈ (b.setNumberer n e).env.heap.live ∧
    (⟨r, none⟩ : Analysis).setNumberer n e = ⟨some 0, ⟨r, none⟩, e⟩ ∧
    (⟨r, some { sm with getModelWrapperPtr := none }⟩ : Analysis).setNumberer n e
      = ⟨some 0, ⟨r, some { sm with getModelWrapperPtr := none }⟩, e⟩ := by
  have hc := copia_numerador_ok b n e hn hne
  have hl := libera_numerador_live b e n.addr hn hne
  refine ⟨rfl, rfl, rfl, rfl, rfl, rfl, rfl, rfl, ?_, ?_, ?_, ?_, ?_, ?_, ?_, ?_, rfl, rfl⟩
  · simp [Analysis.setNumberer, hb]
  · intro hm
    unfold ModelWrapper.setNumberer
    simp [hc, hm]
  · intro hm
    unfold ModelWrapper.setNumberer
    simp [hc, hm]
  · simp [Analysis.setNumberer, hb]
  · unfold ModelWrapper.setNumberer
    rw [hc]
    exact ⟨_, rfl, ⟨rfl, rfl, rfl⟩, rfl⟩
  · unfold ModelWrapper.setNumberer
    rw [hc]
  · unfold ModelWrapper.setNumberer
    rw [hc]
  · unfold ModelWrapper.setNumberer
    rw [hc]
    exact List.mem_cons_of_mem _ hl

/-- Instance of the amended C22: the peer whose bundle is the freshly constructed one (it
has a model, and no numberer yet), and a plain numberer that is an object of its own. -/
theorem setters_delegate_witness :
    (barePeer (some freshBundle.1)).getModelWrapperPtr = some freshBundle.1 ∧
    (standaloneNumberer freshBundle.2).1.addr ∈ (standaloneNumberer freshBundle.2).2.heap.live ∧
    freshBundle.1.theModel ≠ none ∧
    ((Analysis.construct (some (barePeer (some freshBundle.1)))).setNumberer
      (standaloneNumberer freshBundle.2).1 (standaloneNumberer freshBundle.2).2).value
      = (freshBundle.1.setNumberer (standaloneNumberer freshBundle.2).1
          (standaloneNumberer freshBundle.2).2).value ∧
    (freshBundle.1.setNumberer (standaloneNumberer freshBundle.2).1
      (standaloneNumberer freshBundle.2).2).value = some 0 :=
  ⟨rfl, by decide, by decide,
    (setters_delegate (fun sm => (0, sm)) (-100) (barePeer (some freshBundle.1)) freshBundle.1
      (standaloneNumberer freshBundle.2).1 (standaloneNumberer freshBundle.2).2 rfl
      (by decide) (by decide)).2.2.2.2.2.2.2.2.1,
    (setters_delegate (fun sm => (0, sm)) (-100) (barePeer (some freshBundle.1)) freshBundle.1
      (standaloneNumberer freshBundle.2).1 (standaloneNumberer freshBundle.2).2 rfl
      (by decide) (by decide)).2.2.2.2.2.2.2.2.2.1 (by decide)⟩

/-- C23. When the broker produces an instance for the type tag read from the payload,
each hook of `ModelWrapper` puts that instance, with its owner set to the bundle, into
its slot, whatever the slot held, and leaves the other two slots (and the rest of the
bundle) as they are: the handler from position `0`, the numberer from position `1`, the
model from position `2`. The hooks of `Analysis` do this on the bundle of the peer. -/
theorem broke_hooks_attach (brokerH : Int → Option ConstraintHandler)
    (brokerN : Int → Option DOF_Numberer) (brokerM : Int → Option AnalysisModel)
    (r : Int) (sm : SoluMethod) (b : ModelWrapper) (data : List Int) (h : ConstraintHandler)
    (n : DOF_Numberer) (m : AnalysisModel) (hb : sm.getModelWrapperPtr = some b)
    (hH : brokerH (data.getD 0 0) = some h) (hN : brokerN (data.getD 1 0) = some n)
    (hM : brokerM (data.getD 2 0) = some m) :
    b.brokeConstraintHandler brokerH data
      = some { b with theHandler := some { h with owner := some b.self } } ∧
    b.brokeNumberer brokerN data
      = some { b with theDOFNumberer := some { n with owner := some b.self } } ∧
    b.brokeAnalysisModel brokerM data
      = some { b with theModel := some { m with owner := some b.self } } ∧
    Analysis.brokeConstraintHandler brokerH ⟨r, some sm⟩ data
      = (b.brokeConstraintHandler brokerH data).map
          (fun b2 => ⟨r, some { sm with getModelWrapperPtr := some b2 }⟩) ∧
    Analysis.brokeNumberer brokerN ⟨r, some sm⟩ data
      = (b.brokeNumberer brokerN data).map
          (fun b2 => ⟨r, some { sm with getModelWrapperPtr := some b2 }⟩) ∧
    Analysis.brokeAnalysisModel brokerM ⟨r, some sm⟩ data
      = (b.brokeAnalysisModel brokerM data).map
          (fun b2 => ⟨r, some { sm with getModelWrapperPtr := some b2 }⟩) := by
  simp only [ModelWrapper.brokeConstraintHandler, ModelWrapper.brokeNumberer,
    ModelWrapper.brokeAnalysisModel, Analysis.brokeConstraintHandler, Analysis.brokeNumberer,
    Analysis.brokeAnalysisModel, Analysis.onBundle, hb, hH, hN, hM, Option.map]
  simp

/-- Instance of C23: a broker that builds a plain handler for every tag, on the bundle that
already holds a Lagrange handler. -/
theorem broke_hooks_attach_witness :
    handlerBundle.1.theHandler = some ⟨2, .lagrange, some 0, 0⟩ ∧
    handlerBundle.1.brokeConstraintHandler (fun _ => some ⟨9, .plain, none, 0⟩) [3, 4, 5]
      = some { handlerBundle.1 with theHandler := some ⟨9, .plain, some 0, 0⟩ } :=
  ⟨by decide,
    (broke_hooks_attach (fun _ => some ⟨9, .plain, none, 0⟩) (fun _ => some looseNumberer)
      (fun _ => some ⟨8, none, 0⟩) (-100) (barePeer (some handlerBundle.1)) handlerBundle.1
      [3, 4, 5] ⟨9, .plain, none, 0⟩ looseNumberer ⟨8, none, 0⟩ rfl rfl rfl rfl).1⟩

/-! ## Row starts and rows after `setSize` (C24, C25) -/

theorem fillRows_getD_zero (g : Graph) (n : Nat) :
    ∀ (a startLoc : Nat) (colA : List Int) (rowStartA : List Nat),
      (fillRows g n a startLoc colA rowStartA).2.2.getD 0 0 = rowStartA.getD 0 0 := by
  induction n with
  | zero => intro _ _ _ _; rfl
  | succ n ih =>
    intro a startLoc colA rowStartA
    unfold fillRows
    cases g.getVertexPtr (a : Int) with
    | none => rfl
    | some v =>
      dsimp only
      rw [ih, getD_set_nat, if_neg (by omega)]

theorem bufferInv_setSize [Zero R] (g : Graph) (solverOK : Int) (s : UmfpackGenLinSOE R)
    (h : s.BufferInv) : (s.setSize g solverOK).2.BufferInv := by
  obtain ⟨hB, h0, hi⟩ := h
  refine ⟨?_, ?_, ?_⟩
  · rw [setSize_size, setSize_B, setSizeAlloc_B]
    split_ifs <;> first | omega | simp
  · rw [setSize_rowStartA]
    unfold UmfpackGenLinSOE.setSizeRows
    have hz : (s.setSizeAlloc g).rowStartA.getD 0 0 = 0 := by
      rw [setSizeAlloc_rowStartA]
      split_ifs
      · simp
      · exact h0
    split_ifs
    · rw [fillRows_getD_zero, getD_set_nat]
      split_ifs
      · rfl
      · exact hz
    · exact hz
  · rw [setSize_index_length, setSize_colA, (setSizeRows_length g (s.setSizeAlloc g)).1,
      setSizeAlloc_index, setSizeAlloc_colA]
    split_ifs
    · simp
    · exact hi

theorem Reachable.bufferInv [CommRing R] [DecidableEq R] {s : UmfpackGenLinSOE R}
    (h : Reachable s) : s.BufferInv := by
  induction h with
  | init => simp [UmfpackGenLinSOE.BufferInv, UmfpackGenLinSOE.init]
  | setSize g solverOK _ ih => exact bufferInv_setSize g solverOK _ ih
  | addA m id fact _ ih =>
    unfold UmfpackGenLinSOE.BufferInv
    rw [addA_frame]
    exact ih
  | zeroA _ ih => exact ih

theorem SizedBy.reachable [CommRing R] [DecidableEq R] {g : Graph} {s : UmfpackGenLinSOE R}
    (h : SizedBy g s) : Reachable s := by
  induction h with
  | setSize solverOK hr _ => exact Reachable.setSize g solverOK hr
  | addA m id fact _ ih => exact Reachable.addA m id fact ih
  | zeroA _ ih => exact Reachable.zeroA ih

theorem stores_rowStart_eq (s : UmfpackGenLinSOE R) (g : Graph) (hs : s.Stores g)
    (h0 : s.rowStartA.getD 0 0 = 0) (a : Nat) (ha : a ≤ s.size) :
    s.rowStartA.getD a 0 = (rowsFrom g a 0).length := by
  obtain ⟨_, _, _, _, _, hrs⟩ := hs
  cases a with
  | zero => rw [h0]; rfl
  | succ a => exact (hrs a (by omega)).2

theorem rowStart_length_of_inv (s : UmfpackGenLinSOE R) (h1 : s.AllocInv) (h2 : s.BufferInv)
    (hne : s.size ≠ 0) : s.size + 1 ≤ s.rowStartA.length := by
  obtain ⟨_, _, hB⟩ := h1
  obtain ⟨hs, _, _⟩ := h2
  rcases hB with hB | hB
  · omega
  · omega

theorem orderedInsert_lt_sorted (x : Int) (l : List Int) (h : l.Pairwise (· ≤ ·)) :
    (List.orderedInsert (· < ·) x l).Pairwise (· ≤ ·) := by
  induction l with
  | nil => simp
  | cons b l ih =>
    rw [List.orderedInsert]
    split_ifs with hx
    · refine List.Pairwise.cons ?_ h
      intro y hy
      rcases List.mem_cons.mp hy with hy | hy
      · rw [hy]; exact le_of_lt hx
      · exact le_trans (le_of_lt hx) (List.rel_of_pairwise_cons h hy)
    · refine List.Pairwise.cons ?_ (ih (List.Pairwise.of_cons h))
      intro y hy
      rcases (List.mem_orderedInsert _).mp hy with hy | hy
      · rw [hy]; exact not_lt.mp hx
      · exact List.rel_of_pairwise_cons h hy

theorem rowCols_sorted (v : Vertex) : (rowCols v).Pairwise (· ≤ ·) := by
  unfold rowCols
  have : ∀ (adj acc : List Int), acc.Pairwise (· ≤ ·) →
      (adj.foldl (fun acc row => List.orderedInsert (· < ·) row acc) acc).Pairwise (· ≤ ·) := by
    intro adj
    induction adj with
    | nil => intro acc h; exact h
    | cons r adj ih => intro acc h; exact ih _ (orderedInsert_lt_sorted r acc h)
  exact this _ _ (List.pairwise_singleton _ _)

theorem stores_rowSlots (s : UmfpackGenLinSOE R) (g : Graph) (hs : s.Stores g) (r : Nat)
    (hr : r < s.size) : s.rowSlots r = rowOf g r := by
  obtain ⟨h1, _, _⟩ := stores_row s g hs r hr
  obtain ⟨_, _, _, _, hcol, hrs⟩ := hs
  obtain ⟨rest, hrest⟩ := rowsFrom_split g s.size r hr
  have hsplit : s.colA = rowsFrom g r 0 ++ (rowOf g r ++ (rest ++ s.colA.drop s.nnz)) := by
    conv_lhs => rw [← List.take_append_drop s.nnz s.colA, hcol, hrest]
    simp
  unfold UmfpackGenLinSOE.rowSlots
  rw [h1, (hrs r hr).1, Nat.add_sub_cancel_left]
  conv_lhs => rw [hsplit]
  rw [List.drop_left, List.take_left]

/-- C24. After a `setSize` that returns `0` on a reachable state, for the graph `g` of `N`
vertices: every tag of `[0, N)` has a vertex (the vertices are tagged `0..N-1`),
`rowStartA[0] = 0`, and for every row `a < N` with vertex `v` the offsets do not decrease,
`rowStartA[a+1] - rowStartA[a]` is the size of the adjacency of `v` plus one, and the
slots `[rowStartA[a], rowStartA[a+1])` of `colA` hold the tag of `v` together with its
adjacent tags (as a permutation) in ascending order; `rowStartA[N] = nnz`. -/
theorem setSize_rows_layout [CommRing R] [DecidableEq R] (g : Graph) (solverOK : Int)
    (s : UmfpackGenLinSOE R) (hs : Reachable s) (h0 : (s.setSize g solverOK).1 = 0) :
    g.AllFound ∧
    (s.setSize g solverOK).2.rowStartA.getD 0 0 = 0 ∧
    (∀ (a : Nat) (v : Vertex), a < g.getNumVertex → g.getVertexPtr (a : Int) = some v →
      (s.setSize g solverOK).2.rowStartA.getD a 0
        ≤ (s.setSize g solverOK).2.rowStartA.getD (a + 1) 0 ∧
      (s.setSize g solverOK).2.rowStartA.getD (a + 1) 0
          - (s.setSize g solverOK).2.rowStartA.getD a 0 = v.adjacency.length + 1 ∧
      ((s.setSize g solverOK).2.rowSlots a).Perm (v.tag :: v.adjacency) ∧
      ((s.setSize g solverOK).2.rowSlots a).Pairwise (· ≤ ·)) ∧
    (s.setSize g solverOK).2.rowStartA.getD g.getNumVertex 0 = (s.setSize g solverOK).2.nnz := by
  have hst := setSize_stores g solverOK s hs.allocInv h0
  have hinv := (Reachable.setSize g solverOK hs).bufferInv
  have hsize : (s.setSize g solverOK).2.size = g.getNumVertex := hst.2.1
  refine ⟨hst.1, hinv.2.1, ?_, ?_⟩
  · intro a v ha hv
    obtain ⟨h1, _, _⟩ := stores_row _ g hst a (by omega)
    have hrow : rowOf g a = rowCols v := by simp [rowOf, hv]
    rw [stores_rowSlots _ g hst a (by omega), h1, hrow, rowCols_length]
    refine ⟨by omega, by omega, ?_, rowCols_sorted v⟩
    exact (rowCols_perm v).trans (List.perm_append_singleton _ _)
  · rw [stores_rowStart_eq _ g hst hinv.2.1 _ (by omega), hst.2.2.1, hsize]

/-- Instance of C24: the triangle of three coupled DOFs, sized from the fresh state; row
`1` holds the tags `0, 1, 2`. -/
theorem setSize_rows_layout_witness :
    ((UmfpackGenLinSOE.init : UmfpackGenLinSOE ℤ).setSize triangleGraph 0).1 = 0 ∧
    ((UmfpackGenLinSOE.init : UmfpackGenLinSOE ℤ).setSize triangleGraph 0).2.rowStartA.getD 3 0
      = ((UmfpackGenLinSOE.init : UmfpackGenLinSOE ℤ).setSize triangleGraph 0).2.nnz ∧
    (((UmfpackGenLinSOE.init : UmfpackGenLinSOE ℤ).setSize triangleGraph 0).2.rowSlots 1).Perm
      [1, 0, 2] ∧
    ((UmfpackGenLinSOE.init : UmfpackGenLinSOE ℤ).setSize triangleGraph 0).2.rowSlots 1
      = [0, 1, 2] :=
  ⟨by decide,
    (setSize_rows_layout triangleGraph 0 UmfpackGenLinSOE.init Reachable.init
      (by decide)).2.2.2,
    ((setSize_rows_layout triangleGraph 0 UmfpackGenLinSOE.init Reachable.init
      (by decide)).2.2.1 1 ⟨1, [0, 2]⟩ (by decide) (by decide)).2.2.1,
    by decide⟩

/-- C25, refutation of the claim as stated: a system sized for three uncoupled DOFs and
then for two coupled DOFs (both calls return `0`) has the row starts `0, 2, 4, 3`, of
length `4` instead of `2 + 1`, and the last entry, left from the first sizing, is smaller
than the one before it. -/
theorem rowStart_counterexample :
    ((UmfpackGenLinSOE.init : UmfpackGenLinSOE ℤ).setSize threeGraph 0).1 = 0 ∧
    (((UmfpackGenLinSOE.init : UmfpackGenLinSOE ℤ).setSize threeGraph 0).2.setSize
      pairGraph 0).1 = 0 ∧
    pairGraph.getNumVertex = 2 ∧
    regrownSOE.rowStartA = [0, 2, 4, 3] ∧
    regrownSOE.rowStartA.length ≠ pairGraph.getNumVertex + 1 ∧
    ¬ regrownSOE.rowStartA.Pairwise (· ≤ ·) := by
  decide

/-- C25, amended. After a `setSize` that returned `0` for a graph of `N` vertices on a
reachable state, and after any later calls of `addA` and `zeroA`: the row-start array has
length at least `N + 1` when `N ≠ 0`, its entries `0..N` do not decrease, the first being
`0` and the last `nnz`, and the column-index array has length at least `nnz`. -/
theorem rowStart_after_setSize [CommRing R] [DecidableEq R] (g : Graph)
    (s : UmfpackGenLinSOE R) (h : SizedBy g s) :
    (g.getNumVertex ≠ 0 → g.getNumVertex + 1 ≤ s.rowStartA.length) ∧
    (∀ a b : Nat, a ≤ b → b ≤ g.getNumVertex →
      s.rowStartA.getD a 0 ≤ s.rowStartA.getD b 0) ∧
    s.rowStartA.getD 0 0 = 0 ∧
    s.rowStartA.getD g.getNumVertex 0 = s.nnz ∧
    s.nnz ≤ s.colA.length := by
  have hst := h.stores
  have hr := h.reachable
  have hsize : s.size = g.getNumVertex := hst.2.1
  refine ⟨?_, ?_, hr.bufferInv.2.1, ?_, hr.allocInv.2.1⟩
  · intro hne
    rw [← hsize]
    exact rowStart_length_of_inv s hr.allocInv hr.bufferInv (by omega)
  · intro a b hab hb
    rw [stores_rowStart_eq s g hst hr.bufferInv.2.1 a (by omega),
      stores_rowStart_eq s g hst hr.bufferInv.2.1 b (by omega)]
    exact rowsFrom_length_mono g a b hab
  · rw [stores_rowStart_eq s g hst hr.bufferInv.2.1 _ (by omega), hst.2.2.1, hsize]

/-- Instance of the amended C25: the system sized for three uncoupled DOFs and then for two
coupled DOFs. -/
theorem rowStart_after_setSize_witness :
    (((UmfpackGenLinSOE.init : UmfpackGenLinSOE ℤ).setSize threeGraph 0).2.setSize
      pairGraph 0).1 = 0 ∧
    pairGraph.getNumVertex + 1 ≤ regrownSOE.rowStartA.length ∧
    regrownSOE.rowStartA.getD pairGraph.getNumVertex 0 = regrownSOE.nnz :=
  ⟨by decide,
    (rowStart_after_setSize pairGraph regrownSOE
      (SizedBy.setSize 0 (Reachable.setSize threeGraph 0 Reachable.init) (by decide))).1
      (by decide),
    (rowStart_after_setSize pairGraph regrownSOE
      (SizedBy.setSize 0 (Reachable.setSize threeGraph 0 Reachable.init)
        (by decide))).2.2.2.1⟩

/-! ## Reads of the element matrix (C28) -/

/-- C28, the call that departs from the claim: on the system of two coupled DOFs, `addA`
with the `1 × 2` matrix `wideMatrix`, the ids `0, 1` and factor `1` passes the shape test
(the number of ids equals the number of columns, and the test only rejects when it
differs from both dimensions), returns `0`, and reads `m(1,0)` and `m(1,1)`, whose row
index `1` is not below the number of rows `1`. -/
theorem addA_reads_outside_matrix :
    ¬ (([0, 1] : List Int).length ≠ wideMatrix.noRows ∧
        ([0, 1] : List Int).length ≠ wideMatrix.noCols) ∧
    (pairSOE.addA wideMatrix [0, 1] 1).1 = 0 ∧
    pairSOE.addAReads wideMatrix [0, 1] 1 = [(0, 0), (0, 1), (1, 0), (1, 1)] ∧
    (1, 0) ∈ pairSOE.addAReads wideMatrix [0, 1] 1 ∧
    ¬ (1 < wideMatrix.noRows) := by
  decide

/-! ## Every array access of `setSize` and `addA` is within bounds (C29) -/

theorem writeAt_eq {α : Type} (l : List α) (i : Nat) (x : α) (h : i < l.length) :
    writeAt l i x = some (l.set i x) := by
  unfold writeAt
  rw [if_pos h]

theorem wrapInt_of_fits (x : Int) (h0 : 0 ≤ x) (h1 : x ≤ 2147483647) : wrapInt x = x := by
  unfold wrapInt
  dsimp only
  split_ifs <;> omega

theorem setSizeAlloc32_eq [Zero R] (g : Graph) (s : UmfpackGenLinSOE R) (hfit : g.fitsInt) :
    s.setSizeAlloc32 g = s.setSizeAlloc g := by
  unfold Graph.fitsInt at hfit
  have hw : wrapInt (20 * (countNNZ g.vertices : Int))
      = ((20 * countNNZ g.vertices : Nat) : Int) := by
    rw [wrapInt_of_fits _ (by omega) (by omega)]
    push_cast
    rfl
  have hw2 : wrapInt (2 * (countNNZ g.vertices : Int))
      = ((2 * countNNZ g.vertices : Nat) : Int) := by
    rw [wrapInt_of_fits _ (by omega) (by omega)]
    push_cast
    rfl
  unfold UmfpackGenLinSOE.setSizeAlloc32 UmfpackGenLinSOE.setSizeAlloc
  dsimp only
  rw [hw, hw2]
  by_cases h : 20 * countNNZ g.vertices > s.A.length
  · have h2 : ((20 * countNNZ g.vertices : Nat) : Int) > (s.A.length : Int) := by
      exact_mod_cast h
    rw [if_pos h, if_pos h2]
    simp only [Int.toNat_ofNat]
  · have h2 : ¬ ((20 * countNNZ g.vertices : Nat) : Int) > (s.A.length : Int) := by
      intro h3; exact h (by exact_mod_cast h3)
    rw [if_neg h, if_neg h2]

theorem setSize32_eq [Zero R] (g : Graph) (solverOK : Int) (s : UmfpackGenLinSOE R)
    (hfit : g.fitsInt) : s.setSize32 g solverOK = s.setSize g solverOK := by
  unfold UmfpackGenLinSOE.setSize32 UmfpackGenLinSOE.setSize
  rw [setSizeAlloc32_eq g s hfit]

theorem ReachableFit.toReachable [CommRing R] [DecidableEq R] {s : UmfpackGenLinSOE R}
    (h : ReachableFit s) : Reachable s := by
  induction h with
  | init => exact Reachable.init
  | setSize g solverOK hfit _ ih =>
    rw [setSize32_eq g solverOK _ hfit]
    exact Reachable.setSize g solverOK ih
  | addA m id fact _ ih => exact Reachable.addA m id fact ih
  | zeroA _ ih => exact Reachable.zeroA ih

theorem cliqueGraph_numVertex (first N : Nat) : (cliqueGraph first N).getNumVertex = N := by
  simp [cliqueGraph, Graph.getNumVertex]

theorem cliqueGraph_countNNZ (first N : Nat) :
    countNNZ (cliqueGraph first N).vertices = N * N := by
  rw [countNNZ_eq_sum]
  unfold cliqueGraph
  rw [List.map_map]
  have : ∀ i ∈ List.range N,
      ((fun v : Vertex => v.adjacency.length + 1) ∘ (fun (i : Nat) =>
        (⟨((first + i : Nat) : Int),
          ((List.range N).erase i).map (fun (j : Nat) => ((first + j : Nat) : Int))⟩ :
          Vertex))) i = N := by
    intro i hi
    simp only [Function.comp, List.length_map]
    rw [List.length_erase_of_mem hi, List.length_range]
    have := List.mem_range.mp hi
    omega
  rw [List.map_congr_left this]
  simp

theorem cliqueGraph_missing (first N b : Nat) (h : b < first) :
    (cliqueGraph first N).getVertexPtr (b : Int) = none := by
  unfold Graph.getVertexPtr
  rw [List.find?_eq_none]
  intro v hv
  unfold cliqueGraph at hv
  obtain ⟨i, _, hiv⟩ := List.mem_map.mp hv
  rw [← hiv]
  simp only [decide_eq_true_eq]
  intro heq
  have : first + i = b := by exact_mod_cast heq
  omega

theorem setSizeAlloc32_overflow [Zero R] (g : Graph) (s : UmfpackGenLinSOE R)
    (h : wrapInt (20 * (countNNZ g.vertices : Int)) < 0) :
    (s.setSizeAlloc32 g).size = g.getNumVertex ∧
    (s.setSizeAlloc32 g).nnz = countNNZ g.vertices ∧
    (s.setSizeAlloc32 g).A.length = s.A.length ∧
    (s.setSizeAlloc32 g).colA = s.colA ∧
    (s.setSizeAlloc32 g).index = s.index ∧
    (s.setSizeAlloc32 g).rowStartA
      = (if g.getNumVertex > s.B.length then List.replicate (g.getNumVertex + 1) 0
          else s.rowStartA) := by
  have hn : ¬ wrapInt (20 * (countNNZ g.vertices : Int)) > (s.A.length : Int) := by omega
  unfold UmfpackGenLinSOE.setSizeAlloc32
  dsimp only
  rw [if_neg hn]
  split_ifs <;> simp

theorem setSizeAlloc32_size [Zero R] (g : Graph) (s : UmfpackGenLinSOE R) :
    (s.setSizeAlloc32 g).size = g.getNumVertex := by
  unfold UmfpackGenLinSOE.setSizeAlloc32
  dsimp only
  split_ifs <;> rfl

theorem hugeGapGraph_nnz : countNNZ hugeGapGraph.vertices = 107391769 := by
  unfold hugeGapGraph
  rw [cliqueGraph_countNNZ]

theorem wrapInt_overflow : wrapInt (20 * ((107391769 : Nat) : Int)) = -2147131916 := by
  unfold wrapInt
  norm_num

theorem setSizeRows_missing_first [Zero R] (g : Graph) (s : UmfpackGenLinSOE R)
    (hne : s.size ≠ 0) (h0 : g.getVertexPtr ((0 : Nat) : Int) = none) :
    s.setSizeRows g = (false, s.colA, s.rowStartA.set 0 0) ∧
    (s.rowStartA ≠ [] → s.setSizeRowsC g = some (false, s.colA, s.rowStartA.set 0 0)) := by
  obtain ⟨n, hn⟩ := Nat.exists_eq_succ_of_ne_zero hne
  constructor
  · unfold UmfpackGenLinSOE.setSizeRows
    rw [if_pos hne, hn]
    unfold fillRows
    rw [h0]
  · intro hrs
    unfold UmfpackGenLinSOE.setSizeRowsC
    rw [if_pos hne, writeAt_eq _ _ _ (List.length_pos.mpr hrs), hn]
    dsimp only
    unfold fillRowsC
    rw [h0]

theorem setSize32_missing_first [Zero R] (g : Graph) (solverOK : Int)
    (s : UmfpackGenLinSOE R) (hne : g.getNumVertex ≠ 0)
    (h0 : g.getVertexPtr ((0 : Nat) : Int) = none) :
    (s.setSize32 g solverOK).1 = -1 ∧
    (s.setSize32 g solverOK).2.nnz = (s.setSizeAlloc32 g).nnz ∧
    (s.setSize32 g solverOK).2.colA = (s.setSizeAlloc32 g).colA ∧
    (s.setSize32 g solverOK).2.A = (s.setSizeAlloc32 g).A ∧
    ((s.setSizeAlloc32 g).rowStartA ≠ [] →
      s.setSizeC g solverOK = some (s.setSize32 g solverOK)) := by
  have hsz : (s.setSizeAlloc32 g).size ≠ 0 := by rw [setSizeAlloc32_size]; exact hne
  obtain ⟨hr, hrC⟩ := setSizeRows_missing_first g (s.setSizeAlloc32 g) hsz h0
  have h32 : s.setSize32 g solverOK
      = (-1, { s.setSizeAlloc32 g with
                 size := 0, rowStartA := ((s.setSizeAlloc32 g).rowStartA.set 0 0) }) := by
    unfold UmfpackGenLinSOE.setSize32
    dsimp only
    rw [hr]
    rfl
  refine ⟨by rw [h32], by rw [h32], by rw [h32], by rw [h32], ?_⟩
  intro hrs
  rw [h32]
  unfold UmfpackGenLinSOE.setSizeC
  dsimp only
  rw [hrC hrs]
  rfl

theorem shrunkSOE_reachableFit : ReachableFit shrunkSOE := by
  have h1 := ReachableFit.setSize triangleGraph 0 (by decide)
    (ReachableFit.init : ReachableFit (UmfpackGenLinSOE.init : UmfpackGenLinSOE ℤ))
  rw [setSize32_eq triangleGraph 0 _ (by decide)] at h1
  have h2 := ReachableFit.setSize oneGraph 0 (by decide) h1
  rw [setSize32_eq oneGraph 0 _ (by decide)] at h2
  exact h2

theorem hugeGapGraph_overflow :
    wrapInt (20 * (countNNZ hugeGapGraph.vertices : Int)) < 0 ∧
    hugeGapGraph.getNumVertex = 10363 ∧
    hugeGapGraph.getVertexPtr ((0 : Nat) : Int) = none := by
  refine ⟨?_, ?_, ?_⟩
  · rw [hugeGapGraph_nnz, wrapInt_overflow]
    omega
  · unfold hugeGapGraph
    rw [cliqueGraph_numVertex]
  · unfold hugeGapGraph
    exact cliqueGraph_missing 1 10363 0 (by omega)

set_option maxRecDepth 4000 in
/-- C8, refutation of the claim as stated. After sizing for two coupled DOFs (`nnz = 4`), a
`setSize` for three uncoupled DOFs (`nnz = 3`, not larger) reallocates the right-hand
side and the row starts; on the system sized for the triangle and then for one DOF
(`nnz = 1`), a `setSize` for two uncoupled DOFs (`nnz = 2`, larger) reallocates nothing:
the value array keeps its 180 entries and the column-index array its 9; and on the system
of two coupled DOFs a `setSize` for the clique of 10363 vertices tagged `1..10363`
(`nnz = 107391769`, larger, `20*nnz` wrapping to a negative `int`) runs without any access
out of bounds and leaves the value array at its 80 entries, fewer than `nnz`. -/
theorem setSize_realloc_counterexample :
    (countNNZ threeGraph.vertices ≤ pairSOE.nnz ∧
      (pairSOE.setSize32 threeGraph 0).2.rowStartA.length ≠ pairSOE.rowStartA.length ∧
      (pairSOE.setSize32 threeGraph 0).2.B.length ≠ pairSOE.B.length) ∧
    (countNNZ twoGraph.vertices > shrunkSOE.nnz ∧
      (shrunkSOE.setSize32 twoGraph 0).2.A.length = shrunkSOE.A.length ∧
      (shrunkSOE.setSize32 twoGraph 0).2.A.length = 180 ∧
      (shrunkSOE.setSize32 twoGraph 0).2.colA.length = 9) ∧
    (countNNZ hugeGapGraph.vertices > pairSOE.nnz ∧
      pairSOE.setSizeC hugeGapGraph 0 = some (pairSOE.setSize32 hugeGapGraph 0) ∧
      (pairSOE.setSize32 hugeGapGraph 0).2.A.length = 80 ∧
      (pairSOE.setSize32 hugeGapGraph 0).2.A.length < countNNZ hugeGapGraph.vertices) := by
  refine ⟨?_, ?_, ?_⟩
  · rw [setSize32_eq threeGraph 0 pairSOE (by decide)]
    decide
  · rw [setSize32_eq twoGraph 0 shrunkSOE (by decide)]
    decide
  · obtain ⟨hw, hN, h0⟩ := hugeGapGraph_overflow
    have hne : hugeGapGraph.getNumVertex ≠ 0 := by rw [hN]; omega
    obtain ⟨_, _, a3, _, _, a6⟩ := setSizeAlloc32_overflow hugeGapGraph pairSOE hw
    obtain ⟨_, _, _, m4, m5⟩ := setSize32_missing_first hugeGapGraph 0 pairSOE hne h0
    have hA : (pairSOE.setSize32 hugeGapGraph 0).2.A.length = 80 := by
      rw [m4, a3]
      decide
    have hB : pairSOE.B.length = 2 := by decide
    have hn : pairSOE.nnz = 4 := by decide
    refine ⟨?_, m5 ?_, hA, ?_⟩
    · rw [hugeGapGraph_nnz, hn]
      omega
    · rw [a6, hN, hB, if_pos (by omega)]
      intro h
      have := congrArg List.length h
      rw [List.length_replicate, List.length_nil] at this
      omega
    · rw [hA, hugeGapGraph_nnz]
      omega

/-- C8, amended. For a system in a state reached by `setSize` calls whose product `20*nnz`
fits a 32-bit `int`, `addA` and `zeroA`, and a further `setSize` with nonzero count `n`
whose `20 * n` fits a 32-bit `int`: the value, column-index and index arrays keep their
capacity when `20 * n` does not exceed the capacity of the value array, which is the case
whenever `n` is not larger than the current `nnz`, and are reallocated to `20 * n`, `n`
and `2 * n` entries otherwise; the resulting capacity of the value and column-index
arrays is at least `n`; the right-hand side, the solution and the row starts keep their
capacity when the vertex count does not exceed the length of the right-hand side and are
reallocated otherwise. -/
theorem setSize_realloc [CommRing R] [DecidableEq R] (g : Graph) (solverOK : Int)
    (s : UmfpackGenLinSOE R) (h : ReachableFit s) (hfit : g.fitsInt) :
    (countNNZ g.vertices ≤ s.nnz → 20 * countNNZ g.vertices ≤ s.A.length) ∧
    (20 * countNNZ g.vertices ≤ s.A.length →
      (s.setSize32 g solverOK).2.A.length = s.A.length ∧
      (s.setSize32 g solverOK).2.colA.length = s.colA.length ∧
      (s.setSize32 g solverOK).2.index.length = s.index.length) ∧
    (s.A.length < 20 * countNNZ g.vertices →
      (s.setSize32 g solverOK).2.A.length = 20 * countNNZ g.vertices ∧
      (s.setSize32 g solverOK).2.colA.length = countNNZ g.vertices ∧
      (s.setSize32 g solverOK).2.index.length = 2 * countNNZ g.vertices) ∧
    (countNNZ g.vertices ≤ (s.setSize32 g solverOK).2.A.length ∧
      countNNZ g.vertices ≤ (s.setSize32 g solverOK).2.colA.length) ∧
    (g.getNumVertex ≤ s.B.length →
      (s.setSize32 g solverOK).2.B.length = s.B.length ∧
      (s.setSize32 g solverOK).2.X.length = s.X.length ∧
      (s.setSize32 g solverOK).2.rowStartA.length = s.rowStartA.length) ∧
    (s.B.length < g.getNumVertex →
      (s.setSize32 g solverOK).2.B.length = g.getNumVertex ∧
      (s.setSize32 g solverOK).2.X.length = g.getNumVertex ∧
      (s.setSize32 g solverOK).2.rowStartA.length = g.getNumVertex + 1) := by
  rw [setSize32_eq g solverOK s hfit]
  exact setSize_realloc_exact g solverOK s h.toReachable

set_option maxRecDepth 4000 in
/-- Instance of the amended C8: resizing the system of the triangle, later sized for one
DOF, for two uncoupled DOFs keeps the coefficient storage. -/
theorem setSize_realloc_witness :
    ReachableFit shrunkSOE ∧ twoGraph.fitsInt ∧
    20 * countNNZ twoGraph.vertices ≤ shrunkSOE.A.length ∧
    (shrunkSOE.setSize32 twoGraph 0).2.A.length = shrunkSOE.A.length ∧
    (shrunkSOE.setSize32 twoGraph 0).2.colA.length = shrunkSOE.colA.length ∧
    (shrunkSOE.setSize32 twoGraph 0).2.index.length = shrunkSOE.index.length :=
  ⟨shrunkSOE_reachableFit, by decide, by decide,
    (setSize_realloc twoGraph 0 shrunkSOE shrunkSOE_reachableFit (by decide)).2.1
      (by decide)⟩

end XC
